import Mathlib

/-!
Verification development for the ergo ER-diagram pipeline: a shallow embedding of
the DSL tokenizer, recursive-descent parser and printer (`src/client/src/lib/dsl-parser.ts`),
the AST/diagram-graph transforms (`src/client/src/lib/diagram-model.ts`) and the layout
function (`src/client/src/lib/mxgraph-editor.ts`), together with theorems about them.

Embedding conventions:
 - TypeScript string-literal unions become inductive types (`Cardinality.one` is `'1'`,
   `Cardinality.many` is `'M'`, `Participation.partial_` is `'partial'`,
   `KeyType.nokey` is `'none'`).
 - Optional TS fields become `Option`; JS truthiness of a string is `≠ ""`, of an
   optional object/array is `isSome`, of an optional boolean is `getD false`.
 - The loops of the tokenizer and parser take an explicit fuel argument so that all
   definitions are structurally recursive and kernel-reducible; entry points pass
   `length + 1` fuel, which is shown sufficient where needed (each loop iteration
   consumes at least one character/token).
 - JS `Map` is an insertion-ordered association list: `mapSet` updates in place or
   appends, `mapGet` finds.
 - Layout coordinates use `ℚ` (exact arithmetic); the only division the source
   performs is on relationship averaging, which no theorem below depends on.
-/

namespace Ergo

/-! ## Data model (`src/shared/erd-types.ts`) -/
inductive AttributeType
  | simple
  | composite
  | multivalued
  | derived
  | typed
deriving DecidableEq

inductive KeyType
  | pk
  | fk
  | nokey
deriving DecidableEq

inductive Cardinality
  | one
  | many
deriving DecidableEq

inductive Participation
  | total
  | partial_
deriving DecidableEq

inductive EntityType
  | strong
  | weak
deriving DecidableEq

inductive RelationshipType
  | normal
  | identifying
deriving DecidableEq

structure ForeignKeyTarget where
  entityName : String
  attributeName : String
deriving DecidableEq

/-- `AttributeNode`: name, attributeType, keyType, fkTarget?, dataType?, subAttributes?. -/
inductive AttributeNode where
  | mk : String → AttributeType → KeyType → Option ForeignKeyTarget → Option String →
      Option (List AttributeNode) → AttributeNode

def AttributeNode.name : AttributeNode → String
  | .mk n _ _ _ _ _ => n

def AttributeNode.attributeType : AttributeNode → AttributeType
  | .mk _ t _ _ _ _ => t

def AttributeNode.keyType : AttributeNode → KeyType
  | .mk _ _ k _ _ _ => k

def AttributeNode.fkTarget : AttributeNode → Option ForeignKeyTarget
  | .mk _ _ _ f _ _ => f

def AttributeNode.dataType : AttributeNode → Option String
  | .mk _ _ _ _ d _ => d

def AttributeNode.subAttributes : AttributeNode → Option (List AttributeNode)
  | .mk _ _ _ _ _ s => s

structure EntityNode where
  name : String
  entityType : EntityType
  attributes : List AttributeNode
  identifiedBy : Option (List ForeignKeyTarget)

structure RelationshipSide where
  entityName : String
  cardinality : Cardinality
  participation : Participation

structure RelationshipNode where
  name : String
  relationshipType : RelationshipType
  leftSide : RelationshipSide
  rightSide : RelationshipSide
  verb : String
  attributes : List AttributeNode

structure ERDiagramAST where
  entities : List EntityNode
  relationships : List RelationshipNode

inductive DiagramNodeType
  | entity
  | weakEntity
  | simpleAttribute
  | multivaluedAttribute
  | derivedAttribute
  | compositeAttribute
  | relationship
  | identifyingRelationship
deriving DecidableEq

/-- `DiagramNode` (geometry fields `x`/`y`/`width`/`height` are omitted: no embedded
operation reads them; layout results are returned as a separate position map). -/
structure DiagramNode where
  id : String
  type : DiagramNodeType
  label : String
  name : Option String := none
  parentId : Option String := none
  isPrimaryKey : Option Bool := none
  isForeignKey : Option Bool := none
  fkTarget : Option ForeignKeyTarget := none
  dataType : Option String := none
  identifiedBy : Option (List ForeignKeyTarget) := none
  entityType : Option EntityType := none
  relationshipType : Option RelationshipType := none

structure DiagramEdge where
  id : String
  sourceId : String
  targetId : String
  label : Option String := none
  sourceCardinality : Option Cardinality := none
  targetCardinality : Option Cardinality := none
  sourceParticipation : Option Participation := none
  targetParticipation : Option Participation := none

structure DiagramModel where
  nodes : List DiagramNode
  edges : List DiagramEdge

/-! ## Tokenizer (`dsl-parser.ts`, class `Tokenizer`) -/
inductive TokType
  | IDENTIFIER
  | ENTITY
  | WEAK
  | RELATION
  | IDENTIFYING
  | COMPOSITE
  | MULTIVALUED
  | DERIVED
  | PK
  | FK
  | IDENTIFIED
  | BY
  | TOTAL
  | PARTIALKW
  | M
  | ONE
  | NUMBER
  | COLON
  | LPAREN
  | RPAREN
  | COMMA
  | DOT
  | PLUS
  | ARROW
  | DASH
  | EOF
deriving DecidableEq

/-- The token-type strings used in error messages (`PARTIALKW` prints as the
source's `'PARTIAL'`). -/
def TokType.str : TokType → String
  | .IDENTIFIER => "IDENTIFIER"
  | .ENTITY => "ENTITY"
  | .WEAK => "WEAK"
  | .RELATION => "RELATION"
  | .IDENTIFYING => "IDENTIFYING"
  | .COMPOSITE => "COMPOSITE"
  | .MULTIVALUED => "MULTIVALUED"
  | .DERIVED => "DERIVED"
  | .PK => "PK"
  | .FK => "FK"
  | .IDENTIFIED => "IDENTIFIED"
  | .BY => "BY"
  | .TOTAL => "TOTAL"
  | .PARTIALKW => "PARTIAL"
  | .M => "M"
  | .ONE => "ONE"
  | .NUMBER => "NUMBER"
  | .COLON => "COLON"
  | .LPAREN => "LPAREN"
  | .RPAREN => "RPAREN"
  | .COMMA => "COMMA"
  | .DOT => "DOT"
  | .PLUS => "PLUS"
  | .ARROW => "ARROW"
  | .DASH => "DASH"
  | .EOF => "EOF"

structure Token where
  type : TokType
  value : String
  line : Nat
  column : Nat

/-- `/[a-zA-Z_]/` -/
def isAlphaUnd (c : Char) : Bool :=
  (('a' ≤ c) && (c ≤ 'z')) || (('A' ≤ c) && (c ≤ 'Z')) || (c = '_')

/-- `/[0-9]/` -/
def isDigitC (c : Char) : Bool :=
  ('0' ≤ c) && (c ≤ '9')

/-- `/[a-zA-Z0-9_]/` -/
def isIdentC (c : Char) : Bool :=
  isAlphaUnd c || isDigitC c

/-- The keyword table of `readIdentifier`. -/
def keywordType (s : String) : TokType :=
  if s = "Entity" then .ENTITY
  else if s = "Weak" then .WEAK
  else if s = "Relation" then .RELATION
  else if s = "Identifying" then .IDENTIFYING
  else if s = "Composite" then .COMPOSITE
  else if s = "Multivalued" then .MULTIVALUED
  else if s = "Derived" then .DERIVED
  else if s = "PK" then .PK
  else if s = "FK" then .FK
  else if s = "Identified" then .IDENTIFIED
  else if s = "By" then .BY
  else if s = "total" then .TOTAL
  else if s = "partial" then .PARTIALKW
  else if s = "M" then .M
  else .IDENTIFIER

/-- The comment part of `skipWhitespaceAndComments`: skip to the next newline
(or end of input), counting columns. -/
def skipLineComment : List Char → Nat → List Char × Nat
  | [], col => ([], col)
  | c :: cs, col => if c = '\n' then (c :: cs, col) else skipLineComment cs (col + 1)

/-- `skipWhitespaceAndComments`: after a comment the source loop re-checks the current
character, which is a newline or the end of input, and stops either way, so returning
the comment skipper's result directly is equivalent. -/
def skipWs : List Char → Nat → List Char × Nat
  | [], col => ([], col)
  | c :: cs, col =>
    if c = ' ' || c = '\t' || c = '\r' then skipWs cs (col + 1)
    else if c = '#' then skipLineComment cs (col + 1)
    else (c :: cs, col)

/-- The main `tokenize` loop. Fuel is structural; one unit is spent per iteration and
every iteration except the final end-of-input one consumes at least one character, so
`length + 1` fuel always suffices (`tokenize` below passes exactly that). -/
def tokLoop : Nat → List Char → Nat → Nat → List Token
  | 0, _, line, col => [⟨.EOF, "", line, col⟩]
  | f + 1, cs, line, col =>
    match skipWs cs col with
    | (cs', col') =>
      match cs' with
      | [] => [⟨.EOF, "", line, col'⟩]
      | c :: rest =>
        if c = '\n' then tokLoop f rest (line + 1) 1
        else if isAlphaUnd c then
          let v : List Char := c :: rest.takeWhile isIdentC
          let rem := rest.dropWhile isIdentC
          let s : String := ⟨v⟩
          ⟨keywordType s, s, line, col'⟩ :: tokLoop f rem line (col' + v.length)
        else if isDigitC c then
          let v : List Char := c :: rest.takeWhile isDigitC
          let rem := rest.dropWhile isDigitC
          let s : String := ⟨v⟩
          if s = "1" then ⟨.ONE, "1", line, col'⟩ :: tokLoop f rem line (col' + v.length)
          else ⟨.NUMBER, s, line, col'⟩ :: tokLoop f rem line (col' + v.length)
        else if c = ':' then ⟨.COLON, ":", line, col'⟩ :: tokLoop f rest line (col' + 1)
        else if c = '(' then ⟨.LPAREN, "(", line, col'⟩ :: tokLoop f rest line (col' + 1)
        else if c = ')' then ⟨.RPAREN, ")", line, col'⟩ :: tokLoop f rest line (col' + 1)
        else if c = ',' then ⟨.COMMA, ",", line, col'⟩ :: tokLoop f rest line (col' + 1)
        else if c = '.' then ⟨.DOT, ".", line, col'⟩ :: tokLoop f rest line (col' + 1)
        else if c = '+' then ⟨.PLUS, "+", line, col'⟩ :: tokLoop f rest line (col' + 1)
        else if c = '-' then
          match rest with
          | '>' :: rest2 => ⟨.ARROW, "->", line, col'⟩ :: tokLoop f rest2 line (col' + 2)
          | '-' :: rest2 => ⟨.DASH, "--", line, col'⟩ :: tokLoop f rest2 line (col' + 2)
          | _ => tokLoop f rest line (col' + 1)
        else if c = '—' then ⟨.DASH, "—", line, col'⟩ :: tokLoop f rest line (col' + 1)
        else tokLoop f rest line (col' + 1)

def tokenize (input : String) : List Token :=
  tokLoop (input.toList.length + 1) input.toList 1 1

/-! ## Parser (`dsl-parser.ts`, class `Parser`) -/
/-- `current()`: the token array always ends with the EOF sentinel, so the default
of `headD` is never read on inputs produced by `tokenize`. -/
def cur (ts : List Token) : Token :=
  ts.headD ⟨.EOF, "", 0, 0⟩

/-- `isAtEnd()` -/
def isAtEnd (ts : List Token) : Bool :=
  decide ((cur ts).type = .EOF)

/-- `check(type)` -/
def check (ty : TokType) (ts : List Token) : Bool :=
  decide ((cur ts).type ≠ .EOF ∧ (cur ts).type = ty)

/-- `expect(type)`: consume the current token or fail with the source's message. -/
def expect (ty : TokType) (ts : List Token) : Except String (Token × List Token) :=
  if check ty ts then .ok (cur ts, ts.tail)
  else .error ("Expected " ++ ty.str ++ " but got " ++ (cur ts).type.str ++
    " at line " ++ toString (cur ts).line ++ ", column " ++ toString (cur ts).column)

/-- `peek(1)` -/
def peek1 (ts : List Token) : Option Token :=
  ts[1]?

def isEntityOrRelationStart (ts : List Token) : Bool :=
  check .ENTITY ts || check .WEAK ts || check .RELATION ts || check .IDENTIFYING ts

/-- The lookahead test of `parseSubAttributeList`. -/
def isMarkerTok : Option Token → Bool
  | some t => decide (t.type = .PK ∨ t.type = .FK ∨ t.type = .COMPOSITE ∨
      t.type = .MULTIVALUED ∨ t.type = .DERIVED)
  | none => false

def mkSimpleAttr (n : String) : AttributeNode :=
  .mk n .simple .nokey none none none

def parseFkTarget (ts : List Token) : Except String (ForeignKeyTarget × List Token) := do
  let (etok, ts1) ← expect .IDENTIFIER ts
  let (_, ts2) ← expect .DOT ts1
  let (atok, ts3) ← expect .IDENTIFIER ts2
  .ok (⟨etok.value, atok.value⟩, ts3)

def parseCardinality (ts : List Token) : Except String (Cardinality × List Token) :=
  if check .ONE ts then .ok (.one, ts.tail)
  else if check .M ts then .ok (.many, ts.tail)
  else .error ("Expected cardinality (1 or M) at line " ++ toString (cur ts).line)

def parseParticipation (ts : List Token) : Except String (Participation × List Token) :=
  if check .TOTAL ts then .ok (.total, ts.tail)
  else if check .PARTIALKW ts then .ok (.partial_, ts.tail)
  else .error ("Expected participation (total or partial) at line " ++ toString (cur ts).line)

/-- The optional-participation step of `parseRelation`:
`if (this.check('COMMA')) { this.advance(); … = this.parseParticipation(); }`
with the default `'partial'` otherwise. -/
def parseOptParticipation (ts : List Token) : Except String (Participation × List Token) :=
  if check .COMMA ts then parseParticipation ts.tail
  else .ok (.partial_, ts)

/-- `parseSubAttributeList`: the source's two conditional pushes around the break
construct the same node, so they are merged. The loop guard `!isAtEnd && check`
equals `check`, which already excludes EOF. -/
def parseSubAttributeList : Nat → List Token → List AttributeNode × List Token
  | 0, ts => ([], ts)
  | f + 1, ts =>
    if check .IDENTIFIER ts then
      if isMarkerTok (peek1 ts) then ([], ts)
      else
        let n := (cur ts).value
        let ts1 := ts.tail
        if isEntityOrRelationStart ts1 || check .IDENTIFIED ts1 then ([mkSimpleAttr n], ts1)
        else
          let (rest, ts2) := parseSubAttributeList f ts1
          (mkSimpleAttr n :: rest, ts2)
    else ([], ts)

def parseAttribute (f : Nat) (ts : List Token) : Except String (AttributeNode × List Token) := do
  let (ntok, ts1) ← expect .IDENTIFIER ts
  let n := ntok.value
  if check .PK ts1 then .ok (.mk n .simple .pk none none none, ts1.tail)
  else if check .FK ts1 then
    let ts2 := ts1.tail
    if check .ARROW ts2 then do
      let (t, ts3) ← parseFkTarget ts2.tail
      .ok (.mk n .simple .fk (some t) none none, ts3)
    else .ok (.mk n .simple .fk none none none, ts2)
  else if check .COMPOSITE ts1 then do
    let (_, ts2) ← expect .COLON ts1.tail
    let (subs, ts3) := parseSubAttributeList f ts2
    .ok (.mk n .composite .nokey none none (some subs), ts3)
  else if check .MULTIVALUED ts1 then .ok (.mk n .multivalued .nokey none none none, ts1.tail)
  else if check .DERIVED ts1 then .ok (.mk n .derived .nokey none none none, ts1.tail)
  else if check .COLON ts1 then do
    let (dtok, ts2) ← expect .IDENTIFIER ts1.tail
    .ok (.mk n .typed .nokey none (some dtok.value) none, ts2)
  else .ok (.mk n .simple .nokey none none none, ts1)

def parseAttributeList : Nat → List Token → Except String (List AttributeNode × List Token)
  | 0, _ => .error "out of fuel"
  | f + 1, ts =>
    if !isAtEnd ts && !isEntityOrRelationStart ts then
      if check .IDENTIFIER ts then do
        let (a, ts1) ← parseAttribute f ts
        let (rest, ts2) ← parseAttributeList f ts1
        .ok (a :: rest, ts2)
      else if check .IDENTIFIED ts then .ok ([], ts)
      else parseAttributeList f ts.tail
    else .ok ([], ts)

def parseIdentifiedByMore : Nat → List ForeignKeyTarget → List Token →
    Except String (List ForeignKeyTarget × List Token)
  | 0, _, _ => .error "out of fuel"
  | f + 1, acc, ts =>
    if check .PLUS ts then do
      let (t, ts1) ← parseFkTarget ts.tail
      parseIdentifiedByMore f (acc ++ [t]) ts1
    else .ok (acc, ts)

def parseIdentifiedByList (f : Nat) (ts : List Token) :
    Except String (List ForeignKeyTarget × List Token) := do
  let (t, ts1) ← parseFkTarget ts
  parseIdentifiedByMore f [t] ts1

def parseEntity (f : Nat) (ts : List Token) : Except String (EntityNode × List Token) := do
  let (_, ts1) ← expect .ENTITY ts
  let (ntok, ts2) ← expect .IDENTIFIER ts1
  let (_, ts3) ← expect .COLON ts2
  let (attrs, ts4) ← parseAttributeList f ts3
  .ok ({ name := ntok.value, entityType := .strong, attributes := attrs, identifiedBy := none }, ts4)

def parseWeakEntity (f : Nat) (ts : List Token) : Except String (EntityNode × List Token) := do
  let (_, ts1) ← expect .WEAK ts
  let (_, ts2) ← expect .ENTITY ts1
  let (ntok, ts3) ← expect .IDENTIFIER ts2
  let (_, ts4) ← expect .COLON ts3
  let (attrs, ts5) ← parseAttributeList f ts4
  if check .IDENTIFIED ts5 then do
    let (_, ts6) ← expect .BY ts5.tail
    let (ids, ts7) ← parseIdentifiedByList f ts6
    .ok ({ name := ntok.value, entityType := .weak, attributes := attrs,
           identifiedBy := some ids }, ts7)
  else
    .ok ({ name := ntok.value, entityType := .weak, attributes := attrs,
           identifiedBy := none }, ts5)

def parseRelationAttributeList : Nat → List Token → List AttributeNode × List Token
  | 0, ts => ([], ts)
  | f + 1, ts =>
    if !isAtEnd ts && !isEntityOrRelationStart ts && check .IDENTIFIER ts then
      let n := (cur ts).value
      let (rest, ts2) := parseRelationAttributeList f ts.tail
      (mkSimpleAttr n :: rest, ts2)
    else ([], ts)

def parseRelation (f : Nat) (ts : List Token) : Except String (RelationshipNode × List Token) := do
  let (_, ts1) ← expect .RELATION ts
  let (ltok, ts2) ← expect .IDENTIFIER ts1
  let (_, ts3) ← expect .LPAREN ts2
  let (lc, ts4) ← parseCardinality ts3
  let (lp, ts5) ← parseOptParticipation ts4
  let (_, ts6) ← expect .RPAREN ts5
  let (_, ts7) ← expect .DASH ts6
  let (_, ts8) ← expect .LPAREN ts7
  let (rc, ts9) ← parseCardinality ts8
  let (rp, ts10) ← parseOptParticipation ts9
  let (_, ts11) ← expect .RPAREN ts10
  let (rtok, ts12) ← expect .IDENTIFIER ts11
  let (_, ts13) ← expect .COLON ts12
  let (vtok, ts14) ← expect .IDENTIFIER ts13
  let (attrs, ts15) := parseRelationAttributeList f ts14
  .ok ({ name := vtok.value, relationshipType := .normal,
         leftSide := ⟨ltok.value, lc, lp⟩, rightSide := ⟨rtok.value, rc, rp⟩,
         verb := vtok.value, attributes := attrs }, ts15)

def parseIdentifyingRelation (ts : List Token) :
    Except String (RelationshipNode × List Token) := do
  let (_, ts1) ← expect .IDENTIFYING ts
  let (_, ts2) ← expect .RELATION ts1
  let (ltok, ts3) ← expect .IDENTIFIER ts2
  let (_, ts4) ← expect .LPAREN ts3
  let (lc, ts5) ← parseCardinality ts4
  let (_, ts6) ← expect .RPAREN ts5
  let (_, ts7) ← expect .DASH ts6
  let (_, ts8) ← expect .LPAREN ts7
  let (rc, ts9) ← parseCardinality ts8
  let (_, ts10) ← expect .RPAREN ts9
  let (rtok, ts11) ← expect .IDENTIFIER ts10
  let (_, ts12) ← expect .COLON ts11
  let (vtok, ts13) ← expect .IDENTIFIER ts12
  .ok ({ name := vtok.value, relationshipType := .identifying,
         leftSide := ⟨ltok.value, lc, .total⟩, rightSide := ⟨rtok.value, rc, .total⟩,
         verb := vtok.value, attributes := [] }, ts13)

/-- The `parse()` loop: unknown top-level tokens are skipped. -/
def parseProgram : Nat → List Token → Except String (List EntityNode × List RelationshipNode)
  | 0, _ => .error "out of fuel"
  | f + 1, ts =>
    if isAtEnd ts then .ok ([], [])
    else if check .ENTITY ts then do
      let (e, ts1) ← parseEntity f ts
      let (es, rs) ← parseProgram f ts1
      .ok (e :: es, rs)
    else if check .WEAK ts then do
      let (e, ts1) ← parseWeakEntity f ts
      let (es, rs) ← parseProgram f ts1
      .ok (e :: es, rs)
    else if check .RELATION ts then do
      let (r, ts1) ← parseRelation f ts
      let (es, rs) ← parseProgram f ts1
      .ok (es, r :: rs)
    else if check .IDENTIFYING ts then do
      let (r, ts1) ← parseIdentifyingRelation ts
      let (es, rs) ← parseProgram f ts1
      .ok (es, r :: rs)
    else parseProgram f ts.tail

def parseDSL (input : String) : Except String ERDiagramAST := do
  let ts := tokenize input
  let (es, rs) ← parseProgram (ts.length + 1) ts
  .ok ⟨es, rs⟩

/-! ## Printer (`dsl-parser.ts`, `generateDSL` / `generateAttribute`) -/
def cardStr : Cardinality → String
  | .one => "1"
  | .many => "M"

/-- `Array.prototype.join(sep)` -/
def joinSep (sep : String) : List String → String
  | [] => ""
  | [x] => x
  | x :: xs => x ++ sep ++ joinSep sep xs

def fkTargetStr (t : ForeignKeyTarget) : String :=
  t.entityName ++ "." ++ t.attributeName

/-- `String.prototype.trim()` (the generated text only ever carries ASCII whitespace). -/
def jsTrim (s : String) : String :=
  ⟨((s.toList.dropWhile fun c => c = ' ' || c = '\t' || c = '\n' || c = '\r').reverse.dropWhile
      fun c => c = ' ' || c = '\t' || c = '\n' || c = '\r').reverse⟩

/-- `generateAttribute`: the branch order follows the source's if/else-if chain; an
empty `dataType` string is falsy in JS, hence the extra test in the typed branch. -/
def generateAttribute : AttributeNode → String → String
  | .mk n at_ kt fkt dt subs, indent =>
    let line := indent ++ n
    match kt, fkt, at_, dt, subs with
    | .pk, _, _, _, _ => line ++ " PK"
    | .fk, some t, _, _, _ => line ++ " FK -> " ++ fkTargetStr t
    | _, _, .composite, _, some l =>
        line ++ " Composite:" ++ "\n" ++ joinSep "\n" (generateAttributeList l (indent ++ "  "))
    | _, _, .multivalued, _, _ => line ++ " Multivalued"
    | _, _, .derived, _, _ => line ++ " Derived"
    | _, _, .typed, some d, _ => if d = "" then line else line ++ ": " ++ d
    | _, _, _, _, _ => line
where generateAttributeList : List AttributeNode → String → List String
  | [], _ => []
  | a :: rest, ind => generateAttribute a ind :: generateAttributeList rest ind

def entityHeader (e : EntityNode) : String :=
  if e.entityType = .weak then "Weak Entity " ++ e.name ++ ":"
  else "Entity " ++ e.name ++ ":"

def entityLines (e : EntityNode) : List String :=
  [entityHeader e] ++ e.attributes.map (fun a => generateAttribute a "  ") ++
  (match e.entityType, e.identifiedBy with
   | .weak, some ids => ["  Identified By " ++ joinSep " + " (ids.map fkTargetStr)]
   | _, _ => []) ++
  [""]

def sidePart (rt : RelationshipType) (s : RelationshipSide) : String :=
  if s.participation = .total ∧ rt = .normal then "(" ++ cardStr s.cardinality ++ ", total)"
  else if s.participation = .partial_ ∧ rt = .normal then "(" ++ cardStr s.cardinality ++ ", partial)"
  else "(" ++ cardStr s.cardinality ++ ")"

def relHeader (r : RelationshipNode) : String :=
  (if r.relationshipType = .identifying then "Identifying Relation " else "Relation ") ++
  r.leftSide.entityName ++ " " ++ sidePart r.relationshipType r.leftSide ++ " — " ++
  sidePart r.relationshipType r.rightSide ++ " " ++ r.rightSide.entityName ++ ": " ++ r.verb

def relLines (r : RelationshipNode) : List String :=
  [relHeader r] ++ r.attributes.map (fun a => "  " ++ a.name) ++ [""]

def generateDSL (ast : ERDiagramAST) : String :=
  jsTrim (joinSep "\n"
    ((ast.entities.flatMap entityLines) ++ (ast.relationships.flatMap relLines)))

/-! ## Association-list embedding of JS `Map` -/
def mapSet {α : Type} : List (String × α) → String → α → List (String × α)
  | [], k, v => [(k, v)]
  | (k', v') :: rest, k, v =>
    if k' = k then (k, v) :: rest else (k', v') :: mapSet rest k v

def mapGet {α : Type} : List (String × α) → String → Option α
  | [], _ => none
  | (k', v) :: rest, k => if k' = k then some v else mapGet rest k

/-! ## Forward transform (`diagram-model.ts`, `astToDiagramModel`) -/
/-- `` `node_${++nodeIdCounter}` `` -/
def freshNodeId (ctr : Nat) : String :=
  "node_" ++ toString (ctr + 1)

/-- `` `edge_${++edgeIdCounter}` `` -/
def freshEdgeId (ctr : Nat) : String :=
  "edge_" ++ toString (ctr + 1)

/-- The per-call generation state: accumulated nodes/edges, the two identifier
counters (reset by `resetIdCounters` at the start of `astToDiagramModel`), and
`entityNodeMap`. The source's `relationNodeMap` is written but never read, so it
is omitted. -/
structure GenState where
  nodes : List DiagramNode
  edges : List DiagramEdge
  nodeCtr : Nat
  edgeCtr : Nat
  entityMap : List (String × String)

def attrNodeType : AttributeType → DiagramNodeType
  | .composite => .compositeAttribute
  | .multivalued => .multivaluedAttribute
  | .derived => .derivedAttribute
  | _ => .simpleAttribute

mutual

def processAttribute : AttributeNode → String → GenState → GenState
  | .mk n at_ kt fkt dt subs, parentId, st =>
    let attrId := freshNodeId st.nodeCtr
    let node : DiagramNode :=
      { id := attrId, type := attrNodeType at_, label := n, parentId := some parentId,
        isPrimaryKey := some (decide (kt = .pk)), isForeignKey := some (decide (kt = .fk)),
        fkTarget := fkt, dataType := dt }
    let edge : DiagramEdge :=
      { id := freshEdgeId st.edgeCtr, sourceId := parentId, targetId := attrId }
    let st1 : GenState :=
      { st with
        nodes := st.nodes ++ [node],
        edges := st.edges ++ [edge],
        nodeCtr := st.nodeCtr + 1,
        edgeCtr := st.edgeCtr + 1 }
    match at_, subs with
    | .composite, some l => processAttributeList l attrId st1
    | _, _ => st1

def processAttributeList : List AttributeNode → String → GenState → GenState
  | [], _, st => st
  | a :: rest, parentId, st => processAttributeList rest parentId (processAttribute a parentId st)

end

def genEntity (st : GenState) (e : EntityNode) : GenState :=
  let eid := freshNodeId st.nodeCtr
  let node : DiagramNode :=
    { id := eid, type := if e.entityType = .weak then .weakEntity else .entity,
      label := e.name, name := some e.name, entityType := some e.entityType,
      identifiedBy := e.identifiedBy }
  let st1 : GenState :=
    { st with
      nodes := st.nodes ++ [node],
      nodeCtr := st.nodeCtr + 1,
      entityMap := mapSet st.entityMap e.name eid }
  processAttributeList e.attributes eid st1

def genRelationship (st : GenState) (r : RelationshipNode) : GenState :=
  let rid := freshNodeId st.nodeCtr
  let node : DiagramNode :=
    { id := rid,
      type := if r.relationshipType = .identifying then .identifyingRelationship
              else .relationship,
      label := r.verb, name := some r.name, relationshipType := some r.relationshipType }
  let st1 : GenState :=
    { st with
      nodes := st.nodes ++ [node],
      nodeCtr := st.nodeCtr + 1 }
  let st2 : GenState :=
    match mapGet st1.entityMap r.leftSide.entityName with
    | some lid =>
      { st1 with
        edges := st1.edges ++
          [{ id := freshEdgeId st1.edgeCtr, sourceId := lid, targetId := rid,
             sourceCardinality := some r.leftSide.cardinality,
             sourceParticipation := some r.leftSide.participation }],
        edgeCtr := st1.edgeCtr + 1 }
    | none => st1
  let st3 : GenState :=
    match mapGet st2.entityMap r.rightSide.entityName with
    | some rid2 =>
      { st2 with
        edges := st2.edges ++
          [{ id := freshEdgeId st2.edgeCtr, sourceId := rid, targetId := rid2,
             targetCardinality := some r.rightSide.cardinality,
             targetParticipation := some r.rightSide.participation }],
        edgeCtr := st2.edgeCtr + 1 }
    | none => st2
  processAttributeList r.attributes rid st3

def initialGenState : GenState :=
  ⟨[], [], 0, 0, []⟩

def astToDiagramModel (ast : ERDiagramAST) : DiagramModel :=
  let st1 := ast.entities.foldl genEntity initialGenState
  let st2 := ast.relationships.foldl genRelationship st1
  ⟨st2.nodes, st2.edges⟩

/-! ## Reverse transform (`diagram-model.ts`, `diagramModelToAST`) -/
/-- `edge.sourceCardinality || edge.targetCardinality` (the cardinality strings
`'1'`/`'M'` are non-empty, hence truthy exactly when present). -/
def edgeHasCard (e : DiagramEdge) : Bool :=
  e.sourceCardinality.isSome || e.targetCardinality.isSome

/-- `child.type.includes('Attribute')` over the closed `DiagramNodeType` union. -/
def typeIncludesAttribute : DiagramNodeType → Bool
  | .simpleAttribute => true
  | .multivaluedAttribute => true
  | .derivedAttribute => true
  | .compositeAttribute => true
  | _ => false

def buildNodeMap (nodes : List DiagramNode) : List (String × DiagramNode) :=
  nodes.foldl (fun m n => mapSet m n.id n) []

/-- One step of the `childrenMap` construction: an edge counts as containment exactly
when `!edge.sourceCardinality && !edge.targetCardinality`. -/
def childStep (nodeMap : List (String × DiagramNode)) (m : List (String × List DiagramNode))
    (e : DiagramEdge) : List (String × List DiagramNode) :=
  if !edgeHasCard e then
    match mapGet nodeMap e.targetId with
    | some child => mapSet m e.sourceId ((mapGet m e.sourceId).getD [] ++ [child])
    | none => m
  else m

def buildChildrenMap (edges : List DiagramEdge) (nodeMap : List (String × DiagramNode)) :
    List (String × List DiagramNode) :=
  edges.foldl (childStep nodeMap) []

def nodeAttrType : DiagramNodeType → AttributeType
  | .compositeAttribute => .composite
  | .multivaluedAttribute => .multivalued
  | .derivedAttribute => .derived
  | _ => .simple

/-- `child.isPrimaryKey ? 'pk' : child.isForeignKey ? 'fk' : 'none'` -/
def nodeKeyType (n : DiagramNode) : KeyType :=
  if n.isPrimaryKey.getD false then .pk
  else if n.isForeignKey.getD false then .fk
  else .nokey

/-- `getAttributesForNode`. The source recurses unboundedly (and would diverge on a
containment cycle); the fuel passed by `diagramModelToAST` is `nodes.length + 1`,
which an acyclic containment chain cannot exhaust. -/
def getAttributesForNode : Nat → String → List (String × List DiagramNode) →
    List (String × DiagramNode) → List AttributeNode
  | 0, _, _, _ => []
  | f + 1, nodeId, childrenMap, nodeMap =>
    ((mapGet childrenMap nodeId).getD []).foldr
      (fun child acc =>
        if typeIncludesAttribute child.type then
          AttributeNode.mk child.label (nodeAttrType child.type) (nodeKeyType child)
            child.fkTarget child.dataType
            (if child.type = .compositeAttribute then
              some (getAttributesForNode f child.id childrenMap nodeMap)
             else none) :: acc
        else acc)
      []

/-- `node.name || node.label` (an empty string is falsy). -/
def jsOrStr : Option String → String → String
  | some s, d => if s = "" then d else s
  | none, d => d

def sideFold (nodeId : String) (nodeMap : List (String × DiagramNode))
    (lr : RelationshipSide × RelationshipSide) (e : DiagramEdge) :
    RelationshipSide × RelationshipSide :=
  if e.sourceId ≠ nodeId then
    match mapGet nodeMap e.sourceId with
    | some en =>
      ({ entityName := en.label, cardinality := e.sourceCardinality.getD .one,
         participation := e.sourceParticipation.getD .partial_ }, lr.2)
    | none => lr
  else if e.targetId ≠ nodeId then
    match mapGet nodeMap e.targetId with
    | some en =>
      (lr.1, { entityName := en.label, cardinality := e.targetCardinality.getD .many,
               participation := e.targetParticipation.getD .partial_ })
    | none => lr
  else lr

/-- The relational edges incident to a relationship node:
`(e.sourceId === node.id || e.targetId === node.id) && (e.sourceCardinality || e.targetCardinality)`. -/
def relEdgesOf (edges : List DiagramEdge) (nodeId : String) : List DiagramEdge :=
  edges.filter (fun e => decide ((e.sourceId = nodeId ∨ e.targetId = nodeId) ∧ edgeHasCard e))

def defaultLeftSide : RelationshipSide :=
  ⟨"", .one, .partial_⟩

def defaultRightSide : RelationshipSide :=
  ⟨"", .many, .partial_⟩

def relFromNode (model : DiagramModel) (childrenMap : List (String × List DiagramNode))
    (nodeMap : List (String × DiagramNode)) (fuel : Nat) (n : DiagramNode) :
    RelationshipNode :=
  let relEdges := relEdgesOf model.edges n.id
  let sides := relEdges.foldl (sideFold n.id nodeMap) (defaultLeftSide, defaultRightSide)
  { name := jsOrStr n.name n.label,
    relationshipType := n.relationshipType.getD
      (if n.type = .identifyingRelationship then .identifying else .normal),
    leftSide := sides.1, rightSide := sides.2, verb := n.label,
    attributes := getAttributesForNode fuel n.id childrenMap nodeMap }

def diagramModelToAST (model : DiagramModel) : ERDiagramAST :=
  let nodeMap := buildNodeMap model.nodes
  let childrenMap := buildChildrenMap model.edges nodeMap
  let fuel := model.nodes.length + 1
  let entities := model.nodes.filterMap (fun n =>
    if n.type = .entity ∨ n.type = .weakEntity then
      some { name := n.label,
             entityType := n.entityType.getD (if n.type = .weakEntity then .weak else .strong),
             attributes := getAttributesForNode fuel n.id childrenMap nodeMap,
             identifiedBy := n.identifiedBy }
    else none)
  let relationships := model.nodes.filterMap (fun n =>
    if n.type = .relationship ∨ n.type = .identifyingRelationship then
      some (relFromNode model childrenMap nodeMap fuel n)
    else none)
  ⟨entities, relationships⟩

/-! ## Layout (`mxgraph-editor.ts`, `calculateLayout`); constants
`HORIZONTAL_SPACING = 200`, `VERTICAL_SPACING = 100`, `ATTRIBUTE_SPACING = 50`. -/
/-- The entity row: `x` starts at 100 and advances by `HORIZONTAL_SPACING`, `y` is 250. -/
def placeEntities : List DiagramNode → ℚ → List (String × (ℚ × ℚ)) → List (String × (ℚ × ℚ))
  | [], _, pos => pos
  | e :: rest, x, pos => placeEntities rest (x + 200) (mapSet pos e.id (x, 250))

def placeRel (edges : List DiagramEdge) (pos : List (String × (ℚ × ℚ)))
    (rel : DiagramNode) : List (String × (ℚ × ℚ)) :=
  let connected := edges.filter (fun e =>
    decide ((e.sourceId = rel.id ∨ e.targetId = rel.id) ∧ edgeHasCard e))
  let acc := connected.foldl
    (fun (ac : ℚ × Nat) e =>
      let otherId := if e.sourceId = rel.id then e.targetId else e.sourceId
      match mapGet pos otherId with
      | some p => (ac.1 + p.1, ac.2 + 1)
      | none => ac)
    (0, 0)
  let x : ℚ := if 0 < acc.2 then acc.1 / (acc.2 : ℚ) else 400
  mapSet pos rel.id (x, 250 + 100 + 50)

def placeSubAttrs : List DiagramNode → Nat → ℚ → ℚ → List (String × (ℚ × ℚ)) →
    List (String × (ℚ × ℚ))
  | [], _, _, _, pos => pos
  | s :: rest, j, subStartX, y, pos =>
    placeSubAttrs rest (j + 1) subStartX y (mapSet pos s.id (subStartX + (j : ℚ) * 40, y))

def placeAttrGroup : List DiagramNode → Nat → ℚ → ℚ → List DiagramNode →
    List (String × String) → List (String × (ℚ × ℚ)) → List (String × (ℚ × ℚ))
  | [], _, _, _, _, _, pos => pos
  | a :: rest, idx, startX, baseY, allAttrs, parentMap, pos =>
    let subAttrs := allAttrs.filter (fun s => mapGet parentMap s.id = some a.id)
    let pos1 := mapSet pos a.id (startX + (idx : ℚ) * 50, baseY)
    let pos2 :=
      if 0 < subAttrs.length then
        placeSubAttrs subAttrs 0
          (startX + (idx : ℚ) * 50 - (((subAttrs.length : ℚ) - 1) * 40) / 2)
          (baseY - 60) pos1
      else pos1
    placeAttrGroup rest (idx + 1) startX baseY allAttrs parentMap pos2

def groupStep (parentMap : List (String × String)) (g : List (String × List DiagramNode))
    (a : DiagramNode) : List (String × List DiagramNode) :=
  match mapGet parentMap a.id with
  | some pid => mapSet g pid ((mapGet g pid).getD [] ++ [a])
  | none => g

def layoutGroupStep (entities attributes : List DiagramNode)
    (parentMap : List (String × String)) (pos : List (String × (ℚ × ℚ)))
    (pg : String × List DiagramNode) : List (String × (ℚ × ℚ)) :=
  match mapGet pos pg.1 with
  | none => pos
  | some ppos =>
    let isEntity := entities.any (fun e => decide (e.id = pg.1))
    let baseY := if isEntity then ppos.2 - 100 else ppos.2 + 100
    let startX := ppos.1 - (((pg.2.length : ℚ) - 1) * 50) / 2
    placeAttrGroup pg.2 0 startX baseY attributes parentMap pos

def calculateLayout (entities relationships attributes : List DiagramNode)
    (edges : List DiagramEdge) : List (String × (ℚ × ℚ)) :=
  let parentMap := edges.foldl
    (fun m e => if !edgeHasCard e then mapSet m e.targetId e.sourceId else m) []
  let pos1 := placeEntities entities 100 []
  let pos2 := relationships.foldl (placeRel edges) pos1
  let attributeGroups := attributes.foldl (groupStep parentMap) []
  attributeGroups.foldl (layoutGroupStep entities attributes parentMap) pos2

/-! ## Specification helpers used by the theorems -/
/-- Substring test (used to state what an error message mentions). -/
def containsStr : List Char → List Char → Bool
  | [], needle => needle.isPrefixOf []
  | c :: t, needle => needle.isPrefixOf (c :: t) || containsStr t needle

/-- Identifier strings as produced by the tokenizer for `IDENTIFIER` tokens:
non-empty, a letter or underscore first, identifier characters throughout,
and not a keyword. -/
def validIdent (s : String) : Bool :=
  match s.toList with
  | [] => false
  | c :: cs => isAlphaUnd c && cs.all isIdentC && decide (keywordType s = .IDENTIFIER)

/-- Every `IDENTIFIER` token in the stream carries a valid identifier string. -/
def TokensOk (ts : List Token) : Prop :=
  ∀ t ∈ ts, t.type = .IDENTIFIER → validIdent t.value = true

/-- The exact attribute shapes `parseAttribute` can produce. -/
def ParsedAttr (a : AttributeNode) : Prop :=
  ∃ n, validIdent n = true ∧
    (a = .mk n .simple .pk none none none ∨
     (∃ t, a = .mk n .simple .fk (some t) none none ∧
        validIdent t.entityName = true ∧ validIdent t.attributeName = true) ∨
     a = .mk n .simple .fk none none none ∨
     (∃ subs, a = .mk n .composite .nokey none none (some subs) ∧
        ∀ b ∈ subs, ∃ m, validIdent m = true ∧ b = mkSimpleAttr m) ∨
     a = .mk n .multivalued .nokey none none none ∨
     a = .mk n .derived .nokey none none none ∨
     (∃ d, a = .mk n .typed .nokey none (some d) none ∧ validIdent d = true) ∨
     a = .mk n .simple .nokey none none none)

def ParsedFk (t : ForeignKeyTarget) : Prop :=
  validIdent t.entityName = true ∧ validIdent t.attributeName = true

/-- Invariants of entities produced by the parser. -/
def ParsedEntity (e : EntityNode) : Prop :=
  validIdent e.name = true ∧ (∀ a ∈ e.attributes, ParsedAttr a) ∧
  (e.entityType = .strong → e.identifiedBy = none) ∧
  (∀ ids, e.identifiedBy = some ids → ids ≠ [] ∧ ∀ t ∈ ids, ParsedFk t)

/-- Invariants of relationships produced by the parser. -/
def ParsedRel (r : RelationshipNode) : Prop :=
  validIdent r.leftSide.entityName = true ∧ validIdent r.rightSide.entityName = true ∧
  validIdent r.verb = true ∧ r.name = r.verb ∧
  (∀ a ∈ r.attributes, ∃ m, validIdent m = true ∧ a = mkSimpleAttr m) ∧
  (r.relationshipType = .identifying →
    r.leftSide.participation = .total ∧ r.rightSide.participation = .total ∧ r.attributes = [])

def ParsedAST (ast : ERDiagramAST) : Prop :=
  (∀ e ∈ ast.entities, ParsedEntity e) ∧ (∀ r ∈ ast.relationships, ParsedRel r)

/-- The attribute together with its (recursively) nested sub-attributes. -/
def attrWithSubs : AttributeNode → List AttributeNode
  | .mk n t k fkt dt none => [.mk n t k fkt dt none]
  | .mk n t k fkt dt (some l) => .mk n t k fkt dt (some l) :: attrWithSubsList l
where attrWithSubsList : List AttributeNode → List AttributeNode
  | [] => []
  | a :: rest => attrWithSubs a ++ attrWithSubsList rest

/-- Every attribute node appearing anywhere in the AST. -/
def astAllAttrs (ast : ERDiagramAST) : List AttributeNode :=
  ast.entities.flatMap (fun e => e.attributes.flatMap attrWithSubs) ++
  ast.relationships.flatMap (fun r => r.attributes.flatMap attrWithSubs)

/-- The field-coherence invariant of claim C10. -/
def coherentAttr (a : AttributeNode) : Prop :=
  (a.subAttributes.isSome ↔ a.attributeType = .composite) ∧
  (a.dataType.isSome → a.attributeType = .typed) ∧
  (a.fkTarget.isSome → a.keyType = .fk) ∧
  (a.keyType ≠ .nokey → a.attributeType = .simple)

/-- The loop-head stop condition of `parseSubAttributeList`: the current token is
not an identifier, or it is an identifier whose successor is one of the attribute
markers `PK`/`FK`/`Composite`/`Multivalued`/`Derived`. -/
def subListStop (ts : List Token) : Bool :=
  !check .IDENTIFIER ts || isMarkerTok (peek1 ts)

/-- The generation state after all entities are processed and before any
relationship is (the relationship loop of `astToDiagramModel` starts here). -/
def relStage (ast : ERDiagramAST) : GenState :=
  ast.entities.foldl genEntity initialGenState

/-- The relational edges `astToDiagramModel` emits for a single relationship `r`
whose node got id `rid`, with entity map `m` and edge counter `ectr`: one
entity→relationship edge carrying the left side's cardinality/participation and one
relationship→entity edge carrying the right side's, each present exactly when the
side's entity name resolves in the entity map. -/
def relSideEdges (m : List (String × String)) (rid : String) (ectr : Nat)
    (r : RelationshipNode) : List DiagramEdge :=
  match mapGet m r.leftSide.entityName, mapGet m r.rightSide.entityName with
  | some lid, some rid2 =>
      [{ id := freshEdgeId ectr, sourceId := lid, targetId := rid,
         sourceCardinality := some r.leftSide.cardinality,
         sourceParticipation := some r.leftSide.participation },
       { id := freshEdgeId (ectr + 1), sourceId := rid, targetId := rid2,
         targetCardinality := some r.rightSide.cardinality,
         targetParticipation := some r.rightSide.participation }]
  | some lid, none =>
      [{ id := freshEdgeId ectr, sourceId := lid, targetId := rid,
         sourceCardinality := some r.leftSide.cardinality,
         sourceParticipation := some r.leftSide.participation }]
  | none, some rid2 =>
      [{ id := freshEdgeId ectr, sourceId := rid, targetId := rid2,
         targetCardinality := some r.rightSide.cardinality,
         targetParticipation := some r.rightSide.participation }]
  | none, none => []

/-- The concatenation of each relationship's relational side edges, threading the
generation state exactly as the relationship loop does. -/
def relEdgeChunks : GenState → List RelationshipNode → List DiagramEdge
  | _, [] => []
  | st, r :: rest =>
    relSideEdges st.entityMap (freshNodeId st.nodeCtr) st.edgeCtr r ++
      relEdgeChunks (genRelationship st r) rest

/-! ## Concrete inputs used by counterexamples and witnesses -/
/-- An entity node, a relationship node, and an edge whose only set
relational field is a participation. -/
def C2model : DiagramModel :=
  ⟨[{ id := "n1", type := .entity, label := "E" },
    { id := "n2", type := .relationship, label := "R" }],
   [{ id := "e1", sourceId := "n1", targetId := "n2", sourceParticipation := some .total }]⟩

/-- A relationship node with no incident edges at all. -/
def C3model : DiagramModel :=
  ⟨[{ id := "n1", type := .relationship, label := "R" }], []⟩

/-- An AST whose single relationship references entities that are not declared. -/
def C4ast : ERDiagramAST :=
  ⟨[], [⟨"r", .normal, ⟨"A", .one, .partial_⟩, ⟨"B", .many, .total⟩, "r", []⟩]⟩

/-- A sub-attribute list followed by an identifier that carries a `PK` marker. -/
def C5toks : List Token :=
  [⟨.IDENTIFIER, "street", 3, 5⟩, ⟨.IDENTIFIER, "phone", 4, 3⟩, ⟨.PK, "PK", 4, 9⟩,
   ⟨.EOF, "", 4, 11⟩]

def C5doc : String :=
  "Entity E:\n  addr Composite:\n    street\n  phone PK"

/-- A relation whose left cardinality position holds the token `2`. -/
def C6doc : String :=
  "Relation A (2) — (1) B: r"

def C6msg : String :=
  "Expected cardinality (1 or M) at line 1"

/-- Two entity nodes and a relationship node that reuses the first entity's id. -/
def C9entA : DiagramNode :=
  { id := "a", type := .entity, label := "a" }

def C9entB : DiagramNode :=
  { id := "b", type := .entity, label := "b" }

def C9rel : DiagramNode :=
  { id := "a", type := .relationship, label := "r" }

/-- A relationship node with an id distinct from both entities'. -/
def C9relC : DiagramNode :=
  { id := "c", type := .relationship, label := "r" }

/-- An AST like `C4ast` but whose side entities are declared. -/
def C4okAst : ERDiagramAST :=
  ⟨[⟨"A", .strong, [], none⟩, ⟨"B", .strong, [], none⟩],
   [⟨"r", .normal, ⟨"A", .one, .partial_⟩, ⟨"B", .many, .total⟩, "r", []⟩]⟩

/-! ## Towards claim C1: stripped-token view of the tokenizer

The parser's success and its resulting AST depend only on token types and values,
not on line/column bookkeeping; `stripTok` projects a token to that content. The
lemmas below show the stripped output of `tokLoop` is independent of fuel (when
sufficient), of the starting position, and of trailing whitespace; on top of them,
stepping lemmas compute the stripped token stream of generated text. -/
def stripTok (t : Token) : TokType × String :=
  (t.type, t.value)

/-- Canonical stripped tokenization (the fuel and start position `tokenize` uses). -/
def tokC (cs : List Char) : List (TokType × String) :=
  (tokLoop (cs.length + 1) cs 1 1).map stripTok

def isWsC (c : Char) : Bool :=
  c = ' ' || c = '\t' || c = '\n' || c = '\r'

def allWs (l : List Char) : Prop :=
  ∀ x ∈ l, isWsC x = true

/-- Each line followed by a newline: `joinSep "\n" ls ++ "\n"` for nonempty `ls`. -/
def linesTextNL : List String → String
  | [] => ""
  | l :: rest => l ++ "\n" ++ linesTextNL rest

def fkToksC (t : ForeignKeyTarget) : List (TokType × String) :=
  [(.IDENTIFIER, t.entityName), (.DOT, "."), (.IDENTIFIER, t.attributeName)]

/-- Stripped tokens of a printed attribute, for attribute nodes in the parser's
image (whose sub-attributes are plain names). -/
def attrToksC : AttributeNode → List (TokType × String)
  | .mk n at_ kt fkt dt subs =>
    match kt, fkt, at_, dt, subs with
    | .pk, _, _, _, _ => [(.IDENTIFIER, n), (.PK, "PK")]
    | .fk, some t, _, _, _ => [(.IDENTIFIER, n), (.FK, "FK"), (.ARROW, "->")] ++ fkToksC t
    | _, _, .composite, _, some l =>
        [(.IDENTIFIER, n), (.COMPOSITE, "Composite"), (.COLON, ":")] ++
          l.map (fun s => (.IDENTIFIER, s.name))
    | _, _, .multivalued, _, _ => [(.IDENTIFIER, n), (.MULTIVALUED, "Multivalued")]
    | _, _, .derived, _, _ => [(.IDENTIFIER, n), (.DERIVED, "Derived")]
    | _, _, .typed, some d, _ =>
        if d = "" then [(.IDENTIFIER, n)] else [(.IDENTIFIER, n), (.COLON, ":"), (.IDENTIFIER, d)]
    | _, _, _, _, _ => [(.IDENTIFIER, n)]

def idListToks : List ForeignKeyTarget → List (TokType × String)
  | [] => []
  | [t] => fkToksC t
  | t :: rest => fkToksC t ++ [(.PLUS, "+")] ++ idListToks rest

def entityToksC (e : EntityNode) : List (TokType × String) :=
  (if e.entityType = .weak then [(.WEAK, "Weak"), (.ENTITY, "Entity")]
   else [(.ENTITY, "Entity")]) ++
  [(.IDENTIFIER, e.name), (.COLON, ":")] ++
  e.attributes.flatMap attrToksC ++
  (match e.entityType, e.identifiedBy with
   | .weak, some ids => [(.IDENTIFIED, "Identified"), (.BY, "By")] ++ idListToks ids
   | _, _ => [])

def cardTok : Cardinality → TokType × String
  | .one => (.ONE, "1")
  | .many => (.M, "M")

def partTok : Participation → TokType × String
  | .total => (.TOTAL, "total")
  | .partial_ => (.PARTIALKW, "partial")

def sideToksC (rt : RelationshipType) (s : RelationshipSide) : List (TokType × String) :=
  [(.LPAREN, "("), cardTok s.cardinality] ++
  (if rt = .normal then [(.COMMA, ","), partTok s.participation] else []) ++
  [(.RPAREN, ")")]

def relToksC (r : RelationshipNode) : List (TokType × String) :=
  (if r.relationshipType = .identifying then
    [(.IDENTIFYING, "Identifying"), (.RELATION, "Relation")]
   else [(.RELATION, "Relation")]) ++
  [(.IDENTIFIER, r.leftSide.entityName)] ++ sideToksC r.relationshipType r.leftSide ++
  [(.DASH, "—")] ++ sideToksC r.relationshipType r.rightSide ++
  [(.IDENTIFIER, r.rightSide.entityName), (.COLON, ":"), (.IDENTIFIER, r.verb)] ++
  r.attributes.map (fun a => (.IDENTIFIER, a.name))

def specToks (ast : ERDiagramAST) : List (TokType × String) :=
  ast.entities.flatMap entityToksC ++ ast.relationships.flatMap relToksC ++ [(.EOF, "")]

/-! ## Parser strip-invariance (towards claim C1)

The parser's success and its resulting value depend only on token types and
values; positions influence only error messages. `stripEq` relates two tokens
with the same type and value; the lemmas below propagate `List.Forall₂ stripEq`
through every parsing function. -/
def stripEq (t u : Token) : Prop :=
  stripTok t = stripTok u

/-! ## Reparsing the generated token stream (Phase C of claim C1) -/
/-- Embedding of a stripped token as a token at a dummy position. -/
def embT (p : TokType × String) : Token :=
  ⟨p.1, p.2, 0, 0⟩

def embL (l : List (TokType × String)) : List Token :=
  l.map embT

/-- The two amendment hypotheses of claim C1: every `fk` attribute carries a
target (otherwise printing loses the FK marker), and no composite attribute is
immediately followed, in the same entity attribute list, by an unmarked simple or
typed attribute (otherwise reparsing absorbs the follower into the composite). -/
def fkOk (ast : ERDiagramAST) : Prop :=
  ∀ a ∈ astAllAttrs ast, a.keyType = .fk → a.fkTarget.isSome = true

def badFollower (b : AttributeNode) : Prop :=
  b.keyType = .nokey ∧ (b.attributeType = .simple ∨ b.attributeType = .typed)

def compSeqOk : List AttributeNode → Prop
  | [] => True
  | [_] => True
  | a :: b :: rest => (a.attributeType = .composite → ¬badFollower b) ∧ compSeqOk (b :: rest)

def compOk (ast : ERDiagramAST) : Prop :=
  ∀ e ∈ ast.entities, compSeqOk e.attributes

/-- No attribute marker (and no colon) at the current position; holds at every
position where the printed stream continues with an identifier-led attribute,
a keyword, or end of input. -/
def noMarkerAt (ts : List Token) : Prop :=
  check .PK ts = false ∧ check .FK ts = false ∧ check .COMPOSITE ts = false ∧
  check .MULTIVALUED ts = false ∧ check .DERIVED ts = false ∧ check .COLON ts = false

/-- The stop positions of the attribute list: end of input, a top-level keyword,
or `Identified`. -/
def attrListStop (ts : List Token) : Prop :=
  isAtEnd ts = true ∨ isEntityOrRelationStart ts = true ∨ check .IDENTIFIED ts = true

/-- The printed tokens for the second and later identified-by targets. -/
def moreToks : List ForeignKeyTarget → List (TokType × String)
  | [] => []
  | t :: rest => (.PLUS, "+") :: (fkToksC t ++ moreToks rest)

def C1doc : String := "Entity E:\n  x FK"

def C1astFk : ERDiagramAST :=
  ⟨[⟨"E", .strong, [.mk "x" .simple .fk none none none], none⟩], []⟩

def C1astNokey : ERDiagramAST :=
  ⟨[⟨"E", .strong, [.mk "x" .simple .nokey none none none], none⟩], []⟩

def C1wdoc : String := "Entity E:\n  x PK"

def C1wAst : ERDiagramAST :=
  ⟨[⟨"E", .strong, [.mk "x" .simple .pk none none none], none⟩], []⟩

/-! ## Association-list lemmas -/
theorem mapGet_mapSet_self {α : Type} (m : List (String × α)) (k : String) (v : α) :
    mapGet (mapSet m k v) k = some v := by
  induction m with
  | nil => simp [mapSet, mapGet]
  | cons p rest ih =>
    obtain ⟨k', v'⟩ := p
    by_cases h : k' = k
    · simp [mapSet, h, mapGet]
    · simp [mapSet, h, mapGet, ih]

theorem mapGet_mapSet_ne {α : Type} (m : List (String × α)) (k k' : String) (v : α)
    (h : k' ≠ k) : mapGet (mapSet m k v) k' = mapGet m k' := by
  induction m with
  | nil => simp [mapSet, mapGet, Ne.symm h]
  | cons p rest ih =>
    obtain ⟨k'', v'⟩ := p
    by_cases h2 : k'' = k
    · subst h2
      simp [mapSet, mapGet, Ne.symm h]
    · by_cases h3 : k'' = k'
      · simp [mapSet, h2, mapGet, h3, h]
      · simp [mapSet, h2, mapGet, h3, ih]

theorem mem_mapSet {α : Type} (m : List (String × α)) (k : String) (v : α) (p : String × α)
    (h : p ∈ mapSet m k v) : p = (k, v) ∨ p ∈ m := by
  induction m with
  | nil => simpa [mapSet] using h
  | cons q rest ih =>
    obtain ⟨k', v'⟩ := q
    by_cases h2 : k' = k
    · simp [mapSet, h2] at h
      rcases h with h | h
      · exact Or.inl h
      · exact Or.inr (List.mem_cons_of_mem _ h)
    · simp [mapSet, h2] at h
      rcases h with h | h
      · exact Or.inr (by simp [h])
      · rcases ih h with h3 | h3
        · exact Or.inl h3
        · exact Or.inr (List.mem_cons_of_mem _ h3)

/-! ## Theorems for claim C2 (reverse-transform edge classification) -/
theorem childStep_skip (nm : List (String × DiagramNode))
    (m : List (String × List DiagramNode)) (e : DiagramEdge)
    (h : edgeHasCard e = true) : childStep nm m e = m := by
  simp [childStep, h]

theorem childrenMap_foldl_filter (nm : List (String × DiagramNode)) (edges : List DiagramEdge)
    (acc : List (String × List DiagramNode)) :
    (edges.filter fun e => !edgeHasCard e).foldl (childStep nm) acc =
      edges.foldl (childStep nm) acc := by
  induction edges generalizing acc with
  | nil => rfl
  | cons e rest ih =>
    by_cases h : edgeHasCard e
    · simp [List.filter_cons, h, childStep_skip nm acc e h, ih]
    · simp only [List.filter_cons, h, Bool.not_false, if_pos, List.foldl_cons]
      simp [ih]

/-- C2, counterexample: in `C2model` the participation-only edge `e1` is not

classified as relational (the relationship node has no relational edges, so its
sides stay at the defaults with an empty entity name) but is classified as
containment (it lands in the children map). The claim predicts the opposite. -/
theorem C2_cex :
    relEdgesOf C2model.edges "n2" = [] ∧
    buildChildrenMap C2model.edges (buildNodeMap C2model.nodes) =
      [("n1", [{ id := "n2", type := .relationship, label := "R" }])] ∧
    (diagramModelToAST C2model).relationships.map (fun r => r.leftSide.entityName) = [""] :=
  ⟨rfl, rfl, rfl⟩

/-- C2, amended: an edge is treated as relational by `diagramModelToAST` iff one of
its two cardinality fields is set (participation fields play no role), and the
children (containment) map is insensitive to every edge with a cardinality field. -/
theorem C2_classification_amended (edges : List DiagramEdge)
    (nm : List (String × DiagramNode)) (e : DiagramEdge) (nodeId : String) :
    (e ∈ relEdgesOf edges nodeId ↔
      e ∈ edges ∧ (e.sourceId = nodeId ∨ e.targetId = nodeId) ∧ edgeHasCard e = true) ∧
    buildChildrenMap edges nm =
      buildChildrenMap (edges.filter fun e2 => !edgeHasCard e2) nm := by
  constructor
  · simp [relEdgesOf, List.mem_filter, and_assoc]
  · exact (childrenMap_foldl_filter nm edges []).symm

/-! ## Theorems for claim C3 (reverse-transform defaulting) -/
/-- C3, counterexample: a relationship node with no incident relational edge gets
`rightSide` cardinality `'M'` (`many`), not `'1'` as the claim states. -/
theorem C3_cex :
    (diagramModelToAST C3model).relationships =
      [{ name := "R", relationshipType := .normal,
         leftSide := ⟨"", .one, .partial_⟩, rightSide := ⟨"", .many, .partial_⟩,
         verb := "R", attributes := [] }] ∧
    Cardinality.many ≠ Cardinality.one :=
  ⟨rfl, by decide⟩

/-- C3, amended: a missing side defaults without error to the empty entity name with
participation `partial`, but the cardinality default is side-dependent: `'1'` on the
left and `'M'` on the right; the same per-field defaults apply when a relational
edge supplies a side but omits a field. -/
theorem C3_defaults_amended (model : DiagramModel) (n : DiagramNode)
    (nm : List (String × DiagramNode)) :
    (n ∈ model.nodes → (n.type = .relationship ∨ n.type = .identifyingRelationship) →
      relEdgesOf model.edges n.id = [] →
      ∃ r ∈ (diagramModelToAST model).relationships,
        r.verb = n.label ∧ r.leftSide = defaultLeftSide ∧ r.rightSide = defaultRightSide) ∧
    (∀ lr e en, e.sourceId ≠ n.id → mapGet nm e.sourceId = some en →
      (sideFold n.id nm lr e).1 =
        ⟨en.label, e.sourceCardinality.getD .one, e.sourceParticipation.getD .partial_⟩) ∧
    (∀ lr e en, e.sourceId = n.id → e.targetId ≠ n.id → mapGet nm e.targetId = some en →
      (sideFold n.id nm lr e).2 =
        ⟨en.label, e.targetCardinality.getD .many, e.targetParticipation.getD .partial_⟩) := by
  refine ⟨?_, ?_, ?_⟩
  · intro hmem hty hnoedges
    refine ⟨relFromNode model (buildChildrenMap model.edges (buildNodeMap model.nodes))
      (buildNodeMap model.nodes) (model.nodes.length + 1) n, ?_, ?_, ?_, ?_⟩
    · simp only [diagramModelToAST, List.mem_filterMap]
      exact ⟨n, hmem, by simp [hty]⟩
    · rfl
    · simp [relFromNode, hnoedges]
    · simp [relFromNode, hnoedges]
  · intro lr e en hs hget
    simp [sideFold, hs, hget]
  · intro lr e en hs ht hget
    simp [sideFold, hs, ht, hget]

theorem C3_witness :
    ∃ r ∈ (diagramModelToAST C3model).relationships,
      r.verb = "R" ∧ r.leftSide = defaultLeftSide ∧ r.rightSide = defaultRightSide :=
  (C3_defaults_amended C3model { id := "n1", type := .relationship, label := "R" } []).1
    (by simp [C3model]) (Or.inl rfl) rfl

/-! ## Theorems for claim C9 (layout determinism and the entity row) -/
theorem placeEntities_get_ne (ents : List DiagramNode) (x : ℚ)
    (pos : List (String × (ℚ × ℚ))) (k : String)
    (h : k ∉ ents.map DiagramNode.id) :
    mapGet (placeEntities ents x pos) k = mapGet pos k := by
  induction ents generalizing x pos with
  | nil => rfl
  | cons e rest ih =>
    simp only [List.map_cons, List.mem_cons] at h
    push_neg at h
    simp only [placeEntities]
    rw [ih _ _ h.2, mapGet_mapSet_ne _ _ _ _ h.1]

theorem placeEntities_get (ents : List DiagramNode) (x : ℚ)
    (pos : List (String × (ℚ × ℚ)))
    (hnd : (ents.map DiagramNode.id).Nodup) (i : Nat) (h : i < ents.length) :
    mapGet (placeEntities ents x pos) (ents.get ⟨i, h⟩).id = some (x + 200 * i, 250) := by
  induction ents generalizing x pos i with
  | nil => simp at h
  | cons e rest ih =>
    simp only [List.map_cons, List.nodup_cons] at hnd
    match i with
    | 0 =>
      have hget : ((e :: rest).get ⟨0, h⟩) = e := rfl
      rw [hget]
      simp only [placeEntities]
      rw [placeEntities_get_ne _ _ _ _ hnd.1, mapGet_mapSet_self]
      norm_num
    | j + 1 =>
      have hget : ((e :: rest).get ⟨j + 1, h⟩) = rest.get ⟨j, by simpa using h⟩ := rfl
      rw [hget]
      simp only [placeEntities]
      rw [ih (x + 200) (mapSet pos e.id (x, 250)) hnd.2 j (by simpa using h)]
      congr 2
      push_cast
      ring

theorem placeRel_get_ne (edges : List DiagramEdge) (pos : List (String × (ℚ × ℚ)))
    (rel : DiagramNode) (k : String) (h : k ≠ rel.id) :
    mapGet (placeRel edges pos rel) k = mapGet pos k := by
  simp only [placeRel]
  exact mapGet_mapSet_ne _ _ _ _ h

theorem foldl_placeRel_get_ne (rels : List DiagramNode) (edges : List DiagramEdge)
    (pos : List (String × (ℚ × ℚ))) (k : String)
    (h : k ∉ rels.map DiagramNode.id) :
    mapGet (rels.foldl (placeRel edges) pos) k = mapGet pos k := by
  induction rels generalizing pos with
  | nil => rfl
  | cons r rest ih =>
    simp only [List.map_cons, List.mem_cons] at h
    push_neg at h
    simp only [List.foldl_cons]
    rw [ih _ h.2, placeRel_get_ne _ _ _ _ h.1]

theorem placeSubAttrs_get_ne (subs : List DiagramNode) (j : Nat) (sx y : ℚ)
    (pos : List (String × (ℚ × ℚ))) (k : String)
    (h : k ∉ subs.map DiagramNode.id) :
    mapGet (placeSubAttrs subs j sx y pos) k = mapGet pos k := by
  induction subs generalizing j pos with
  | nil => rfl
  | cons s rest ih =>
    simp only [List.map_cons, List.mem_cons] at h
    push_neg at h
    simp only [placeSubAttrs]
    rw [ih _ _ h.2, mapGet_mapSet_ne _ _ _ _ h.1]

theorem placeAttrGroup_get_ne (grp : List DiagramNode) (idx : Nat) (sx by_ : ℚ)
    (allAttrs : List DiagramNode) (pm : List (String × String))
    (pos : List (String × (ℚ × ℚ))) (k : String)
    (hg : k ∉ grp.map DiagramNode.id) (ha : k ∉ allAttrs.map DiagramNode.id) :
    mapGet (placeAttrGroup grp idx sx by_ allAttrs pm pos) k = mapGet pos k := by
  induction grp generalizing idx pos with
  | nil => rfl
  | cons a rest ih =>
    simp only [List.map_cons, List.mem_cons] at hg
    push_neg at hg
    simp only [placeAttrGroup]
    rw [ih _ _ hg.2]
    by_cases hsub : 0 < (allAttrs.filter fun s => mapGet pm s.id = some a.id).length
    · rw [if_pos hsub]
      rw [placeSubAttrs_get_ne _ _ _ _ _ _ ?_, mapGet_mapSet_ne _ _ _ _ hg.1]
      intro hmem
      apply ha
      simp only [List.mem_map] at hmem ⊢
      obtain ⟨nd, hnd, rfl⟩ := hmem
      exact ⟨nd, (List.mem_filter.mp hnd).1, rfl⟩
    · rw [if_neg hsub, mapGet_mapSet_ne _ _ _ _ hg.1]

theorem mapGet_mem {α : Type} (m : List (String × α)) (k : String) (v : α)
    (h : mapGet m k = some v) : (k, v) ∈ m := by
  induction m with
  | nil => simp [mapGet] at h
  | cons p rest ih =>
    obtain ⟨k', v'⟩ := p
    by_cases h2 : k' = k
    · subst h2
      simp [mapGet] at h
      simp [h]
    · simp [mapGet, h2] at h
      exact List.mem_cons_of_mem _ (ih h)

theorem groupStep_members (pm : List (String × String)) (g : List (String × List DiagramNode))
    (a : DiagramNode) (attrs : List DiagramNode)
    (hg : ∀ pr ∈ g, ∀ nd ∈ pr.2, nd ∈ attrs) (hattr : a ∈ attrs) :
    ∀ pr ∈ groupStep pm g a, ∀ nd ∈ pr.2, nd ∈ attrs := by
  intro pr hpr nd hnd
  simp only [groupStep] at hpr
  match hpa : mapGet pm a.id with
  | none =>
    rw [hpa] at hpr
    exact hg pr hpr nd hnd
  | some pid =>
    rw [hpa] at hpr
    rcases mem_mapSet _ _ _ _ hpr with h | h
    · subst h
      simp only at hnd
      rcases List.mem_append.mp hnd with h | h
      · match hgot : mapGet g pid with
        | none => rw [hgot] at h; simp at h
        | some l =>
          rw [hgot] at h
          simp only [Option.getD_some] at h
          exact hg _ (mapGet_mem _ _ _ hgot) nd h
      · simp at h
        subst h
        exact hattr
    · exact hg pr h nd hnd

theorem foldl_groupStep_members (pm : List (String × String)) (attrs0 : List DiagramNode)
    (attrs : List DiagramNode) (g : List (String × List DiagramNode))
    (hg : ∀ pr ∈ g, ∀ nd ∈ pr.2, nd ∈ attrs) (hsub : ∀ a ∈ attrs0, a ∈ attrs) :
    ∀ pr ∈ attrs0.foldl (groupStep pm) g, ∀ nd ∈ pr.2, nd ∈ attrs := by
  induction attrs0 generalizing g with
  | nil => exact hg
  | cons a rest ih =>
    simp only [List.foldl_cons]
    exact ih _ (groupStep_members pm g a attrs hg (hsub a (by simp)))
      (fun b hb => hsub b (by simp [hb]))

theorem layoutGroupStep_get_ne (entities attrs : List DiagramNode)
    (pm : List (String × String)) (pos : List (String × (ℚ × ℚ)))
    (pg : String × List DiagramNode) (k : String)
    (hgrp : ∀ nd ∈ pg.2, nd ∈ attrs) (ha : k ∉ attrs.map DiagramNode.id) :
    mapGet (layoutGroupStep entities attrs pm pos pg) k = mapGet pos k := by
  simp only [layoutGroupStep]
  match mapGet pos pg.1 with
  | none => rfl
  | some ppos =>
    simp only
    apply placeAttrGroup_get_ne
    · intro hmem
      apply ha
      simp only [List.mem_map] at hmem ⊢
      obtain ⟨nd, hnd, rfl⟩ := hmem
      exact ⟨nd, hgrp nd hnd, rfl⟩
    · exact ha

theorem foldl_layoutGroupStep_get_ne (entities attrs : List DiagramNode)
    (pm : List (String × String)) (groups : List (String × List DiagramNode))
    (pos : List (String × (ℚ × ℚ))) (k : String)
    (hgroups : ∀ pr ∈ groups, ∀ nd ∈ pr.2, nd ∈ attrs)
    (ha : k ∉ attrs.map DiagramNode.id) :
    mapGet (groups.foldl (layoutGroupStep entities attrs pm) pos) k = mapGet pos k := by
  induction groups generalizing pos with
  | nil => rfl
  | cons pg rest ih =>
    simp only [List.foldl_cons]
    rw [ih _ (fun pr hpr => hgroups pr (by simp [hpr]))]
    exact layoutGroupStep_get_ne entities attrs pm pos pg k
      (hgroups pg (by simp)) ha

/-- C9, counterexample: with a relationship node reusing an entity node's id, the
first entity's final coordinate is the relationship position `(400, 400)`, so the
two entities are neither on one horizontal row nor at increasing x. -/
theorem C9_cex :
    mapGet (calculateLayout [C9entA, C9entB] [C9rel] [] []) "a" = some (400, 400) ∧
    mapGet (calculateLayout [C9entA, C9entB] [C9rel] [] []) "b" = some (300, 250) ∧
    (400 : ℚ) ≠ 250 ∧ ¬ ((400 : ℚ) < 300) := by
  refine ⟨?_, ?_, by norm_num, by norm_num⟩ <;>
    · simp only [calculateLayout, placeEntities, placeRel, List.foldl_nil, List.foldl_cons,
        C9entA, C9entB, C9rel, List.filter_nil]
      simp [mapSet, mapGet]
      norm_num

/-- C9, amended: the layout function is deterministic (it is a pure function of its
input), and when the diagram's node ids are pairwise distinct — as in every graph
produced by the forward transform — the entities land on the single row `y = 250`
at `x = 100 + 200·i` in list order, i.e. at strictly increasing x with fixed
step 200. Without the distinctness hypothesis a later relationship or attribute
write can overwrite an entity's coordinate (see the counterexample). -/
theorem C9_layout_amended (entities relationships attributes : List DiagramNode)
    (edges : List DiagramEdge)
    (hnd : ((entities ++ relationships ++ attributes).map DiagramNode.id).Nodup) :
    calculateLayout entities relationships attributes edges =
      calculateLayout entities relationships attributes edges ∧
    ∀ i (h : i < entities.length),
      mapGet (calculateLayout entities relationships attributes edges)
        (entities.get ⟨i, h⟩).id = some (100 + 200 * (i : ℚ), 250) := by
  refine ⟨rfl, ?_⟩
  intro i h
  have hnd2 : (entities.map DiagramNode.id ++
      (relationships.map DiagramNode.id ++ attributes.map DiagramNode.id)).Nodup := by
    simpa [List.map_append, List.append_assoc] using hnd
  obtain ⟨hent, hrest, hdisj⟩ := List.nodup_append.mp hnd2
  have hid : (entities.get ⟨i, h⟩).id ∈ entities.map DiagramNode.id := by
    simp only [List.mem_map]
    exact ⟨entities.get ⟨i, h⟩, List.get_mem _ _ _, rfl⟩
  have hnotrel : (entities.get ⟨i, h⟩).id ∉ relationships.map DiagramNode.id := by
    intro hx
    exact hdisj hid (List.mem_append.mpr (Or.inl hx))
  have hnotattr : (entities.get ⟨i, h⟩).id ∉ attributes.map DiagramNode.id := by
    intro hx
    exact hdisj hid (List.mem_append.mpr (Or.inr hx))
  simp only [calculateLayout]
  rw [foldl_layoutGroupStep_get_ne _ _ _ _ _ _
    (foldl_groupStep_members _ _ _ _ (by simp) (fun a ha => ha)) hnotattr]
  rw [foldl_placeRel_get_ne _ _ _ _ hnotrel]
  exact placeEntities_get entities 100 [] hent i h

theorem C9_witness :
    (([C9entA, C9entB] ++ [C9relC] ++ ([] : List DiagramNode)).map DiagramNode.id).Nodup ∧
    ∀ i (h : i < [C9entA, C9entB].length),
      mapGet (calculateLayout [C9entA, C9entB] [C9relC] [] [])
        ([C9entA, C9entB].get ⟨i, h⟩).id = some (100 + 200 * (i : ℚ), 250) :=
  ⟨by decide, (C9_layout_amended [C9entA, C9entB] [C9relC] [] [] (by decide)).2⟩

/-! ## Theorems for claim C5 (composite sub-attribute list termination) -/
theorem subListStop_of_keyword (ts : List Token)
    (h : (isEntityOrRelationStart ts || check .IDENTIFIED ts) = true) :
    subListStop ts = true := by
  have hne : (cur ts).type ≠ .IDENTIFIER := by
    intro hid
    simp [isEntityOrRelationStart, check, hid] at h
  simp [subListStop, check, hne]

/-- C5, amended: for any token stream, `parseSubAttributeList` consumes a maximal
run of identifier tokens into simple sub-attributes and stops exactly at the first
position satisfying `subListStop` — i.e. at any non-identifier token (which covers
the four top-level keywords, `Identified`, every other token kind, and end of
input), or before an identifier immediately followed by one of the markers
`PK`/`FK`/`Composite`/`Multivalued`/`Derived` — never consuming the stopping
token; no position before that stops the list. -/
theorem C5_termination_amended (f : Nat) (ts : List Token) (hf : ts.length ≤ f) :
    ∃ pre rest,
      ts = pre ++ rest ∧
      parseSubAttributeList f ts = (pre.map (fun t => mkSimpleAttr t.value), rest) ∧
      (∀ t ∈ pre, t.type = .IDENTIFIER) ∧
      subListStop rest = true ∧
      ∀ i < pre.length, subListStop (ts.drop i) = false := by
  induction f generalizing ts with
  | zero =>
    have hts : ts = [] := List.eq_nil_of_length_eq_zero (Nat.le_zero.mp hf)
    subst hts
    exact ⟨[], [], rfl, rfl, by simp, by simp [subListStop, check, cur], by simp⟩
  | succ f ih =>
    by_cases hI : check .IDENTIFIER ts = true
    · by_cases hM : isMarkerTok (peek1 ts) = true
      · refine ⟨[], ts, rfl, ?_, by simp, ?_, by simp⟩
        · simp [parseSubAttributeList, hI, hM]
        · simp [subListStop, hM]
      · -- the current token is consumed
        match ts, hI with
        | t :: ts1, hI =>
          have hcur : cur (t :: ts1) = t := rfl
          have htty : t.type = .IDENTIFIER := by
            have h2 := hI
            simp [check, hcur] at h2
            exact h2.2
          by_cases hK : (isEntityOrRelationStart ts1 || check .IDENTIFIED ts1) = true
          · refine ⟨[t], ts1, rfl, ?_, by simp [htty], subListStop_of_keyword ts1 hK, ?_⟩
            · simp only [parseSubAttributeList, hI, hM, if_pos, if_neg, Bool.false_eq_true,
                if_false, List.tail_cons]
              rw [if_pos hK]
              simp [hcur]
            · intro i hi
              have hz : i = 0 := Nat.lt_one_iff.mp (by simpa using hi)
              subst hz
              simp [subListStop, hI, hM]
          · obtain ⟨pre', rest, heq, hrun, htys, hstop, hmin⟩ :=
              ih ts1 (by simpa using Nat.le_of_succ_le_succ hf)
            refine ⟨t :: pre', rest, by simp [heq], ?_, ?_, hstop, ?_⟩
            · simp only [parseSubAttributeList, hI, hM, Bool.false_eq_true, if_false,
                if_true, List.tail_cons]
              rw [if_neg hK, hrun]
              simp [hcur]
            · intro u hu
              rcases List.mem_cons.mp hu with h | h
              · exact h ▸ htty
              · exact htys u h
            · intro i hi
              match i with
              | 0 => simp [subListStop, hI, hM]
              | j + 1 =>
                simp only [List.drop_succ_cons]
                exact hmin j (by simpa using hi)
    · refine ⟨[], ts, rfl, ?_, by simp, ?_, by simp⟩
      · simp [parseSubAttributeList, hI]
      · simp [subListStop, hI]

/-- C5, counterexample: the sub-attribute list `street` stops before the identifier
`phone` (because `phone` is followed by `PK`), although `phone` is neither a
top-level declaration keyword nor `Identified` — contradicting the claim that only
such keywords terminate the list. The same happens inside a full parse. -/
theorem C5_cex :
    parseSubAttributeList 4 C5toks =
      ([mkSimpleAttr "street"],
       [⟨.IDENTIFIER, "phone", 4, 3⟩, ⟨.PK, "PK", 4, 9⟩, ⟨.EOF, "", 4, 11⟩]) ∧
    (cur (C5toks.drop 1)).type = .IDENTIFIER ∧
    isEntityOrRelationStart (C5toks.drop 1) = false ∧
    check .IDENTIFIED (C5toks.drop 1) = false ∧
    parseDSL C5doc =
      .ok ⟨[⟨"E", .strong,
        [.mk "addr" .composite .nokey none none (some [mkSimpleAttr "street"]),
         .mk "phone" .simple .pk none none none], none⟩], []⟩ :=
  ⟨rfl, rfl, rfl, rfl, rfl⟩

theorem C5_witness :
    ∃ pre rest,
      C5toks = pre ++ rest ∧
      parseSubAttributeList 4 C5toks = (pre.map (fun t => mkSimpleAttr t.value), rest) ∧
      (∀ t ∈ pre, t.type = .IDENTIFIER) ∧
      subListStop rest = true ∧
      ∀ i < pre.length, subListStop (C5toks.drop i) = false :=
  C5_termination_amended 4 C5toks (by decide)

/-! ## Theorems for claim C6 (cardinality domain error) -/
theorem containsStr_nil_needle (l : List Char) : containsStr l [] = true := by
  cases l <;> simp [containsStr, List.isPrefixOf]

theorem containsStr_append_left (h1 h2 n : List Char) (h : containsStr h1 n = true) :
    containsStr (h1 ++ h2) n = true := by
  induction h1 with
  | nil =>
    simp only [containsStr] at h
    have : n = [] := by
      cases n with
      | nil => rfl
      | cons c t => simp [List.isPrefixOf] at h
    subst this
    simpa using containsStr_nil_needle h2
  | cons c t ih =>
    simp only [containsStr, Bool.or_eq_true] at h
    rcases h with h | h
    · have hp : n <+: c :: t := List.isPrefixOf_iff_prefix.mp h
      have : n <+: (c :: t) ++ h2 := hp.trans (List.prefix_append _ _)
      simp only [List.cons_append, containsStr, Bool.or_eq_true]
      exact Or.inl (List.isPrefixOf_iff_prefix.mpr (by simpa using this))
    · simp only [List.cons_append, containsStr, Bool.or_eq_true]
      exact Or.inr (ih h)

/-- C6, amended: whenever the cardinality position holds a token other than `1` or
`M`, `parseCardinality` fails with exactly the message
`"Expected cardinality (1 or M) at line <line>"` — it mentions "cardinality" and
carries the offending token's line, but no column. -/
theorem C6_cardinality_error_amended (ts : List Token)
    (h1 : (cur ts).type ≠ .ONE) (h2 : (cur ts).type ≠ .M) :
    parseCardinality ts =
      .error ("Expected cardinality (1 or M) at line " ++ toString (cur ts).line) ∧
    containsStr ("Expected cardinality (1 or M) at line " ++
      toString (cur ts).line).toList "cardinality".toList = true := by
  constructor
  · simp [parseCardinality, check, h1, h2]
  · have happ : ∀ s t : String, (s ++ t).toList = s.toList ++ t.toList := by
      intro s t
      cases s
      cases t
      rfl
    rw [happ]
    exact containsStr_append_left _ _ _ (by decide)

/-- C6, counterexample: for the concrete document `Relation A (2) — (1) B: r` the
whole parse aborts with `"Expected cardinality (1 or M) at line 1"`; the offending
token `2` sits at line 1, column 13, yet the message contains neither the word
"column" nor the digits `13` — so the error does not carry the column, contrary to
the claim. -/
theorem C6_cex :
    parseDSL C6doc = .error C6msg ∧
    (tokenize C6doc)[3]? = some ⟨.NUMBER, "2", 1, 13⟩ ∧
    containsStr C6msg.toList "cardinality".toList = true ∧
    containsStr C6msg.toList "column".toList = false ∧
    containsStr C6msg.toList "13".toList = false :=
  ⟨rfl, rfl, rfl, rfl, rfl⟩

theorem C6_witness :
    parseCardinality [⟨.NUMBER, "2", 1, 13⟩] =
      .error ("Expected cardinality (1 or M) at line " ++
        toString (cur [⟨.NUMBER, "2", 1, 13⟩]).line) ∧
    containsStr ("Expected cardinality (1 or M) at line " ++
      toString (cur [⟨.NUMBER, "2", 1, 13⟩]).line).toList "cardinality".toList = true :=
  C6_cardinality_error_amended [⟨.NUMBER, "2", 1, 13⟩] (by decide) (by decide)

/-! ## Theorems for claim C8 (weak entity without an identifier clause) -/
/-- C8: a `Weak Entity` declaration whose attribute list is not followed by
`Identified` parses successfully into a weak entity with `identifiedBy` absent
(`none`), for every attribute list the attribute parser accepts. -/
theorem C8_weak_entity_no_identifier (f : Nat) (w e i c : Token)
    (ts rest : List Token) (attrs : List AttributeNode)
    (hw : w.type = .WEAK) (he : e.type = .ENTITY) (hi : i.type = .IDENTIFIER)
    (hc : c.type = .COLON)
    (hattrs : parseAttributeList f ts = .ok (attrs, rest))
    (hnid : check .IDENTIFIED rest = false) :
    parseWeakEntity f (w :: e :: i :: c :: ts) =
      .ok ({ name := i.value, entityType := .weak, attributes := attrs,
             identifiedBy := none }, rest) := by
  simp [parseWeakEntity, expect, check, cur, hw, he, hi, hc, hattrs,
    Bind.bind, Except.bind]
  intro hne hid
  exfalso
  simp only [check, cur, List.headD_eq_head?_getD] at hnid
  rw [decide_eq_false_iff_not] at hnid
  exact hnid ⟨hne, hid⟩

theorem C8_witness :
    parseWeakEntity 3
      [⟨.WEAK, "Weak", 1, 1⟩, ⟨.ENTITY, "Entity", 1, 6⟩, ⟨.IDENTIFIER, "X", 1, 13⟩,
       ⟨.COLON, ":", 1, 14⟩, ⟨.IDENTIFIER, "a", 2, 3⟩, ⟨.EOF, "", 2, 4⟩] =
      .ok ({ name := "X", entityType := .weak, attributes := [mkSimpleAttr "a"],
             identifiedBy := none }, [⟨.EOF, "", 2, 4⟩]) :=
  C8_weak_entity_no_identifier 3 _ _ _ _ _ _ _ rfl rfl rfl rfl rfl rfl

/-! ## Theorems for claim C4 (forward-transform side edges), counterexample part -/
/-- C4, counterexample: an AST whose relationship names undeclared entities yields
zero relational edges, not two per relationship. -/
theorem C4_cex :
    (astToDiagramModel C4ast).edges = [] ∧
    C4ast.relationships.length = 1 ∧
    ((astToDiagramModel C4ast).edges.filter edgeHasCard).length ≠
      2 * C4ast.relationships.length := by
  refine ⟨rfl, rfl, by decide⟩

mutual

theorem processAttribute_inv : ∀ (a : AttributeNode) (pid : String) (st : GenState),
    (processAttribute a pid st).entityMap = st.entityMap ∧
    (processAttribute a pid st).edges.filter edgeHasCard = st.edges.filter edgeHasCard
  | .mk n .composite kt fkt dt (some l), pid, st => by
    have h := processAttributeList_inv l (freshNodeId st.nodeCtr)
      { st with
        nodes := st.nodes ++
          [{ id := freshNodeId st.nodeCtr, type := attrNodeType .composite, label := n,
             parentId := some pid, isPrimaryKey := some (decide (kt = .pk)),
             isForeignKey := some (decide (kt = .fk)), fkTarget := fkt, dataType := dt }],
        edges := st.edges ++
          [{ id := freshEdgeId st.edgeCtr, sourceId := pid, targetId := freshNodeId st.nodeCtr }],
        nodeCtr := st.nodeCtr + 1, edgeCtr := st.edgeCtr + 1 }
    refine ⟨h.1.trans rfl, h.2.trans ?_⟩
    simp [List.filter_append, edgeHasCard]
  | .mk n .simple kt fkt dt none, pid, st =>
    ⟨rfl, by simp [processAttribute, List.filter_append, edgeHasCard]⟩
  | .mk n .simple kt fkt dt (some l), pid, st =>
    ⟨rfl, by simp [processAttribute, List.filter_append, edgeHasCard]⟩
  | .mk n .composite kt fkt dt none, pid, st =>
    ⟨rfl, by simp [processAttribute, List.filter_append, edgeHasCard]⟩
  | .mk n .multivalued kt fkt dt none, pid, st =>
    ⟨rfl, by simp [processAttribute, List.filter_append, edgeHasCard]⟩
  | .mk n .multivalued kt fkt dt (some l), pid, st =>
    ⟨rfl, by simp [processAttribute, List.filter_append, edgeHasCard]⟩
  | .mk n .derived kt fkt dt none, pid, st =>
    ⟨rfl, by simp [processAttribute, List.filter_append, edgeHasCard]⟩
  | .mk n .derived kt fkt dt (some l), pid, st =>
    ⟨rfl, by simp [processAttribute, List.filter_append, edgeHasCard]⟩
  | .mk n .typed kt fkt dt none, pid, st =>
    ⟨rfl, by simp [processAttribute, List.filter_append, edgeHasCard]⟩
  | .mk n .typed kt fkt dt (some l), pid, st =>
    ⟨rfl, by simp [processAttribute, List.filter_append, edgeHasCard]⟩

theorem processAttributeList_inv : ∀ (l : List AttributeNode) (pid : String) (st : GenState),
    (processAttributeList l pid st).entityMap = st.entityMap ∧
    (processAttributeList l pid st).edges.filter edgeHasCard = st.edges.filter edgeHasCard
  | [], _, st => ⟨rfl, rfl⟩
  | a :: rest, pid, st => by
    have h1 := processAttribute_inv a pid st
    have h2 := processAttributeList_inv rest pid (processAttribute a pid st)
    exact ⟨h2.1.trans h1.1, h2.2.trans h1.2⟩

end

theorem genEntity_inv (st : GenState) (e : EntityNode) :
    (genEntity st e).entityMap = mapSet st.entityMap e.name (freshNodeId st.nodeCtr) ∧
    (genEntity st e).edges.filter edgeHasCard = st.edges.filter edgeHasCard := by
  simp only [genEntity]
  exact ⟨(processAttributeList_inv _ _ _).1.trans rfl,
    (processAttributeList_inv _ _ _).2.trans rfl⟩

theorem foldl_genEntity_filter (es : List EntityNode) (st : GenState) :
    (es.foldl genEntity st).edges.filter edgeHasCard = st.edges.filter edgeHasCard := by
  induction es generalizing st with
  | nil => rfl
  | cons e rest ih => exact (ih _).trans (genEntity_inv st e).2

theorem genRelationship_inv (st : GenState) (r : RelationshipNode) :
    (genRelationship st r).entityMap = st.entityMap ∧
    (genRelationship st r).edges.filter edgeHasCard =
      st.edges.filter edgeHasCard ++
        relSideEdges st.entityMap (freshNodeId st.nodeCtr) st.edgeCtr r := by
  simp only [genRelationship, relSideEdges]
  rcases hml : mapGet st.entityMap r.leftSide.entityName with _ | lid <;>
    rcases hmr : mapGet st.entityMap r.rightSide.entityName with _ | rid2 <;>
    simp only [hml, hmr] <;>
    refine ⟨(processAttributeList_inv _ _ _).1.trans rfl,
      (processAttributeList_inv _ _ _).2.trans ?_⟩ <;>
    simp [List.filter_append, edgeHasCard]

theorem foldl_genRelationship_filter (rs : List RelationshipNode) (st : GenState) :
    (rs.foldl genRelationship st).edges.filter edgeHasCard =
      st.edges.filter edgeHasCard ++ relEdgeChunks st rs := by
  induction rs generalizing st with
  | nil => simp [relEdgeChunks]
  | cons r rest ih =>
    simp only [List.foldl_cons, relEdgeChunks]
    rw [ih, (genRelationship_inv st r).2, List.append_assoc]

theorem mapGet_isSome_mapSet {α : Type} (m : List (String × α)) (k k' : String) (v : α)
    (h : k' = k ∨ (mapGet m k').isSome) : (mapGet (mapSet m k v) k').isSome := by
  rcases h with h | h
  · subst h
    simp [mapGet_mapSet_self]
  · by_cases h2 : k' = k
    · subst h2
      simp [mapGet_mapSet_self]
    · rw [mapGet_mapSet_ne _ _ _ _ h2]
      exact h

theorem mapGet_foldl_genEntity_isSome (es : List EntityNode) (st : GenState) (name : String)
    (h : name ∈ es.map EntityNode.name ∨ (mapGet st.entityMap name).isSome) :
    (mapGet (es.foldl genEntity st).entityMap name).isSome := by
  induction es generalizing st with
  | nil =>
    rcases h with h | h
    · simp at h
    · exact h
  | cons e rest ih =>
    simp only [List.foldl_cons]
    apply ih
    rcases h with h | h
    · simp only [List.map_cons, List.mem_cons] at h
      rcases h with h | h
      · refine Or.inr ?_
        rw [(genEntity_inv st e).1]
        exact mapGet_isSome_mapSet _ _ _ _ (Or.inl h)
      · exact Or.inl h
    · refine Or.inr ?_
      rw [(genEntity_inv st e).1]
      exact mapGet_isSome_mapSet _ _ _ _ (Or.inr h)

theorem relSideEdges_length (m : List (String × String)) (rid : String) (ectr : Nat)
    (r : RelationshipNode)
    (hl : (mapGet m r.leftSide.entityName).isSome)
    (hr : (mapGet m r.rightSide.entityName).isSome) :
    (relSideEdges m rid ectr r).length = 2 := by
  simp only [relSideEdges]
  rcases hml : mapGet m r.leftSide.entityName with _ | lid
  · rw [hml] at hl
    simp at hl
  · rcases hmr : mapGet m r.rightSide.entityName with _ | rid2
    · rw [hmr] at hr
      simp at hr
    · rfl

theorem relEdgeChunks_length (rs : List RelationshipNode) (st : GenState)
    (em : List (String × String)) (hem : st.entityMap = em)
    (h : ∀ r ∈ rs, (mapGet em r.leftSide.entityName).isSome ∧
      (mapGet em r.rightSide.entityName).isSome) :
    (relEdgeChunks st rs).length = 2 * rs.length := by
  induction rs generalizing st with
  | nil => rfl
  | cons r rest ih =>
    simp only [relEdgeChunks, List.length_append, List.length_cons]
    have hr := h r (by simp)
    rw [hem, relSideEdges_length _ _ _ _ hr.1 hr.2]
    rw [ih (genRelationship st r) ((genRelationship_inv st r).1.trans hem)
      (fun r2 hr2 => h r2 (by simp [hr2]))]
    ring

/-- C4, amended: when every relationship side names a declared entity, the relational
edges of the produced model are exactly, in document order, one entity→relationship
edge carrying the left side's cardinality/participation and one relationship→entity
edge carrying the right side's, per relationship (see `relSideEdges`) — hence
exactly `2 · #relationships` relational edges. Without the hypothesis a dangling
side silently produces no edge (see the counterexample). The edge-list
characterization itself holds for every AST. -/
theorem C4_side_edges_amended (ast : ERDiagramAST)
    (hdecl : ∀ r ∈ ast.relationships,
      r.leftSide.entityName ∈ ast.entities.map EntityNode.name ∧
      r.rightSide.entityName ∈ ast.entities.map EntityNode.name) :
    (astToDiagramModel ast).edges.filter edgeHasCard =
      relEdgeChunks (relStage ast) ast.relationships ∧
    ((astToDiagramModel ast).edges.filter edgeHasCard).length =
      2 * ast.relationships.length := by
  have hchar : (astToDiagramModel ast).edges.filter edgeHasCard =
      relEdgeChunks (relStage ast) ast.relationships := by
    show ((ast.relationships.foldl genRelationship (relStage ast)).edges.filter edgeHasCard) = _
    rw [foldl_genRelationship_filter]
    rw [show (relStage ast).edges.filter edgeHasCard = [] from foldl_genEntity_filter _ _]
    rfl
  refine ⟨hchar, ?_⟩
  rw [hchar]
  exact relEdgeChunks_length _ _ _ rfl (fun r hr =>
    ⟨mapGet_foldl_genEntity_isSome _ _ _ (Or.inl (hdecl r hr).1),
     mapGet_foldl_genEntity_isSome _ _ _ (Or.inl (hdecl r hr).2)⟩)

theorem C4_witness :
    (astToDiagramModel C4okAst).edges.filter edgeHasCard =
      relEdgeChunks (relStage C4okAst) C4okAst.relationships ∧
    ((astToDiagramModel C4okAst).edges.filter edgeHasCard).length =
      2 * C4okAst.relationships.length :=
  C4_side_edges_amended C4okAst (by decide)

/-! ## Parser-image invariants: the tokenizer side -/
theorem tokensOk_cons (t : Token) (ts : List Token)
    (h1 : t.type = .IDENTIFIER → validIdent t.value = true) (h2 : TokensOk ts) :
    TokensOk (t :: ts) := by
  intro u hu hty
  rcases List.mem_cons.mp hu with h | h
  · exact h ▸ h1 (h ▸ hty)
  · exact h2 u h hty

theorem tokensOk_cons_nonident (ty : TokType) (v : String) (l c : Nat) (ts : List Token)
    (hty : ty ≠ .IDENTIFIER) (h : TokensOk ts) : TokensOk (⟨ty, v, l, c⟩ :: ts) :=
  tokensOk_cons _ _ (fun hh => absurd hh hty) h

theorem tokensOk_eof (ty : TokType) (v : String) (l c : Nat)
    (hty : ty ≠ .IDENTIFIER) : TokensOk [⟨ty, v, l, c⟩] :=
  tokensOk_cons_nonident ty v l c [] hty (by intro t ht; simp at ht)

theorem tokensOk_tokLoop (f : Nat) : ∀ (cs : List Char) (l c : Nat),
    TokensOk (tokLoop f cs l c) := by
  induction f with
  | zero =>
    intro cs l c
    exact tokensOk_eof _ _ _ _ (by decide)
  | succ f ih =>
    intro cs l c
    rcases hskip : skipWs cs c with ⟨cs', col'⟩
    rcases cs' with _ | ⟨ch, rest⟩
    · simp only [tokLoop, hskip]
      exact tokensOk_eof _ _ _ _ (by decide)
    · simp only [tokLoop, hskip]
      by_cases h1 : ch = '\n'
      · rw [if_pos h1]
        exact ih _ _ _
      rw [if_neg h1]
      by_cases h2 : isAlphaUnd ch = true
      · rw [if_pos h2]
        refine tokensOk_cons _ _ ?_ (ih _ _ _)
        intro hkw
        simp only at hkw
        simp only [validIdent]
        have htl : (⟨ch :: rest.takeWhile isIdentC⟩ : String).toList =
            ch :: rest.takeWhile isIdentC := rfl
        rw [htl]
        simp only [Bool.and_eq_true]
        exact ⟨⟨h2, List.all_takeWhile⟩, by rw [hkw]; decide⟩
      rw [if_neg h2]
      by_cases h3 : isDigitC ch = true
      · rw [if_pos h3]
        by_cases h4 : (⟨ch :: rest.takeWhile isDigitC⟩ : String) = "1"
        · rw [if_pos h4]
          exact tokensOk_cons_nonident _ _ _ _ _ (by decide) (ih _ _ _)
        · rw [if_neg h4]
          exact tokensOk_cons_nonident _ _ _ _ _ (by decide) (ih _ _ _)
      rw [if_neg h3]
      by_cases h5 : ch = ':'
      · rw [if_pos h5]
        exact tokensOk_cons_nonident _ _ _ _ _ (by decide) (ih _ _ _)
      rw [if_neg h5]
      by_cases h6 : ch = '('
      · rw [if_pos h6]
        exact tokensOk_cons_nonident _ _ _ _ _ (by decide) (ih _ _ _)
      rw [if_neg h6]
      by_cases h7 : ch = ')'
      · rw [if_pos h7]
        exact tokensOk_cons_nonident _ _ _ _ _ (by decide) (ih _ _ _)
      rw [if_neg h7]
      by_cases h8 : ch = ','
      · rw [if_pos h8]
        exact tokensOk_cons_nonident _ _ _ _ _ (by decide) (ih _ _ _)
      rw [if_neg h8]
      by_cases h9 : ch = '.'
      · rw [if_pos h9]
        exact tokensOk_cons_nonident _ _ _ _ _ (by decide) (ih _ _ _)
      rw [if_neg h9]
      by_cases h10 : ch = '+'
      · rw [if_pos h10]
        exact tokensOk_cons_nonident _ _ _ _ _ (by decide) (ih _ _ _)
      rw [if_neg h10]
      by_cases h11 : ch = '-'
      · rw [if_pos h11]
        split
        · exact tokensOk_cons_nonident _ _ _ _ _ (by decide) (ih _ _ _)
        · exact tokensOk_cons_nonident _ _ _ _ _ (by decide) (ih _ _ _)
        · exact ih _ _ _
      rw [if_neg h11]
      by_cases h12 : ch = '—'
      · rw [if_pos h12]
        exact tokensOk_cons_nonident _ _ _ _ _ (by decide) (ih _ _ _)
      rw [if_neg h12]
      exact ih _ _ _

theorem tokensOk_tokenize (s : String) : TokensOk (tokenize s) :=
  tokensOk_tokLoop _ _ _ _

/-! ## Parser-image invariants: the parser side -/
theorem tokensOk_tail (ts : List Token) (h : TokensOk ts) : TokensOk ts.tail := by
  cases ts with
  | nil => exact h
  | cons t rest => exact fun u hu => h u (List.mem_cons_of_mem _ hu)

theorem except_bind_ok {α β : Type} {x : Except String α} {f : α → Except String β} {b : β}
    (h : Except.bind x f = .ok b) : ∃ a, x = .ok a ∧ f a = .ok b := by
  cases x with
  | error e => simp [Except.bind] at h
  | ok a => exact ⟨a, rfl, by simpa [Except.bind] using h⟩

theorem expect_ok {ty : TokType} {ts : List Token} {t : Token} {rest : List Token}
    (h : expect ty ts = .ok (t, rest)) :
    t = cur ts ∧ rest = ts.tail ∧ t.type = ty := by
  unfold expect at h
  by_cases hc : check ty ts = true
  · rw [if_pos hc] at h
    injection h with h
    injection h with h1 h2
    refine ⟨h1.symm, h2.symm, ?_⟩
    rw [← h1]
    simp only [check, decide_eq_true_eq] at hc
    exact hc.2
  · rw [if_neg hc] at h
    exact absurd h (by simp)

theorem cur_valid {ts : List Token} (hts : TokensOk ts)
    (hid : (cur ts).type = .IDENTIFIER) : validIdent (cur ts).value = true := by
  cases ts with
  | nil => simp [cur] at hid
  | cons u us => exact hts (cur (u :: us)) (by rw [show cur (u :: us) = u from rfl]; simp) hid

theorem expect_ident_valid {ts : List Token} {t : Token} {rest : List Token}
    (hts : TokensOk ts) (h : expect .IDENTIFIER ts = .ok (t, rest)) :
    validIdent t.value = true ∧ rest = ts.tail ∧ TokensOk rest := by
  obtain ⟨h1, h2, h3⟩ := expect_ok h
  exact ⟨h1 ▸ cur_valid hts (h1 ▸ h3), h2, h2 ▸ tokensOk_tail ts hts⟩

theorem parseFkTarget_wf {ts : List Token} {t : ForeignKeyTarget} {rest : List Token}
    (hts : TokensOk ts) (h : parseFkTarget ts = .ok (t, rest)) :
    ParsedFk t ∧ TokensOk rest := by
  simp only [parseFkTarget, Bind.bind] at h
  obtain ⟨⟨etok, ts1⟩, h1, h⟩ := except_bind_ok h
  obtain ⟨hval1, hts1eq, hts1⟩ := expect_ident_valid hts h1
  obtain ⟨⟨dtok, ts2⟩, h2, h⟩ := except_bind_ok h
  obtain ⟨_, hts2eq, _⟩ := expect_ok h2
  have hts2 : TokensOk ts2 := hts2eq ▸ tokensOk_tail _ hts1
  obtain ⟨⟨atok, ts3⟩, h3, h⟩ := except_bind_ok h
  obtain ⟨hval3, hts3eq, hts3⟩ := expect_ident_valid hts2 h3
  injection h with h
  injection h with ha hb
  refine ⟨?_, hb ▸ hts3⟩
  rw [← ha]
  exact ⟨hval1, hval3⟩

theorem parseSubAttributeList_wf (f : Nat) :
    ∀ (ts : List Token) (attrs : List AttributeNode) (rest : List Token),
    TokensOk ts → parseSubAttributeList f ts = (attrs, rest) →
    (∀ a ∈ attrs, ∃ m, validIdent m = true ∧ a = mkSimpleAttr m) ∧ TokensOk rest := by
  induction f with
  | zero =>
    intro ts attrs rest hts h
    simp only [parseSubAttributeList] at h
    injection h with h1 h2
    exact ⟨by simp [← h1], h2 ▸ hts⟩
  | succ f ih =>
    intro ts attrs rest hts h
    simp only [parseSubAttributeList] at h
    by_cases hI : check .IDENTIFIER ts = true
    · rw [if_pos hI] at h
      by_cases hM : isMarkerTok (peek1 ts) = true
      · rw [if_pos hM] at h
        injection h with h1 h2
        exact ⟨by simp [← h1], h2 ▸ hts⟩
      · rw [if_neg hM] at h
        have hcurid : (cur ts).type = .IDENTIFIER := by
          simp only [check, decide_eq_true_eq] at hI
          exact hI.2
        have hval : validIdent (cur ts).value = true := cur_valid hts hcurid
        have htl : TokensOk ts.tail := tokensOk_tail ts hts
        by_cases hK : (isEntityOrRelationStart ts.tail || check .IDENTIFIED ts.tail) = true
        · rw [if_pos hK] at h
          injection h with h1 h2
          refine ⟨?_, h2 ▸ htl⟩
          rw [← h1]
          intro a ha
          simp only [List.mem_singleton] at ha
          exact ⟨(cur ts).value, hval, ha⟩
        · rw [if_neg hK] at h
          rcases hrec : parseSubAttributeList f ts.tail with ⟨attrs', rest'⟩
          rw [hrec] at h
          injection h with h1 h2
          obtain ⟨hall, hrest⟩ := ih ts.tail attrs' rest' htl hrec
          refine ⟨?_, h2 ▸ hrest⟩
          rw [← h1]
          intro a ha
          rcases List.mem_cons.mp ha with h | h
          · exact ⟨(cur ts).value, hval, h⟩
          · exact hall a h
    · rw [if_neg hI] at h
      injection h with h1 h2
      exact ⟨by simp [← h1], h2 ▸ hts⟩

theorem parseAttribute_wf {f : Nat} {ts : List Token} {a : AttributeNode} {rest : List Token}
    (hts : TokensOk ts) (h : parseAttribute f ts = .ok (a, rest)) :
    ParsedAttr a ∧ TokensOk rest := by
  simp only [parseAttribute, Bind.bind] at h
  obtain ⟨⟨ntok, ts1⟩, h1, h⟩ := except_bind_ok h
  obtain ⟨hval, hts1eq, hts1⟩ := expect_ident_valid hts h1
  simp only at h
  by_cases hPK : check .PK ts1 = true
  · rw [if_pos hPK] at h
    injection h with h
    injection h with ha hb
    exact ⟨⟨ntok.value, hval, by rw [← ha]; exact Or.inl rfl⟩, hb ▸ tokensOk_tail _ hts1⟩
  rw [if_neg hPK] at h
  by_cases hFK : check .FK ts1 = true
  · rw [if_pos hFK] at h
    by_cases hAR : check .ARROW ts1.tail = true
    · rw [if_pos hAR] at h
      obtain ⟨⟨t, ts3⟩, h3, h⟩ := except_bind_ok h
      obtain ⟨hfk, hts3⟩ := parseFkTarget_wf (tokensOk_tail _ (tokensOk_tail _ hts1)) h3
      injection h with h
      injection h with ha hb
      refine ⟨⟨ntok.value, hval, ?_⟩, hb ▸ hts3⟩
      rw [← ha]
      exact Or.inr (Or.inl ⟨t, rfl, hfk.1, hfk.2⟩)
    · rw [if_neg hAR] at h
      injection h with h
      injection h with ha hb
      refine ⟨⟨ntok.value, hval, ?_⟩, hb ▸ tokensOk_tail _ hts1⟩
      rw [← ha]
      exact Or.inr (Or.inr (Or.inl rfl))
  rw [if_neg hFK] at h
  by_cases hCO : check .COMPOSITE ts1 = true
  · rw [if_pos hCO] at h
    obtain ⟨⟨ctok, ts2⟩, h2, h⟩ := except_bind_ok h
    obtain ⟨_, hts2eq, _⟩ := expect_ok h2
    have hts2 : TokensOk ts2 := hts2eq ▸ tokensOk_tail _ (tokensOk_tail _ hts1)
    simp only at h
    rcases hsub : parseSubAttributeList f ts2 with ⟨subs, ts3⟩
    rw [hsub] at h
    obtain ⟨hall, hts3⟩ := parseSubAttributeList_wf f ts2 subs ts3 hts2 hsub
    injection h with h
    injection h with ha hb
    refine ⟨⟨ntok.value, hval, ?_⟩, hb ▸ hts3⟩
    rw [← ha]
    refine Or.inr (Or.inr (Or.inr (Or.inl ⟨subs, rfl, ?_⟩)))
    intro b hb2
    obtain ⟨m, hm1, hm2⟩ := hall b hb2
    exact ⟨m, hm1, hm2⟩
  rw [if_neg hCO] at h
  by_cases hMU : check .MULTIVALUED ts1 = true
  · rw [if_pos hMU] at h
    injection h with h
    injection h with ha hb
    refine ⟨⟨ntok.value, hval, ?_⟩, hb ▸ tokensOk_tail _ hts1⟩
    rw [← ha]
    exact Or.inr (Or.inr (Or.inr (Or.inr (Or.inl rfl))))
  rw [if_neg hMU] at h
  by_cases hDE : check .DERIVED ts1 = true
  · rw [if_pos hDE] at h
    injection h with h
    injection h with ha hb
    refine ⟨⟨ntok.value, hval, ?_⟩, hb ▸ tokensOk_tail _ hts1⟩
    rw [← ha]
    exact Or.inr (Or.inr (Or.inr (Or.inr (Or.inr (Or.inl rfl)))))
  rw [if_neg hDE] at h
  by_cases hCL : check .COLON ts1 = true
  · rw [if_pos hCL] at h
    obtain ⟨⟨dtok, ts2⟩, h2, h⟩ := except_bind_ok h
    obtain ⟨hdval, hts2eq, hts2⟩ := expect_ident_valid (tokensOk_tail _ hts1) h2
    injection h with h
    injection h with ha hb
    refine ⟨⟨ntok.value, hval, ?_⟩, hb ▸ hts2⟩
    rw [← ha]
    exact Or.inr (Or.inr (Or.inr (Or.inr (Or.inr (Or.inr (Or.inl ⟨dtok.value, rfl, hdval⟩))))))
  rw [if_neg hCL] at h
  injection h with h
  injection h with ha hb
  refine ⟨⟨ntok.value, hval, ?_⟩, hb ▸ hts1⟩
  rw [← ha]
  exact Or.inr (Or.inr (Or.inr (Or.inr (Or.inr (Or.inr (Or.inr rfl))))))

theorem parseAttributeList_wf (f : Nat) :
    ∀ (ts : List Token) (attrs : List AttributeNode) (rest : List Token),
    TokensOk ts → parseAttributeList f ts = .ok (attrs, rest) →
    (∀ a ∈ attrs, ParsedAttr a) ∧ TokensOk rest := by
  induction f with
  | zero =>
    intro ts attrs rest hts h
    simp only [parseAttributeList] at h
    exact absurd h (by simp)
  | succ f ih =>
    intro ts attrs rest hts h
    simp only [parseAttributeList, Bind.bind] at h
    by_cases hG : (!isAtEnd ts && !isEntityOrRelationStart ts) = true
    · rw [if_pos hG] at h
      by_cases hI : check .IDENTIFIER ts = true
      · rw [if_pos hI] at h
        obtain ⟨⟨a, ts1⟩, h1, h⟩ := except_bind_ok h
        obtain ⟨hpa, hts1⟩ := parseAttribute_wf hts h1
        obtain ⟨⟨attrs', ts2⟩, h2, h⟩ := except_bind_ok h
        obtain ⟨hall, hts2⟩ := ih ts1 attrs' ts2 hts1 h2
        injection h with h
        injection h with ha hb
        refine ⟨?_, hb ▸ hts2⟩
        rw [← ha]
        intro b hbm
        rcases List.mem_cons.mp hbm with h | h
        · exact h ▸ hpa
        · exact hall b h
      · rw [if_neg hI] at h
        by_cases hID : check .IDENTIFIED ts = true
        · rw [if_pos hID] at h
          injection h with h
          injection h with ha hb
          exact ⟨by simp [← ha], hb ▸ hts⟩
        · rw [if_neg hID] at h
          exact ih ts.tail attrs rest (tokensOk_tail _ hts) h
    · rw [if_neg hG] at h
      injection h with h
      injection h with ha hb
      exact ⟨by simp [← ha], hb ▸ hts⟩

theorem parseIdentifiedByMore_wf (f : Nat) :
    ∀ (acc : List ForeignKeyTarget) (ts : List Token) (ids : List ForeignKeyTarget)
      (rest : List Token),
    TokensOk ts → (∀ t ∈ acc, ParsedFk t) → acc ≠ [] →
    parseIdentifiedByMore f acc ts = .ok (ids, rest) →
    (∀ t ∈ ids, ParsedFk t) ∧ ids ≠ [] ∧ TokensOk rest := by
  induction f with
  | zero =>
    intro acc ts ids rest _ _ _ h
    exact absurd h (by simp [parseIdentifiedByMore])
  | succ f ih =>
    intro acc ts ids rest hts hacc hne h
    simp only [parseIdentifiedByMore, Bind.bind] at h
    by_cases hP : check .PLUS ts = true
    · rw [if_pos hP] at h
      obtain ⟨⟨t, ts1⟩, h1, h⟩ := except_bind_ok h
      obtain ⟨hfk, hts1⟩ := parseFkTarget_wf (tokensOk_tail _ hts) h1
      refine ih (acc ++ [t]) ts1 ids rest hts1 ?_ (by simp) h
      intro u hu
      rcases List.mem_append.mp hu with h | h
      · exact hacc u h
      · simp only [List.mem_singleton] at h
        exact h ▸ hfk
    · rw [if_neg hP] at h
      injection h with h
      injection h with ha hb
      exact ⟨ha ▸ hacc, ha ▸ hne, hb ▸ hts⟩

theorem parseIdentifiedByList_wf {f : Nat} {ts : List Token} {ids : List ForeignKeyTarget}
    {rest : List Token} (hts : TokensOk ts)
    (h : parseIdentifiedByList f ts = .ok (ids, rest)) :
    (∀ t ∈ ids, ParsedFk t) ∧ ids ≠ [] ∧ TokensOk rest := by
  simp only [parseIdentifiedByList, Bind.bind] at h
  obtain ⟨⟨t, ts1⟩, h1, h⟩ := except_bind_ok h
  obtain ⟨hfk, hts1⟩ := parseFkTarget_wf hts h1
  exact parseIdentifiedByMore_wf f [t] ts1 ids rest hts1
    (by intro u hu; simp only [List.mem_singleton] at hu; exact hu ▸ hfk) (by simp) h

theorem parseEntity_wf {f : Nat} {ts : List Token} {e : EntityNode} {rest : List Token}
    (hts : TokensOk ts) (h : parseEntity f ts = .ok (e, rest)) :
    ParsedEntity e ∧ TokensOk rest := by
  simp only [parseEntity, Bind.bind] at h
  obtain ⟨⟨_, ts1⟩, h1, h⟩ := except_bind_ok h
  obtain ⟨_, hts1eq, _⟩ := expect_ok h1
  have hts1 : TokensOk ts1 := hts1eq ▸ tokensOk_tail _ hts
  obtain ⟨⟨ntok, ts2⟩, h2, h⟩ := except_bind_ok h
  obtain ⟨hval, hts2eq, hts2⟩ := expect_ident_valid hts1 h2
  obtain ⟨⟨_, ts3⟩, h3, h⟩ := except_bind_ok h
  obtain ⟨_, hts3eq, _⟩ := expect_ok h3
  have hts3 : TokensOk ts3 := hts3eq ▸ tokensOk_tail _ hts2
  obtain ⟨⟨attrs, ts4⟩, h4, h⟩ := except_bind_ok h
  obtain ⟨hall, hts4⟩ := parseAttributeList_wf f ts3 attrs ts4 hts3 h4
  injection h with h
  injection h with ha hb
  refine ⟨?_, hb ▸ hts4⟩
  rw [← ha]
  exact ⟨hval, hall, fun _ => rfl, by intro ids hids; simp at hids⟩

theorem parseWeakEntity_wf {f : Nat} {ts : List Token} {e : EntityNode} {rest : List Token}
    (hts : TokensOk ts) (h : parseWeakEntity f ts = .ok (e, rest)) :
    ParsedEntity e ∧ TokensOk rest := by
  simp only [parseWeakEntity, Bind.bind] at h
  obtain ⟨⟨_, ts1⟩, h1, h⟩ := except_bind_ok h
  obtain ⟨_, hts1eq, _⟩ := expect_ok h1
  have hts1 : TokensOk ts1 := hts1eq ▸ tokensOk_tail _ hts
  obtain ⟨⟨_, ts2⟩, h2, h⟩ := except_bind_ok h
  obtain ⟨_, hts2eq, _⟩ := expect_ok h2
  have hts2 : TokensOk ts2 := hts2eq ▸ tokensOk_tail _ hts1
  obtain ⟨⟨ntok, ts3⟩, h3, h⟩ := except_bind_ok h
  obtain ⟨hval, hts3eq, hts3⟩ := expect_ident_valid hts2 h3
  obtain ⟨⟨_, ts4⟩, h4, h⟩ := except_bind_ok h
  obtain ⟨_, hts4eq, _⟩ := expect_ok h4
  have hts4 : TokensOk ts4 := hts4eq ▸ tokensOk_tail _ hts3
  obtain ⟨⟨attrs, ts5⟩, h5, h⟩ := except_bind_ok h
  obtain ⟨hall, hts5⟩ := parseAttributeList_wf f ts4 attrs ts5 hts4 h5
  simp only at h
  by_cases hID : check .IDENTIFIED ts5 = true
  · rw [if_pos hID] at h
    obtain ⟨⟨_, ts6⟩, h6, h⟩ := except_bind_ok h
    obtain ⟨_, hts6eq, _⟩ := expect_ok h6
    have hts6 : TokensOk ts6 := hts6eq ▸ tokensOk_tail _ (tokensOk_tail _ hts5)
    obtain ⟨⟨ids, ts7⟩, h7, h⟩ := except_bind_ok h
    obtain ⟨hids, hne, hts7⟩ := parseIdentifiedByList_wf hts6 h7
    injection h with h
    injection h with ha hb
    refine ⟨?_, hb ▸ hts7⟩
    rw [← ha]
    refine ⟨hval, hall, by intro hcon; simp at hcon, ?_⟩
    intro ids2 hids2
    simp only [Option.some.injEq] at hids2
    exact hids2 ▸ ⟨hne, hids⟩
  · rw [if_neg hID] at h
    injection h with h
    injection h with ha hb
    refine ⟨?_, hb ▸ hts5⟩
    rw [← ha]
    exact ⟨hval, hall, fun _ => rfl, by intro ids hids; simp at hids⟩

theorem parseRelationAttributeList_wf (f : Nat) :
    ∀ (ts : List Token) (attrs : List AttributeNode) (rest : List Token),
    TokensOk ts → parseRelationAttributeList f ts = (attrs, rest) →
    (∀ a ∈ attrs, ∃ m, validIdent m = true ∧ a = mkSimpleAttr m) ∧ TokensOk rest := by
  induction f with
  | zero =>
    intro ts attrs rest hts h
    simp only [parseRelationAttributeList] at h
    injection h with h1 h2
    exact ⟨by simp [← h1], h2 ▸ hts⟩
  | succ f ih =>
    intro ts attrs rest hts h
    simp only [parseRelationAttributeList] at h
    by_cases hG : (!isAtEnd ts && !isEntityOrRelationStart ts && check .IDENTIFIER ts) = true
    · rw [if_pos hG] at h
      have hcurid : (cur ts).type = .IDENTIFIER := by
        simp only [Bool.and_eq_true, check, decide_eq_true_eq] at hG
        exact hG.2.2
      have hval : validIdent (cur ts).value = true := cur_valid hts hcurid
      rcases hrec : parseRelationAttributeList f ts.tail with ⟨attrs', rest'⟩
      rw [hrec] at h
      injection h with h1 h2
      obtain ⟨hall, hrest⟩ := ih ts.tail attrs' rest' (tokensOk_tail _ hts) hrec
      refine ⟨?_, h2 ▸ hrest⟩
      rw [← h1]
      intro a ha
      rcases List.mem_cons.mp ha with h | h
      · exact ⟨(cur ts).value, hval, h⟩
      · exact hall a h
    · rw [if_neg hG] at h
      injection h with h1 h2
      exact ⟨by simp [← h1], h2 ▸ hts⟩

theorem parseCardinality_ok {ts : List Token} {cd : Cardinality} {rest : List Token}
    (h : parseCardinality ts = .ok (cd, rest)) : rest = ts.tail := by
  unfold parseCardinality at h
  by_cases h1 : check .ONE ts = true
  · rw [if_pos h1] at h
    injection h with h
    injection h with _ hb
    exact hb.symm
  rw [if_neg h1] at h
  by_cases h2 : check .M ts = true
  · rw [if_pos h2] at h
    injection h with h
    injection h with _ hb
    exact hb.symm
  · rw [if_neg h2] at h
    exact absurd h (by simp)

theorem parseParticipation_ok {ts : List Token} {p : Participation} {rest : List Token}
    (h : parseParticipation ts = .ok (p, rest)) : rest = ts.tail := by
  unfold parseParticipation at h
  by_cases h1 : check .TOTAL ts = true
  · rw [if_pos h1] at h
    injection h with h
    injection h with _ hb
    exact hb.symm
  rw [if_neg h1] at h
  by_cases h2 : check .PARTIALKW ts = true
  · rw [if_pos h2] at h
    injection h with h
    injection h with _ hb
    exact hb.symm
  · rw [if_neg h2] at h
    exact absurd h (by simp)

theorem partOpt_tokensOk {ts : List Token} {p : Participation} {rest : List Token}
    (hts : TokensOk ts)
    (h : parseOptParticipation ts = .ok (p, rest)) :
    TokensOk rest := by
  unfold parseOptParticipation at h
  by_cases hc : check .COMMA ts = true
  · rw [if_pos hc] at h
    rw [parseParticipation_ok h]
    exact tokensOk_tail _ (tokensOk_tail _ hts)
  · rw [if_neg hc] at h
    injection h with h
    injection h with _ hb
    exact hb ▸ hts

theorem parseRelation_wf {f : Nat} {ts : List Token} {r : RelationshipNode} {rest : List Token}
    (hts : TokensOk ts) (h : parseRelation f ts = .ok (r, rest)) :
    ParsedRel r ∧ TokensOk rest := by
  simp only [parseRelation, Bind.bind] at h
  obtain ⟨⟨_, ts1⟩, h1, h⟩ := except_bind_ok h
  obtain ⟨_, hts1eq, _⟩ := expect_ok h1
  have hts1 : TokensOk ts1 := hts1eq ▸ tokensOk_tail _ hts
  obtain ⟨⟨ltok, ts2⟩, h2, h⟩ := except_bind_ok h
  obtain ⟨hlval, hts2eq, hts2⟩ := expect_ident_valid hts1 h2
  obtain ⟨⟨_, ts3⟩, h3, h⟩ := except_bind_ok h
  obtain ⟨_, hts3eq, _⟩ := expect_ok h3
  have hts3 : TokensOk ts3 := hts3eq ▸ tokensOk_tail _ hts2
  obtain ⟨⟨lc, ts4⟩, h4, h⟩ := except_bind_ok h
  have hts4 : TokensOk ts4 := (parseCardinality_ok h4) ▸ tokensOk_tail _ hts3
  obtain ⟨⟨lp, ts5⟩, h5, h⟩ := except_bind_ok h
  have hts5 : TokensOk ts5 := partOpt_tokensOk hts4 h5
  obtain ⟨⟨_, ts6⟩, h6, h⟩ := except_bind_ok h
  obtain ⟨_, hts6eq, _⟩ := expect_ok h6
  have hts6 : TokensOk ts6 := hts6eq ▸ tokensOk_tail _ hts5
  obtain ⟨⟨_, ts7⟩, h7, h⟩ := except_bind_ok h
  obtain ⟨_, hts7eq, _⟩ := expect_ok h7
  have hts7 : TokensOk ts7 := hts7eq ▸ tokensOk_tail _ hts6
  obtain ⟨⟨_, ts8⟩, h8, h⟩ := except_bind_ok h
  obtain ⟨_, hts8eq, _⟩ := expect_ok h8
  have hts8 : TokensOk ts8 := hts8eq ▸ tokensOk_tail _ hts7
  obtain ⟨⟨rc, ts9⟩, h9, h⟩ := except_bind_ok h
  have hts9 : TokensOk ts9 := (parseCardinality_ok h9) ▸ tokensOk_tail _ hts8
  obtain ⟨⟨rp, ts10⟩, h10, h⟩ := except_bind_ok h
  have hts10 : TokensOk ts10 := partOpt_tokensOk hts9 h10
  obtain ⟨⟨_, ts11⟩, h11, h⟩ := except_bind_ok h
  obtain ⟨_, hts11eq, _⟩ := expect_ok h11
  have hts11 : TokensOk ts11 := hts11eq ▸ tokensOk_tail _ hts10
  obtain ⟨⟨rtok, ts12⟩, h12, h⟩ := except_bind_ok h
  obtain ⟨hrval, hts12eq, hts12⟩ := expect_ident_valid hts11 h12
  obtain ⟨⟨_, ts13⟩, h13, h⟩ := except_bind_ok h
  obtain ⟨_, hts13eq, _⟩ := expect_ok h13
  have hts13 : TokensOk ts13 := hts13eq ▸ tokensOk_tail _ hts12
  obtain ⟨⟨vtok, ts14⟩, h14, h⟩ := except_bind_ok h
  obtain ⟨hvval, hts14eq, hts14⟩ := expect_ident_valid hts13 h14
  simp only at h
  rcases hra : parseRelationAttributeList f ts14 with ⟨attrs, ts15⟩
  rw [hra] at h
  obtain ⟨hall, hts15⟩ := parseRelationAttributeList_wf f ts14 attrs ts15 hts14 hra
  injection h with h
  injection h with ha hb
  refine ⟨?_, hb ▸ hts15⟩
  rw [← ha]
  exact ⟨hlval, hrval, hvval, rfl, hall, by intro hcon; simp at hcon⟩

theorem parseIdentifyingRelation_wf {ts : List Token} {r : RelationshipNode}
    {rest : List Token} (hts : TokensOk ts)
    (h : parseIdentifyingRelation ts = .ok (r, rest)) :
    ParsedRel r ∧ TokensOk rest := by
  simp only [parseIdentifyingRelation, Bind.bind] at h
  obtain ⟨⟨_, ts1⟩, h1, h⟩ := except_bind_ok h
  obtain ⟨_, hts1eq, _⟩ := expect_ok h1
  have hts1 : TokensOk ts1 := hts1eq ▸ tokensOk_tail _ hts
  obtain ⟨⟨_, ts2⟩, h2, h⟩ := except_bind_ok h
  obtain ⟨_, hts2eq, _⟩ := expect_ok h2
  have hts2 : TokensOk ts2 := hts2eq ▸ tokensOk_tail _ hts1
  obtain ⟨⟨ltok, ts3⟩, h3, h⟩ := except_bind_ok h
  obtain ⟨hlval, hts3eq, hts3⟩ := expect_ident_valid hts2 h3
  obtain ⟨⟨_, ts4⟩, h4, h⟩ := except_bind_ok h
  obtain ⟨_, hts4eq, _⟩ := expect_ok h4
  have hts4 : TokensOk ts4 := hts4eq ▸ tokensOk_tail _ hts3
  obtain ⟨⟨lc, ts5⟩, h5, h⟩ := except_bind_ok h
  have hts5 : TokensOk ts5 := (parseCardinality_ok h5) ▸ tokensOk_tail _ hts4
  obtain ⟨⟨_, ts6⟩, h6, h⟩ := except_bind_ok h
  obtain ⟨_, hts6eq, _⟩ := expect_ok h6
  have hts6 : TokensOk ts6 := hts6eq ▸ tokensOk_tail _ hts5
  obtain ⟨⟨_, ts7⟩, h7, h⟩ := except_bind_ok h
  obtain ⟨_, hts7eq, _⟩ := expect_ok h7
  have hts7 : TokensOk ts7 := hts7eq ▸ tokensOk_tail _ hts6
  obtain ⟨⟨_, ts8⟩, h8, h⟩ := except_bind_ok h
  obtain ⟨_, hts8eq, _⟩ := expect_ok h8
  have hts8 : TokensOk ts8 := hts8eq ▸ tokensOk_tail _ hts7
  obtain ⟨⟨rc, ts9⟩, h9, h⟩ := except_bind_ok h
  have hts9 : TokensOk ts9 := (parseCardinality_ok h9) ▸ tokensOk_tail _ hts8
  obtain ⟨⟨_, ts10⟩, h10, h⟩ := except_bind_ok h
  obtain ⟨_, hts10eq, _⟩ := expect_ok h10
  have hts10 : TokensOk ts10 := hts10eq ▸ tokensOk_tail _ hts9
  obtain ⟨⟨rtok, ts11⟩, h11, h⟩ := except_bind_ok h
  obtain ⟨hrval, hts11eq, hts11⟩ := expect_ident_valid hts10 h11
  obtain ⟨⟨_, ts12⟩, h12, h⟩ := except_bind_ok h
  obtain ⟨_, hts12eq, _⟩ := expect_ok h12
  have hts12 : TokensOk ts12 := hts12eq ▸ tokensOk_tail _ hts11
  obtain ⟨⟨vtok, ts13⟩, h13, h⟩ := except_bind_ok h
  obtain ⟨hvval, hts13eq, hts13⟩ := expect_ident_valid hts12 h13
  injection h with h
  injection h with ha hb
  refine ⟨?_, hb ▸ hts13⟩
  rw [← ha]
  exact ⟨hlval, hrval, hvval, rfl, by intro a hac; simp at hac,
    fun _ => ⟨rfl, rfl, rfl⟩⟩

theorem parseProgram_wf (f : Nat) :
    ∀ (ts : List Token) (es : List EntityNode) (rs : List RelationshipNode),
    TokensOk ts → parseProgram f ts = .ok (es, rs) →
    (∀ e ∈ es, ParsedEntity e) ∧ (∀ r ∈ rs, ParsedRel r) := by
  induction f with
  | zero =>
    intro ts es rs _ h
    exact absurd h (by simp [parseProgram])
  | succ f ih =>
    intro ts es rs hts h
    simp only [parseProgram, Bind.bind] at h
    by_cases hE : isAtEnd ts = true
    · rw [if_pos hE] at h
      injection h with h
      injection h with ha hb
      exact ⟨by simp [← ha], by simp [← hb]⟩
    rw [if_neg hE] at h
    by_cases h1 : check .ENTITY ts = true
    · rw [if_pos h1] at h
      obtain ⟨⟨e, ts1⟩, he, h⟩ := except_bind_ok h
      obtain ⟨hpe, hts1⟩ := parseEntity_wf hts he
      obtain ⟨⟨es', rs'⟩, hp, h⟩ := except_bind_ok h
      obtain ⟨hes, hrs⟩ := ih ts1 es' rs' hts1 hp
      injection h with h
      injection h with ha hb
      refine ⟨?_, hb ▸ hrs⟩
      rw [← ha]
      intro e2 he2
      rcases List.mem_cons.mp he2 with h | h
      · exact h ▸ hpe
      · exact hes e2 h
    rw [if_neg h1] at h
    by_cases h2 : check .WEAK ts = true
    · rw [if_pos h2] at h
      obtain ⟨⟨e, ts1⟩, he, h⟩ := except_bind_ok h
      obtain ⟨hpe, hts1⟩ := parseWeakEntity_wf hts he
      obtain ⟨⟨es', rs'⟩, hp, h⟩ := except_bind_ok h
      obtain ⟨hes, hrs⟩ := ih ts1 es' rs' hts1 hp
      injection h with h
      injection h with ha hb
      refine ⟨?_, hb ▸ hrs⟩
      rw [← ha]
      intro e2 he2
      rcases List.mem_cons.mp he2 with h | h
      · exact h ▸ hpe
      · exact hes e2 h
    rw [if_neg h2] at h
    by_cases h3 : check .RELATION ts = true
    · rw [if_pos h3] at h
      obtain ⟨⟨r, ts1⟩, hr, h⟩ := except_bind_ok h
      obtain ⟨hpr, hts1⟩ := parseRelation_wf hts hr
      obtain ⟨⟨es', rs'⟩, hp, h⟩ := except_bind_ok h
      obtain ⟨hes, hrs⟩ := ih ts1 es' rs' hts1 hp
      injection h with h
      injection h with ha hb
      refine ⟨ha ▸ hes, ?_⟩
      rw [← hb]
      intro r2 hr2
      rcases List.mem_cons.mp hr2 with h | h
      · exact h ▸ hpr
      · exact hrs r2 h
    rw [if_neg h3] at h
    by_cases h4 : check .IDENTIFYING ts = true
    · rw [if_pos h4] at h
      obtain ⟨⟨r, ts1⟩, hr, h⟩ := except_bind_ok h
      obtain ⟨hpr, hts1⟩ := parseIdentifyingRelation_wf hts hr
      obtain ⟨⟨es', rs'⟩, hp, h⟩ := except_bind_ok h
      obtain ⟨hes, hrs⟩ := ih ts1 es' rs' hts1 hp
      injection h with h
      injection h with ha hb
      refine ⟨ha ▸ hes, ?_⟩
      rw [← hb]
      intro r2 hr2
      rcases List.mem_cons.mp hr2 with h | h
      · exact h ▸ hpr
      · exact hrs r2 h
    rw [if_neg h4] at h
    exact ih ts.tail es rs (tokensOk_tail _ hts) h

/-- Every AST `parseDSL` returns satisfies the parser-image invariants. -/
theorem parseDSL_wf {s : String} {ast : ERDiagramAST} (h : parseDSL s = .ok ast) :
    ParsedAST ast := by
  simp only [parseDSL, Bind.bind] at h
  obtain ⟨⟨es, rs⟩, hp, h⟩ := except_bind_ok h
  obtain ⟨hes, hrs⟩ := parseProgram_wf _ _ _ _ (tokensOk_tokenize s) hp
  injection h with h
  rw [← h]
  exact ⟨hes, hrs⟩

/-! ## Theorems for claim C7 (identifying relationships are totally participating) -/
/-- C7: every relationship a successful parse returns with type `identifying` has
`total` participation on both sides. Since this holds for every document `parseDSL`
accepts, the grammar offers no way to set an identifying relation's participation
independently. -/
theorem C7_identifying_total (s : String) (ast : ERDiagramAST)
    (h : parseDSL s = .ok ast) (r : RelationshipNode) (hr : r ∈ ast.relationships)
    (hid : r.relationshipType = .identifying) :
    r.leftSide.participation = .total ∧ r.rightSide.participation = .total := by
  have hrel := (parseDSL_wf h).2 r hr
  obtain ⟨ht1, ht2, _⟩ := hrel.2.2.2.2.2 hid
  exact ⟨ht1, ht2⟩

theorem C7_witness :
    (⟨"r", .identifying, ⟨"A", .one, .total⟩, ⟨"B", .many, .total⟩, "r", []⟩ :
        RelationshipNode).leftSide.participation = .total ∧
    (⟨"r", .identifying, ⟨"A", .one, .total⟩, ⟨"B", .many, .total⟩, "r", []⟩ :
        RelationshipNode).rightSide.participation = .total :=
  C7_identifying_total "Identifying Relation A (1) — (M) B: r"
    ⟨[], [⟨"r", .identifying, ⟨"A", .one, .total⟩, ⟨"B", .many, .total⟩, "r", []⟩]⟩
    rfl _ (List.mem_singleton.mpr rfl) rfl

/-! ## Theorems for claim C10 (attribute field coherence) -/
theorem coherent_mkSimpleAttr (m : String) : coherentAttr (mkSimpleAttr m) := by
  simp [coherentAttr, mkSimpleAttr, AttributeNode.subAttributes, AttributeNode.attributeType,
    AttributeNode.dataType, AttributeNode.fkTarget, AttributeNode.keyType]

theorem mem_attrWithSubsList (a : AttributeNode) :
    ∀ (l : List AttributeNode), a ∈ attrWithSubs.attrWithSubsList l →
      ∃ x ∈ l, a ∈ attrWithSubs x := by
  intro l
  induction l with
  | nil => intro h; simp [attrWithSubs.attrWithSubsList] at h
  | cons x rest ih =>
    intro h
    simp only [attrWithSubs.attrWithSubsList, List.mem_append] at h
    rcases h with h | h
    · exact ⟨x, by simp, h⟩
    · obtain ⟨y, hy, hay⟩ := ih h
      exact ⟨y, by simp [hy], hay⟩

theorem parsedAttr_coherent (b : AttributeNode) (hb : ParsedAttr b) :
    ∀ a ∈ attrWithSubs b, coherentAttr a := by
  obtain ⟨n, hval, hsh⟩ := hb
  rcases hsh with h | ⟨t, h, _, _⟩ | h | ⟨subs, h, hsubs⟩ | h | h | ⟨d, h, _⟩ | h <;> subst h
  · intro a ha
    simp only [attrWithSubs, List.mem_singleton] at ha
    subst ha
    simp [coherentAttr, AttributeNode.subAttributes, AttributeNode.attributeType,
      AttributeNode.dataType, AttributeNode.fkTarget, AttributeNode.keyType]
  · intro a ha
    simp only [attrWithSubs, List.mem_singleton] at ha
    subst ha
    simp [coherentAttr, AttributeNode.subAttributes, AttributeNode.attributeType,
      AttributeNode.dataType, AttributeNode.fkTarget, AttributeNode.keyType]
  · intro a ha
    simp only [attrWithSubs, List.mem_singleton] at ha
    subst ha
    simp [coherentAttr, AttributeNode.subAttributes, AttributeNode.attributeType,
      AttributeNode.dataType, AttributeNode.fkTarget, AttributeNode.keyType]
  · intro a ha
    simp only [attrWithSubs, List.mem_cons] at ha
    rcases ha with ha | ha
    · subst ha
      simp [coherentAttr, AttributeNode.subAttributes, AttributeNode.attributeType,
        AttributeNode.dataType, AttributeNode.fkTarget, AttributeNode.keyType]
    · obtain ⟨x, hx, hax⟩ := mem_attrWithSubsList a subs ha
      obtain ⟨m, _, hxm⟩ := hsubs x hx
      subst hxm
      simp only [mkSimpleAttr, attrWithSubs, List.mem_singleton] at hax
      subst hax
      exact coherent_mkSimpleAttr m
  · intro a ha
    simp only [attrWithSubs, List.mem_singleton] at ha
    subst ha
    simp [coherentAttr, AttributeNode.subAttributes, AttributeNode.attributeType,
      AttributeNode.dataType, AttributeNode.fkTarget, AttributeNode.keyType]
  · intro a ha
    simp only [attrWithSubs, List.mem_singleton] at ha
    subst ha
    simp [coherentAttr, AttributeNode.subAttributes, AttributeNode.attributeType,
      AttributeNode.dataType, AttributeNode.fkTarget, AttributeNode.keyType]
  · intro a ha
    simp only [attrWithSubs, List.mem_singleton] at ha
    subst ha
    simp [coherentAttr, AttributeNode.subAttributes, AttributeNode.attributeType,
      AttributeNode.dataType, AttributeNode.fkTarget, AttributeNode.keyType]
  · intro a ha
    simp only [attrWithSubs, List.mem_singleton] at ha
    subst ha
    simp [coherentAttr, AttributeNode.subAttributes, AttributeNode.attributeType,
      AttributeNode.dataType, AttributeNode.fkTarget, AttributeNode.keyType]

/-- C10: every attribute node anywhere in an AST returned by `parseDSL` satisfies
the field-coherence invariant: `subAttributes` present iff composite, `dataType`
only on typed attributes, `fkTarget` only on foreign keys, and any key marker
forces the `simple` attribute kind. -/
theorem C10_attribute_coherence (s : String) (ast : ERDiagramAST)
    (h : parseDSL s = .ok ast) : ∀ a ∈ astAllAttrs ast, coherentAttr a := by
  obtain ⟨hes, hrs⟩ := parseDSL_wf h
  intro a ha
  simp only [astAllAttrs, List.mem_append, List.mem_flatMap] at ha
  rcases ha with ⟨e, he, b, hb, hab⟩ | ⟨r, hr, b, hb, hab⟩
  · exact parsedAttr_coherent b ((hes e he).2.1 b hb) a hab
  · obtain ⟨m, hm, hbm⟩ := (hrs r hr).2.2.2.2.1 b hb
    exact parsedAttr_coherent b ⟨m, hm, by rw [hbm]; exact Or.inr (Or.inr (Or.inr
      (Or.inr (Or.inr (Or.inr (Or.inr rfl))))))⟩ a hab

theorem C10_witness :
    coherentAttr (AttributeNode.mk "c" .composite .nokey none none
      (some [mkSimpleAttr "d"])) :=
  C10_attribute_coherence "Entity E:\n  a PK\n  c Composite:\n    d"
    ⟨[⟨"E", .strong, [.mk "a" .simple .pk none none none,
      .mk "c" .composite .nokey none none (some [mkSimpleAttr "d"])], none⟩], []⟩
    rfl _ (by simp [astAllAttrs, attrWithSubs, attrWithSubs.attrWithSubsList])

theorem isWsC_not_identC {c : Char} (h : isWsC c = true) : isIdentC c = false := by
  simp only [isWsC, Bool.or_eq_true, decide_eq_true_eq] at h
  rcases h with ((h | h) | h) | h <;> subst h <;> decide

theorem isWsC_not_digitC {c : Char} (h : isWsC c = true) : isDigitC c = false := by
  have := isWsC_not_identC h
  simp only [isIdentC, isAlphaUnd, Bool.or_eq_false_iff] at this
  exact this.2

theorem takeWhile_append_false (p : Char → Bool) (a b : List Char)
    (hb : ∀ x ∈ b, p x = false) :
    (a ++ b).takeWhile p = a.takeWhile p ∧ (a ++ b).dropWhile p = a.dropWhile p ++ b := by
  induction a with
  | nil =>
    cases b with
    | nil => simp
    | cons x bs =>
      have := hb x (by simp)
      simp [List.takeWhile_cons, List.dropWhile_cons, this]
  | cons x as ih =>
    by_cases hp : p x = true
    · simp [List.takeWhile_cons, List.dropWhile_cons, hp, ih.1, ih.2]
    · simp only [Bool.not_eq_true] at hp
      simp [List.takeWhile_cons, List.dropWhile_cons, hp]

theorem skipLineComment_sub : ∀ (cs : List Char) (c : Nat),
    (skipLineComment cs c).1 <:+ cs := by
  intro cs
  induction cs with
  | nil => intro c; simp [skipLineComment]
  | cons x rest ih =>
    intro c
    by_cases hx : x = '\n'
    · simp [skipLineComment, hx]
    · simp only [skipLineComment, hx, if_false, Bool.false_eq_true]
      exact (ih (c + 1)).trans (List.suffix_cons x rest)

theorem skipWs_sub : ∀ (cs : List Char) (c : Nat), (skipWs cs c).1 <:+ cs := by
  intro cs
  induction cs with
  | nil => intro c; simp [skipWs]
  | cons x rest ih =>
    intro c
    by_cases h1 : (x = ' ' || x = '\t' || x = '\r') = true
    · simp only [skipWs, h1, if_true]
      exact (ih (c + 1)).trans (List.suffix_cons x rest)
    · rw [show skipWs (x :: rest) c = if (x = ' ' || x = '\t' || x = '\r') then skipWs rest (c + 1)
        else if x = '#' then skipLineComment rest (c + 1) else (x :: rest, c) from rfl]
      rw [if_neg (by simpa using h1)]
      by_cases h2 : x = '#'
      · rw [if_pos h2]
        exact (skipLineComment_sub rest (c + 1)).trans (List.suffix_cons x rest)
      · rw [if_neg h2]

theorem skipWs_length (cs : List Char) (c : Nat) : (skipWs cs c).1.length ≤ cs.length :=
  (skipWs_sub cs c).length_le

theorem skipLineComment_append : ∀ (cs : List Char) (c : Nat) (d : Char) (ds : List Char)
    (c2 : Nat) (ws : List Char), skipLineComment cs c = (d :: ds, c2) →
    skipLineComment (cs ++ ws) c = (d :: (ds ++ ws), c2) := by
  intro cs
  induction cs with
  | nil => intro c d ds c2 ws h; simp [skipLineComment] at h
  | cons x rest ih =>
    intro c d ds c2 ws h
    by_cases hx : x = '\n'
    · simp only [skipLineComment, hx, if_pos] at h ⊢
      obtain ⟨h1, h2⟩ := Prod.mk.injEq .. ▸ h
      injection h with ha hb
      injection ha with ha1 ha2
      subst ha1
      subst ha2
      subst hb
      simp [skipLineComment]
    · simp only [skipLineComment, hx, if_false, Bool.false_eq_true] at h ⊢
      exact ih (c + 1) d ds c2 ws h

theorem skipLineComment_append_nil : ∀ (cs : List Char) (c c2 : Nat) (ws : List Char),
    skipLineComment cs c = ([], c2) →
    ∃ c3, skipLineComment (cs ++ ws) c = skipLineComment ws c3 := by
  intro cs
  induction cs with
  | nil => intro c c2 ws _; exact ⟨c, rfl⟩
  | cons x rest ih =>
    intro c c2 ws h
    by_cases hx : x = '\n'
    · simp [skipLineComment, hx] at h
    · simp only [skipLineComment, hx, if_false, Bool.false_eq_true] at h ⊢
      exact ih (c + 1) c2 ws h

theorem skipWs_append : ∀ (cs : List Char) (c : Nat) (d : Char) (ds : List Char)
    (c2 : Nat) (ws : List Char), skipWs cs c = (d :: ds, c2) →
    skipWs (cs ++ ws) c = (d :: (ds ++ ws), c2) := by
  intro cs
  induction cs with
  | nil => intro c d ds c2 ws h; simp [skipWs] at h
  | cons x rest ih =>
    intro c d ds c2 ws h
    by_cases h1 : (x = ' ' || x = '\t' || x = '\r') = true
    · simp only [skipWs, h1, if_true] at h ⊢
      exact ih (c + 1) d ds c2 ws h
    · rw [show skipWs (x :: rest) c = if (x = ' ' || x = '\t' || x = '\r') then skipWs rest (c + 1)
          else if x = '#' then skipLineComment rest (c + 1) else (x :: rest, c) from rfl] at h
      rw [show skipWs (x :: rest ++ ws) c =
          if (x = ' ' || x = '\t' || x = '\r') then skipWs (rest ++ ws) (c + 1)
          else if x = '#' then skipLineComment (rest ++ ws) (c + 1)
          else (x :: (rest ++ ws), c) from rfl]
      rw [if_neg (by simpa using h1)] at h ⊢
      by_cases h2 : x = '#'
      · rw [if_pos h2] at h ⊢
        exact skipLineComment_append rest (c + 1) d ds c2 ws h
      · rw [if_neg h2] at h ⊢
        injection h with ha hb
        injection ha with ha1 ha2
        subst ha1
        subst hb
        simp [ha2]

theorem allWs_suffix {l l' : List Char} (h : allWs l) (hs : l' <:+ l) : allWs l' :=
  fun x hx => h x (hs.subset hx)

theorem skipWs_append_nil : ∀ (cs : List Char) (c c2 : Nat) (ws : List Char),
    allWs ws → skipWs cs c = ([], c2) →
    ∃ v c3, skipWs (cs ++ ws) c = (v, c3) ∧ allWs v ∧ v.length ≤ ws.length := by
  intro cs
  induction cs with
  | nil =>
    intro c c2 ws hws _
    exact ⟨(skipWs ws c).1, (skipWs ws c).2, rfl,
      allWs_suffix hws (skipWs_sub ws c), skipWs_length ws c⟩
  | cons x rest ih =>
    intro c c2 ws hws h
    by_cases h1 : (x = ' ' || x = '\t' || x = '\r') = true
    · simp only [skipWs, h1, if_true] at h ⊢
      exact ih (c + 1) c2 ws hws h
    · rw [show skipWs (x :: rest) c = if (x = ' ' || x = '\t' || x = '\r') then skipWs rest (c + 1)
          else if x = '#' then skipLineComment rest (c + 1) else (x :: rest, c) from rfl] at h
      rw [show skipWs (x :: rest ++ ws) c =
          if (x = ' ' || x = '\t' || x = '\r') then skipWs (rest ++ ws) (c + 1)
          else if x = '#' then skipLineComment (rest ++ ws) (c + 1)
          else (x :: (rest ++ ws), c) from rfl]
      rw [if_neg (by simpa using h1)] at h ⊢
      by_cases h2 : x = '#'
      · rw [if_pos h2] at h ⊢
        obtain ⟨c3, hc3⟩ := skipLineComment_append_nil rest (c + 1) c2 ws h
        refine ⟨(skipLineComment ws c3).1, (skipLineComment ws c3).2, by rw [hc3], ?_, ?_⟩
        · exact allWs_suffix hws (skipLineComment_sub ws c3)
        · exact (skipLineComment_sub ws c3).length_le
      · rw [if_neg h2] at h
        simp at h

theorem skipLineComment_stop : ∀ (cs : List Char) (c : Nat) (ch : Char) (r : List Char),
    (skipLineComment cs c).1 = ch :: r → ch = '\n' := by
  intro cs
  induction cs with
  | nil => intro c ch r h; simp [skipLineComment] at h
  | cons x rest ih =>
    intro c ch r h
    by_cases hx : x = '\n'
    · simp only [skipLineComment, hx, if_pos] at h
      injection h with h1 _
      exact h1.symm
    · simp only [skipLineComment, hx, if_false, Bool.false_eq_true] at h
      exact ih (c + 1) ch r h

theorem skipWs_stop : ∀ (cs : List Char) (c : Nat) (ch : Char) (r : List Char),
    (skipWs cs c).1 = ch :: r → (ch = ' ' ∨ ch = '\t' ∨ ch = '\r') → False := by
  intro cs
  induction cs with
  | nil => intro c ch r h; simp [skipWs] at h
  | cons x rest ih =>
    intro c ch r h hch
    by_cases h1 : (x = ' ' || x = '\t' || x = '\r') = true
    · simp only [skipWs, h1, if_true] at h
      exact ih (c + 1) ch r h hch
    · rw [show skipWs (x :: rest) c = if (x = ' ' || x = '\t' || x = '\r') then skipWs rest (c + 1)
          else if x = '#' then skipLineComment rest (c + 1) else (x :: rest, c) from rfl] at h
      rw [if_neg (by simpa using h1)] at h
      by_cases h2 : x = '#'
      · rw [if_pos h2] at h
        have := skipLineComment_stop rest (c + 1) ch r h
        subst this
        rcases hch with h3 | h3 | h3 <;> simp at h3
      · rw [if_neg h2] at h
        injection h with ha _
        subst ha
        apply h1
        rcases hch with h3 | h3 | h3 <;> simp [h3]

theorem isWsC_cases {c : Char} (h : isWsC c = true) :
    c = ' ' ∨ c = '\t' ∨ c = '\n' ∨ c = '\r' := by
  simp only [isWsC, Bool.or_eq_true, decide_eq_true_eq] at h
  tauto

/-- Tokenizing pure whitespace yields only the EOF token (up to positions). -/
theorem tokLoop_allWs : ∀ (g : Nat) (v : List Char) (l c : Nat), allWs v → v.length < g →
    (tokLoop g v l c).map stripTok = [(.EOF, "")] := by
  intro g
  induction g with
  | zero => intro v l c _ hlen; omega
  | succ g ih =>
    intro v l c hv hlen
    rcases hskip : skipWs v c with ⟨v1, c2⟩
    have hsub : v1 <:+ v := by have := skipWs_sub v c; rwa [hskip] at this
    rcases v1 with _ | ⟨ch, r⟩
    · simp [tokLoop, hskip, stripTok]
    · have hchws : isWsC ch = true := allWs_suffix hv hsub ch (by simp)
      have hstop : ¬(ch = ' ' ∨ ch = '\t' ∨ ch = '\r') := by
        intro hc
        exact skipWs_stop v c ch r (by rw [hskip]) hc
      have hch : ch = '\n' := by
        rcases isWsC_cases hchws with h | h | h | h
        · exact absurd (Or.inl h) hstop
        · exact absurd (Or.inr (Or.inl h)) hstop
        · exact h
        · exact absurd (Or.inr (Or.inr h)) hstop
      simp only [tokLoop, hskip]
      rw [if_pos hch]
      apply ih
      · exact allWs_suffix hv (List.IsSuffix.trans ⟨[ch], rfl⟩ hsub)
      · have := hsub.length_le
        simp at this
        omega

/-- If skipping whitespace leaves an all-whitespace remainder, tokenizing yields only EOF. -/
theorem tokLoop_ws_tail (g : Nat) (cs : List Char) (l c : Nat) (v : List Char) (c3 : Nat)
    (hv : skipWs cs c = (v, c3)) (hvws : allWs v) (hvlen : v.length < g) :
    (tokLoop g cs l c).map stripTok = [(.EOF, "")] := by
  cases g with
  | zero => omega
  | succ g =>
    rcases v with _ | ⟨ch, r⟩
    · simp [tokLoop, hv, stripTok]
    · have hstop : ¬(ch = ' ' ∨ ch = '\t' ∨ ch = '\r') := by
        intro hc
        exact skipWs_stop cs c ch r (by rw [hv]) hc
      have hch : ch = '\n' := by
        rcases isWsC_cases (hvws ch (by simp)) with h | h | h | h
        · exact absurd (Or.inl h) hstop
        · exact absurd (Or.inr (Or.inl h)) hstop
        · exact h
        · exact absurd (Or.inr (Or.inr h)) hstop
      simp only [tokLoop, hv]
      rw [if_pos hch]
      apply tokLoop_allWs
      · exact fun x hx => hvws x (by simp [hx])
      · simp at hvlen
        omega

theorem skipLineComment_fst : ∀ (cs : List Char) (c c' : Nat),
    (skipLineComment cs c).1 = (skipLineComment cs c').1 := by
  intro cs
  induction cs with
  | nil => intro c c'; rfl
  | cons x rest ih =>
    intro c c'
    by_cases hx : x = '\n'
    · simp [skipLineComment, hx]
    · simp only [skipLineComment, hx, if_false, Bool.false_eq_true]
      exact ih (c + 1) (c' + 1)

theorem skipWs_cons_ws (x : Char) (rest : List Char) (c : Nat)
    (h1 : (x = ' ' || x = '\t' || x = '\r') = true) :
    skipWs (x :: rest) c = skipWs rest (c + 1) := by
  simp only [skipWs, h1, if_true]

theorem skipWs_cons_hash (rest : List Char) (c : Nat) :
    skipWs ('#' :: rest) c = skipLineComment rest (c + 1) := by
  simp [skipWs]

theorem skipWs_cons_other (x : Char) (rest : List Char) (c : Nat)
    (h1 : (x = ' ' || x = '\t' || x = '\r') = false) (h2 : x ≠ '#') :
    skipWs (x :: rest) c = (x :: rest, c) := by
  rw [show skipWs (x :: rest) c = if (x = ' ' || x = '\t' || x = '\r') then skipWs rest (c + 1)
      else if x = '#' then skipLineComment rest (c + 1) else (x :: rest, c) from rfl]
  rw [if_neg (by simp [h1]), if_neg h2]

theorem skipWs_fst : ∀ (cs : List Char) (c c' : Nat), (skipWs cs c).1 = (skipWs cs c').1 := by
  intro cs
  induction cs with
  | nil => intro c c'; rfl
  | cons x rest ih =>
    intro c c'
    by_cases h1 : (x = ' ' || x = '\t' || x = '\r') = true
    · rw [skipWs_cons_ws x rest c h1, skipWs_cons_ws x rest c' h1]
      exact ih (c + 1) (c' + 1)
    · have h1f : (x = ' ' || x = '\t' || x = '\r') = false := Bool.eq_false_iff.mpr h1
      by_cases h2 : x = '#'
      · subst h2
        rw [skipWs_cons_hash, skipWs_cons_hash]
        exact skipLineComment_fst rest (c + 1) (c' + 1)
      · rw [skipWs_cons_other x rest c h1f h2, skipWs_cons_other x rest c' h1f h2]

/-- The stripped token stream is independent of the fuel (when sufficient), the starting
position, and any trailing whitespace appended to the input. -/
theorem tokLoop_strip_stable : ∀ (n : Nat) (cs : List Char), cs.length ≤ n →
    ∀ (ws : List Char), allWs ws → ∀ (f g l c l' c' : Nat),
    cs.length < f → cs.length + ws.length < g →
    (tokLoop f cs l c).map stripTok = (tokLoop g (cs ++ ws) l' c').map stripTok := by
  intro n
  induction n with
  | zero =>
    intro cs hlen ws hws f g l c l' c' hf hg
    have hcs : cs = [] := List.length_eq_zero.mp (Nat.le_zero.mp hlen)
    subst hcs
    cases f with
    | zero => omega
    | succ f =>
      rw [show tokLoop (f + 1) [] l c = [⟨.EOF, "", l, c⟩] from rfl]
      rw [List.nil_append, tokLoop_allWs g ws l' c' hws (by simpa using hg)]
      rfl
  | succ n ih =>
    intro cs hlen ws hws f g l c l' c' hf hg
    cases f with
    | zero => omega
    | succ f =>
    cases g with
    | zero => omega
    | succ g =>
    rcases hskip : skipWs cs c with ⟨cs1, c2⟩
    rcases hskip' : skipWs cs c' with ⟨cs1', c2'⟩
    have hfst : cs1' = cs1 := by
      have := skipWs_fst cs c' c
      rw [hskip, hskip'] at this
      exact this
    subst hfst
    have hsub : cs1' <:+ cs := by have := skipWs_sub cs c; rwa [hskip] at this
    rcases cs1' with _ | ⟨d, ds⟩
    · obtain ⟨v, c3, hv, hvws, hvlen⟩ := skipWs_append_nil cs c' c2' ws hws hskip'
      rw [tokLoop_ws_tail (g + 1) (cs ++ ws) l' c' v c3 hv hvws (by omega)]
      simp [tokLoop, hskip, stripTok]
    · have happ := skipWs_append cs c' d ds c2' ws hskip'
      have hlds : ds.length < cs.length := by
        have := hsub.length_le
        simp at this
        omega
      simp only [tokLoop, hskip, happ]
      by_cases h1 : d = '\n'
      · rw [if_pos h1, if_pos h1]
        exact ih ds (by omega) ws hws f g _ _ _ _ (by omega) (by omega)
      rw [if_neg h1, if_neg h1]
      by_cases h2 : isAlphaUnd d = true
      · rw [if_pos h2, if_pos h2]
        have hid : ∀ x ∈ ws, isIdentC x = false := fun x hx => isWsC_not_identC (hws x hx)
        obtain ⟨htake, hdrop⟩ := takeWhile_append_false isIdentC ds ws hid
        rw [htake, hdrop]
        simp only [List.map_cons]
        congr 1
        have hdw : (ds.dropWhile isIdentC).length ≤ ds.length := (List.dropWhile_sublist _).length_le
        exact ih (ds.dropWhile isIdentC) (by omega) ws hws f g _ _ _ _ (by omega) (by omega)
      rw [if_neg h2]
      rw [if_neg h2]
      by_cases h3 : isDigitC d = true
      · rw [if_pos h3, if_pos h3]
        have hdg : ∀ x ∈ ws, isDigitC x = false := fun x hx => isWsC_not_digitC (hws x hx)
        obtain ⟨htake, hdrop⟩ := takeWhile_append_false isDigitC ds ws hdg
        rw [htake, hdrop]
        have hdw : (ds.dropWhile isDigitC).length ≤ ds.length := (List.dropWhile_sublist _).length_le
        by_cases h4 : (⟨d :: ds.takeWhile isDigitC⟩ : String) = "1"
        · rw [if_pos h4, if_pos h4]
          simp only [List.map_cons]
          congr 1
          exact ih (ds.dropWhile isDigitC) (by omega) ws hws f g _ _ _ _ (by omega) (by omega)
        · rw [if_neg h4, if_neg h4]
          simp only [List.map_cons]
          congr 1
          exact ih (ds.dropWhile isDigitC) (by omega) ws hws f g _ _ _ _ (by omega) (by omega)
      rw [if_neg h3]
      rw [if_neg h3]
      by_cases h5 : d = ':'
      · rw [if_pos h5, if_pos h5]
        simp only [List.map_cons]
        congr 1
        exact ih ds (by omega) ws hws f g _ _ _ _ (by omega) (by omega)
      rw [if_neg h5]
      rw [if_neg h5]
      by_cases h6 : d = '('
      · rw [if_pos h6, if_pos h6]
        simp only [List.map_cons]
        congr 1
        exact ih ds (by omega) ws hws f g _ _ _ _ (by omega) (by omega)
      rw [if_neg h6]
      rw [if_neg h6]
      by_cases h7 : d = ')'
      · rw [if_pos h7, if_pos h7]
        simp only [List.map_cons]
        congr 1
        exact ih ds (by omega) ws hws f g _ _ _ _ (by omega) (by omega)
      rw [if_neg h7]
      rw [if_neg h7]
      by_cases h8 : d = ','
      · rw [if_pos h8, if_pos h8]
        simp only [List.map_cons]
        congr 1
        exact ih ds (by omega) ws hws f g _ _ _ _ (by omega) (by omega)
      rw [if_neg h8]
      rw [if_neg h8]
      by_cases h9 : d = '.'
      · rw [if_pos h9, if_pos h9]
        simp only [List.map_cons]
        congr 1
        exact ih ds (by omega) ws hws f g _ _ _ _ (by omega) (by omega)
      rw [if_neg h9]
      rw [if_neg h9]
      by_cases h10 : d = '+'
      · rw [if_pos h10, if_pos h10]
        simp only [List.map_cons]
        congr 1
        exact ih ds (by omega) ws hws f g _ _ _ _ (by omega) (by omega)
      rw [if_neg h10]
      rw [if_neg h10]
      by_cases h11 : d = '-'
      · rw [if_pos h11, if_pos h11]
        rcases ds with _ | ⟨x, ds'⟩
        · rcases ws with _ | ⟨w, ws'⟩
          · exact ih [] (by omega) [] hws f g _ _ _ _ (by omega) (by simp at hg ⊢; omega)
          · have hw : isWsC w = true := hws w (by simp)
            have hg' : ([] : List Char).length + (w :: ws').length < g := by
              simp at hg ⊢
              omega
            rcases isWsC_cases hw with hwe | hwe | hwe | hwe <;> subst hwe <;>
              · simp only [List.nil_append]
                exact ih [] (by omega) _ hws f g _ _ _ _ (by omega) hg'
        · have hlds' : ds'.length + 1 < cs.length := by simpa using hlds
          by_cases hx1 : x = '>'
          · subst hx1
            simp only [List.cons_append]
            simp only [List.map_cons]
            congr 1
            exact ih ds' (by omega) ws hws f g _ _ _ _ (by omega) (by omega)
          by_cases hx2 : x = '-'
          · subst hx2
            simp only [List.cons_append]
            simp only [List.map_cons]
            congr 1
            exact ih ds' (by omega) ws hws f g _ _ _ _ (by omega) (by omega)
          · simp only [List.cons_append]
            split
            · rename_i heq
              injection heq with hh _
              exact absurd hh hx1
            · rename_i heq
              injection heq with hh _
              exact absurd hh hx2
            · split
              · rename_i heq
                injection heq with hh _
                exact absurd hh hx1
              · rename_i heq
                injection heq with hh _
                exact absurd hh hx2
              · exact ih (x :: ds') (by simp; omega) ws hws f g _ _ _ _ (by simp; omega)
                  (by simp; omega)
      rw [if_neg h11]
      rw [if_neg h11]
      by_cases h12 : d = '—'
      · rw [if_pos h12, if_pos h12]
        simp only [List.map_cons]
        congr 1
        exact ih ds (by omega) ws hws f g _ _ _ _ (by omega) (by omega)
      rw [if_neg h12]
      rw [if_neg h12]
      exact ih ds (by omega) ws hws f g _ _ _ _ (by omega) (by omega)

theorem tokC_eq_tokLoop (cs : List Char) (f l c : Nat) (hf : cs.length < f) :
    (tokLoop f cs l c).map stripTok = tokC cs := by
  have := tokLoop_strip_stable cs.length cs le_rfl [] (by intro x hx; simp at hx)
    f (cs.length + 1) l c 1 1 hf (by simp)
  rw [List.append_nil] at this
  exact this

theorem tokC_ws_append (cs ws : List Char) (hws : allWs ws) : tokC (cs ++ ws) = tokC cs := by
  have := tokLoop_strip_stable cs.length cs le_rfl ws hws (cs.length + 1)
    ((cs ++ ws).length + 1) 1 1 1 1 (by omega) (by simp)
  exact this.symm

theorem tokC_nil : tokC [] = [(.EOF, "")] := rfl

theorem bool_pred_ne {p : Char → Bool} {d x : Char} (h : p d = true) (hx : p x = false) :
    d ≠ x := by
  intro he
  rw [he, hx] at h
  exact Bool.false_ne_true h

theorem alphaUnd_skip_false {d : Char} (h : isAlphaUnd d = true) :
    (d = ' ' || d = '\t' || d = '\r') = false := by
  simp only [Bool.or_eq_false_iff, decide_eq_false_iff_not]
  exact ⟨⟨bool_pred_ne h (by decide), bool_pred_ne h (by decide)⟩, bool_pred_ne h (by decide)⟩

theorem digit_skip_false {d : Char} (h : isDigitC d = true) :
    (d = ' ' || d = '\t' || d = '\r') = false := by
  simp only [Bool.or_eq_false_iff, decide_eq_false_iff_not]
  exact ⟨⟨bool_pred_ne h (by decide), bool_pred_ne h (by decide)⟩, bool_pred_ne h (by decide)⟩

theorem takeWhile_append_pos (p : Char → Bool) (a b : List Char)
    (ha : ∀ x ∈ a, p x = true) :
    (a ++ b).takeWhile p = a ++ b.takeWhile p ∧ (a ++ b).dropWhile p = b.dropWhile p := by
  induction a with
  | nil => simp
  | cons x as ih =>
    have hx := ha x (by simp)
    have ihr := ih fun y hy => ha y (by simp [hy])
    simp [List.takeWhile_cons, List.dropWhile_cons, hx, ihr.1, ihr.2]

theorem takeWhile_headD_false (p : Char → Bool) (l : List Char)
    (h : p (l.headD ' ') = false) :
    l.takeWhile p = [] ∧ l.dropWhile p = l := by
  cases l with
  | nil => simp
  | cons y r =>
    simp only [List.headD_cons] at h
    simp [List.takeWhile_cons, List.dropWhile_cons, h]

theorem tokLoop_step_ws (f : Nat) (x : Char) (rest : List Char) (l c : Nat)
    (h : (x = ' ' || x = '\t' || x = '\r') = true) :
    tokLoop (f + 1) (x :: rest) l c = tokLoop (f + 1) rest l (c + 1) := by
  simp only [tokLoop, skipWs_cons_ws x rest c h]

theorem tokLoop_step_newline (f : Nat) (rest : List Char) (l c : Nat) :
    tokLoop (f + 1) ('\n' :: rest) l c = tokLoop f rest (l + 1) 1 := by
  simp only [tokLoop, skipWs_cons_other '\n' rest c (by decide) (by decide)]
  simp

theorem tokLoop_step_word (f : Nat) (d : Char) (wrest rest : List Char) (l c : Nat)
    (hd : isAlphaUnd d = true) (hw : ∀ x ∈ wrest, isIdentC x = true)
    (hrest : isIdentC (rest.headD ' ') = false) :
    tokLoop (f + 1) ((d :: wrest) ++ rest) l c =
      ⟨keywordType ⟨d :: wrest⟩, ⟨d :: wrest⟩, l, c⟩ ::
        tokLoop f rest l (c + (d :: wrest).length) := by
  obtain ⟨ht0, hd0⟩ := takeWhile_headD_false isIdentC rest hrest
  obtain ⟨ht1, hd1⟩ := takeWhile_append_pos isIdentC wrest rest hw
  simp only [List.cons_append]
  simp only [tokLoop,
    skipWs_cons_other d (wrest ++ rest) c (alphaUnd_skip_false hd) (bool_pred_ne hd (by decide))]
  rw [if_neg (show ¬d = '\n' from bool_pred_ne hd (by decide)), if_pos hd]
  rw [ht1, ht0, hd1, hd0, List.append_nil]

theorem tokLoop_step_one (f : Nat) (rest : List Char) (l c : Nat)
    (hrest : isDigitC (rest.headD ' ') = false) :
    tokLoop (f + 1) ('1' :: rest) l c = ⟨.ONE, "1", l, c⟩ :: tokLoop f rest l (c + 1) := by
  obtain ⟨ht0, hd0⟩ := takeWhile_headD_false isDigitC rest hrest
  simp only [tokLoop, skipWs_cons_other '1' rest c (by decide) (by decide)]
  rw [if_neg (by decide : ¬('1' : Char) = '\n'), if_neg (by decide : ¬isAlphaUnd '1' = true),
    if_pos (by decide : isDigitC '1' = true)]
  rw [ht0, hd0]
  rw [if_pos rfl]
  rfl

theorem tokLoop_step_colon (f : Nat) (rest : List Char) (l c : Nat) :
    tokLoop (f + 1) (':' :: rest) l c = ⟨.COLON, ":", l, c⟩ :: tokLoop f rest l (c + 1) := by
  simp only [tokLoop, skipWs_cons_other ':' rest c (by decide) (by decide)]
  rw [if_neg (by decide : ¬(':' : Char) = '\n'), if_neg (by decide : ¬isAlphaUnd ':' = true),
    if_neg (by decide : ¬isDigitC ':' = true)]
  simp

theorem tokLoop_step_lparen (f : Nat) (rest : List Char) (l c : Nat) :
    tokLoop (f + 1) ('(' :: rest) l c = ⟨.LPAREN, "(", l, c⟩ :: tokLoop f rest l (c + 1) := by
  simp only [tokLoop, skipWs_cons_other '(' rest c (by decide) (by decide)]
  rw [if_neg (by decide : ¬('(' : Char) = '\n'), if_neg (by decide : ¬isAlphaUnd '(' = true),
    if_neg (by decide : ¬isDigitC '(' = true), if_neg (by decide : ¬('(' : Char) = ':')]
  simp

theorem tokLoop_step_rparen (f : Nat) (rest : List Char) (l c : Nat) :
    tokLoop (f + 1) (')' :: rest) l c = ⟨.RPAREN, ")", l, c⟩ :: tokLoop f rest l (c + 1) := by
  simp only [tokLoop, skipWs_cons_other ')' rest c (by decide) (by decide)]
  rw [if_neg (by decide : ¬(')' : Char) = '\n'), if_neg (by decide : ¬isAlphaUnd ')' = true),
    if_neg (by decide : ¬isDigitC ')' = true), if_neg (by decide : ¬(')' : Char) = ':'),
    if_neg (by decide : ¬(')' : Char) = '(')]
  simp

theorem tokLoop_step_comma (f : Nat) (rest : List Char) (l c : Nat) :
    tokLoop (f + 1) (',' :: rest) l c = ⟨.COMMA, ",", l, c⟩ :: tokLoop f rest l (c + 1) := by
  simp only [tokLoop, skipWs_cons_other ',' rest c (by decide) (by decide)]
  rw [if_neg (by decide : ¬(',' : Char) = '\n'), if_neg (by decide : ¬isAlphaUnd ',' = true),
    if_neg (by decide : ¬isDigitC ',' = true), if_neg (by decide : ¬(',' : Char) = ':'),
    if_neg (by decide : ¬(',' : Char) = '('), if_neg (by decide : ¬(',' : Char) = ')')]
  simp

theorem tokLoop_step_dot (f : Nat) (rest : List Char) (l c : Nat) :
    tokLoop (f + 1) ('.' :: rest) l c = ⟨.DOT, ".", l, c⟩ :: tokLoop f rest l (c + 1) := by
  simp only [tokLoop, skipWs_cons_other '.' rest c (by decide) (by decide)]
  rw [if_neg (by decide : ¬('.' : Char) = '\n'), if_neg (by decide : ¬isAlphaUnd '.' = true),
    if_neg (by decide : ¬isDigitC '.' = true), if_neg (by decide : ¬('.' : Char) = ':'),
    if_neg (by decide : ¬('.' : Char) = '('), if_neg (by decide : ¬('.' : Char) = ')'),
    if_neg (by decide : ¬('.' : Char) = ',')]
  simp

theorem tokLoop_step_plus (f : Nat) (rest : List Char) (l c : Nat) :
    tokLoop (f + 1) ('+' :: rest) l c = ⟨.PLUS, "+", l, c⟩ :: tokLoop f rest l (c + 1) := by
  simp only [tokLoop, skipWs_cons_other '+' rest c (by decide) (by decide)]
  rw [if_neg (by decide : ¬('+' : Char) = '\n'), if_neg (by decide : ¬isAlphaUnd '+' = true),
    if_neg (by decide : ¬isDigitC '+' = true), if_neg (by decide : ¬('+' : Char) = ':'),
    if_neg (by decide : ¬('+' : Char) = '('), if_neg (by decide : ¬('+' : Char) = ')'),
    if_neg (by decide : ¬('+' : Char) = ','), if_neg (by decide : ¬('+' : Char) = '.')]
  simp

theorem tokLoop_step_emdash (f : Nat) (rest : List Char) (l c : Nat) :
    tokLoop (f + 1) ('—' :: rest) l c = ⟨.DASH, "—", l, c⟩ :: tokLoop f rest l (c + 1) := by
  simp only [tokLoop, skipWs_cons_other '—' rest c (by decide) (by decide)]
  rw [if_neg (by decide : ¬('—' : Char) = '\n'), if_neg (by decide : ¬isAlphaUnd '—' = true),
    if_neg (by decide : ¬isDigitC '—' = true), if_neg (by decide : ¬('—' : Char) = ':'),
    if_neg (by decide : ¬('—' : Char) = '('), if_neg (by decide : ¬('—' : Char) = ')'),
    if_neg (by decide : ¬('—' : Char) = ','), if_neg (by decide : ¬('—' : Char) = '.'),
    if_neg (by decide : ¬('—' : Char) = '+'), if_neg (by decide : ¬('—' : Char) = '-')]
  simp

/-- Stepping at the canonical stripped level: a whitespace character contributes nothing. -/
theorem tokC_ws_cons (x : Char) (rest : List Char)
    (h : (x = ' ' || x = '\t' || x = '\r') = true) :
    tokC (x :: rest) = tokC rest := by
  simp only [tokC, List.length_cons]
  rw [tokLoop_step_ws (rest.length + 1) x rest 1 1 h]
  exact tokC_eq_tokLoop rest _ _ _ (by omega)

theorem tokC_newline (rest : List Char) : tokC ('\n' :: rest) = tokC rest := by
  simp only [tokC, List.length_cons]
  rw [tokLoop_step_newline (rest.length + 1) rest 1 1]
  exact tokC_eq_tokLoop rest _ _ _ (by omega)

theorem tokC_word (d : Char) (wrest rest : List Char)
    (hd : isAlphaUnd d = true) (hw : ∀ x ∈ wrest, isIdentC x = true)
    (hrest : isIdentC (rest.headD ' ') = false) :
    tokC ((d :: wrest) ++ rest) =
      (keywordType ⟨d :: wrest⟩, (⟨d :: wrest⟩ : String)) :: tokC rest := by
  simp only [tokC, List.length_append, List.length_cons]
  rw [show wrest.length + 1 + rest.length + 1 = wrest.length + rest.length + 1 + 1 from by omega]
  rw [tokLoop_step_word (wrest.length + rest.length + 1) d wrest rest 1 1 hd hw hrest]
  simp only [List.map_cons, stripTok]
  congr 1
  exact tokC_eq_tokLoop rest _ _ _ (by omega)

theorem tokC_one (rest : List Char) (hrest : isDigitC (rest.headD ' ') = false) :
    tokC ('1' :: rest) = (.ONE, "1") :: tokC rest := by
  simp only [tokC, List.length_cons]
  rw [tokLoop_step_one (rest.length + 1) rest 1 1 hrest]
  simp only [List.map_cons, stripTok]
  congr 1
  exact tokC_eq_tokLoop rest _ _ _ (by omega)

theorem tokC_colon (rest : List Char) : tokC (':' :: rest) = (.COLON, ":") :: tokC rest := by
  simp only [tokC, List.length_cons]
  rw [tokLoop_step_colon (rest.length + 1) rest 1 1]
  simp only [List.map_cons, stripTok]
  congr 1
  exact tokC_eq_tokLoop rest _ _ _ (by omega)

theorem tokC_lparen (rest : List Char) : tokC ('(' :: rest) = (.LPAREN, "(") :: tokC rest := by
  simp only [tokC, List.length_cons]
  rw [tokLoop_step_lparen (rest.length + 1) rest 1 1]
  simp only [List.map_cons, stripTok]
  congr 1
  exact tokC_eq_tokLoop rest _ _ _ (by omega)

theorem tokC_rparen (rest : List Char) : tokC (')' :: rest) = (.RPAREN, ")") :: tokC rest := by
  simp only [tokC, List.length_cons]
  rw [tokLoop_step_rparen (rest.length + 1) rest 1 1]
  simp only [List.map_cons, stripTok]
  congr 1
  exact tokC_eq_tokLoop rest _ _ _ (by omega)

theorem tokC_comma (rest : List Char) : tokC (',' :: rest) = (.COMMA, ",") :: tokC rest := by
  simp only [tokC, List.length_cons]
  rw [tokLoop_step_comma (rest.length + 1) rest 1 1]
  simp only [List.map_cons, stripTok]
  congr 1
  exact tokC_eq_tokLoop rest _ _ _ (by omega)

theorem tokC_dot (rest : List Char) : tokC ('.' :: rest) = (.DOT, ".") :: tokC rest := by
  simp only [tokC, List.length_cons]
  rw [tokLoop_step_dot (rest.length + 1) rest 1 1]
  simp only [List.map_cons, stripTok]
  congr 1
  exact tokC_eq_tokLoop rest _ _ _ (by omega)

theorem tokC_plus (rest : List Char) : tokC ('+' :: rest) = (.PLUS, "+") :: tokC rest := by
  simp only [tokC, List.length_cons]
  rw [tokLoop_step_plus (rest.length + 1) rest 1 1]
  simp only [List.map_cons, stripTok]
  congr 1
  exact tokC_eq_tokLoop rest _ _ _ (by omega)

theorem tokC_emdash (rest : List Char) : tokC ('—' :: rest) = (.DASH, "—") :: tokC rest := by
  simp only [tokC, List.length_cons]
  rw [tokLoop_step_emdash (rest.length + 1) rest 1 1]
  simp only [List.map_cons, stripTok]
  congr 1
  exact tokC_eq_tokLoop rest _ _ _ (by omega)

theorem tokLoop_step_arrow (f : Nat) (rest : List Char) (l c : Nat) :
    tokLoop (f + 1) ('-' :: '>' :: rest) l c = ⟨.ARROW, "->", l, c⟩ :: tokLoop f rest l (c + 2) := by
  simp only [tokLoop, skipWs_cons_other '-' ('>' :: rest) c (by decide) (by decide)]
  rw [if_neg (by decide : ¬('-' : Char) = '\n'), if_neg (by decide : ¬isAlphaUnd '-' = true),
    if_neg (by decide : ¬isDigitC '-' = true), if_neg (by decide : ¬('-' : Char) = ':'),
    if_neg (by decide : ¬('-' : Char) = '('), if_neg (by decide : ¬('-' : Char) = ')'),
    if_neg (by decide : ¬('-' : Char) = ','), if_neg (by decide : ¬('-' : Char) = '.'),
    if_neg (by decide : ¬('-' : Char) = '+')]
  simp

theorem tokC_arrow (rest : List Char) :
    tokC ('-' :: '>' :: rest) = (.ARROW, "->") :: tokC rest := by
  simp only [tokC, List.length_cons]
  rw [show rest.length + 1 + 1 + 1 = rest.length + 2 + 1 from by omega]
  rw [tokLoop_step_arrow (rest.length + 2) rest 1 1]
  simp only [List.map_cons, stripTok]
  congr 1
  exact tokC_eq_tokLoop rest _ _ _ (by omega)

/-! ## Stripped token streams of generated text (towards claim C1)

`specToks` computes, directly over the AST, the stripped token stream that
tokenizing `generateDSL ast` yields for parser-produced ASTs. -/
theorem str_toList_append (s t : String) : (s ++ t).toList = s.toList ++ t.toList := by
  cases s
  cases t
  rfl

theorem str_empty_append (s : String) : "" ++ s = s := by
  cases s
  rfl

theorem str_append_empty (s : String) : s ++ "" = s := by
  cases s
  apply String.ext
  simp [String.toList]

theorem str_append_assoc (a b c : String) : a ++ b ++ c = a ++ (b ++ c) := by
  cases a
  cases b
  cases c
  apply String.ext
  show (_ : List Char) ++ _ ++ _ = _ ++ (_ ++ _)
  simp

/-- `trim` removes an all-whitespace suffix and nothing else when the first
character is not whitespace (or the string is empty); the claim-C1 development
only trims such strings. -/
theorem jsTrim_decomp (s : String) (hs : isWsC (s.toList.headD 'x') = false) :
    ∃ W, allWs W ∧ s.toList = (jsTrim s).toList ++ W := by
  have hpred : (fun c : Char => c = ' ' || c = '\t' || c = '\n' || c = '\r') = isWsC := rfl
  have hdrop : s.toList.dropWhile isWsC = s.toList := by
    cases hl : s.toList with
    | nil => rfl
    | cons y r =>
      rw [hl] at hs
      simp only [List.headD_cons] at hs
      simp [List.dropWhile_cons, hs]
  refine ⟨(s.toList.reverse.takeWhile isWsC).reverse, ?_, ?_⟩
  · intro x hx
    rw [List.mem_reverse] at hx
    exact List.mem_takeWhile_imp hx
  · have hsplit := List.takeWhile_append_dropWhile (p := isWsC) (l := s.toList.reverse)
    have : (jsTrim s).toList = (s.toList.reverse.dropWhile isWsC).reverse := by
      simp only [jsTrim, hpred, hdrop]
      rfl
    rw [this]
    conv_lhs => rw [← List.reverse_reverse s.toList, ← hsplit]
    rw [List.reverse_append]

theorem joinSep_newline (ls : List String) (h : ls ≠ []) :
    joinSep "\n" ls ++ "\n" = linesTextNL ls := by
  induction ls with
  | nil => exact absurd rfl h
  | cons x rest ih =>
    cases rest with
    | nil =>
      show (x : String) ++ "\n" = x ++ "\n" ++ ""
      rw [str_append_empty]
    | cons y more =>
      show (x ++ "\n" ++ joinSep "\n" (y :: more)) ++ "\n" = x ++ "\n" ++ linesTextNL (y :: more)
      rw [← ih (by simp), str_append_assoc]

theorem linesTextNL_append (a b : List String) :
    linesTextNL (a ++ b) = linesTextNL a ++ linesTextNL b := by
  induction a with
  | nil =>
    show linesTextNL b = "" ++ linesTextNL b
    rw [str_empty_append]
  | cons x rest ih =>
    show x ++ "\n" ++ linesTextNL (rest ++ b) = x ++ "\n" ++ linesTextNL rest ++ linesTextNL b
    rw [ih, ← str_append_assoc]

theorem tokC_ident (s : String) (rest : List Char) (hs : validIdent s = true)
    (hrest : isIdentC (rest.headD ' ') = false) :
    tokC (s.toList ++ rest) = (.IDENTIFIER, s) :: tokC rest := by
  obtain ⟨data⟩ := s
  cases data with
  | nil => exact absurd hs (by decide)
  | cons d cs =>
    have hs2 : (isAlphaUnd d && cs.all isIdentC &&
        decide (keywordType ⟨d :: cs⟩ = .IDENTIFIER)) = true := hs
    simp only [Bool.and_eq_true, decide_eq_true_eq] at hs2
    have h := tokC_word d cs rest hs2.1.1
      (by intro x hx; exact (List.all_eq_true.mp hs2.1.2) x hx) hrest
    show tokC ((d :: cs) ++ rest) = (.IDENTIFIER, (⟨d :: cs⟩ : String)) :: tokC rest
    rw [h, hs2.2]

theorem tokC_spaces_list : ∀ (l : List Char), (∀ x ∈ l, x = ' ') → ∀ (rest : List Char),
    tokC (l ++ rest) = tokC rest := by
  intro l
  induction l with
  | nil => intro _ rest; simp
  | cons x xs ih =>
    intro h rest
    have hx : x = ' ' := h x (by simp)
    subst hx
    rw [List.cons_append, tokC_ws_cons ' ' (xs ++ rest) (by decide)]
    exact ih (fun y hy => h y (by simp [hy])) rest

theorem tokC_spaces (ind : String) (rest : List Char) (h : ∀ x ∈ ind.toList, x = ' ') :
    tokC (ind.toList ++ rest) = tokC rest :=
  tokC_spaces_list ind.toList h rest

theorem tokC_kw_entity (rest : List Char) (hrest : isIdentC (rest.headD ' ') = false) :
    tokC ("Entity".toList ++ rest) = (.ENTITY, "Entity") :: tokC rest := by
  have h := tokC_word 'E' ['n', 't', 'i', 't', 'y'] rest (by decide) (by decide) hrest
  exact h

theorem tokC_kw_weak (rest : List Char) (hrest : isIdentC (rest.headD ' ') = false) :
    tokC ("Weak".toList ++ rest) = (.WEAK, "Weak") :: tokC rest := by
  have h := tokC_word 'W' ['e', 'a', 'k'] rest (by decide) (by decide) hrest
  exact h

theorem tokC_kw_relation (rest : List Char) (hrest : isIdentC (rest.headD ' ') = false) :
    tokC ("Relation".toList ++ rest) = (.RELATION, "Relation") :: tokC rest := by
  have h := tokC_word 'R' ['e', 'l', 'a', 't', 'i', 'o', 'n'] rest (by decide) (by decide) hrest
  exact h

theorem tokC_kw_identifying (rest : List Char) (hrest : isIdentC (rest.headD ' ') = false) :
    tokC ("Identifying".toList ++ rest) = (.IDENTIFYING, "Identifying") :: tokC rest := by
  have h := tokC_word 'I' ['d', 'e', 'n', 't', 'i', 'f', 'y', 'i', 'n', 'g'] rest (by decide) (by decide) hrest
  exact h

theorem tokC_kw_identified (rest : List Char) (hrest : isIdentC (rest.headD ' ') = false) :
    tokC ("Identified".toList ++ rest) = (.IDENTIFIED, "Identified") :: tokC rest := by
  have h := tokC_word 'I' ['d', 'e', 'n', 't', 'i', 'f', 'i', 'e', 'd'] rest (by decide) (by decide) hrest
  exact h

theorem tokC_kw_by (rest : List Char) (hrest : isIdentC (rest.headD ' ') = false) :
    tokC ("By".toList ++ rest) = (.BY, "By") :: tokC rest := by
  have h := tokC_word 'B' ['y'] rest (by decide) (by decide) hrest
  exact h

theorem tokC_kw_pk (rest : List Char) (hrest : isIdentC (rest.headD ' ') = false) :
    tokC ("PK".toList ++ rest) = (.PK, "PK") :: tokC rest := by
  have h := tokC_word 'P' ['K'] rest (by decide) (by decide) hrest
  exact h

theorem tokC_kw_fk (rest : List Char) (hrest : isIdentC (rest.headD ' ') = false) :
    tokC ("FK".toList ++ rest) = (.FK, "FK") :: tokC rest := by
  have h := tokC_word 'F' ['K'] rest (by decide) (by decide) hrest
  exact h

theorem tokC_kw_composite (rest : List Char) (hrest : isIdentC (rest.headD ' ') = false) :
    tokC ("Composite".toList ++ rest) = (.COMPOSITE, "Composite") :: tokC rest := by
  have h := tokC_word 'C' ['o', 'm', 'p', 'o', 's', 'i', 't', 'e'] rest (by decide) (by decide) hrest
  exact h

theorem tokC_kw_multivalued (rest : List Char) (hrest : isIdentC (rest.headD ' ') = false) :
    tokC ("Multivalued".toList ++ rest) = (.MULTIVALUED, "Multivalued") :: tokC rest := by
  have h := tokC_word 'M' ['u', 'l', 't', 'i', 'v', 'a', 'l', 'u', 'e', 'd'] rest (by decide) (by decide) hrest
  exact h

theorem tokC_kw_derived (rest : List Char) (hrest : isIdentC (rest.headD ' ') = false) :
    tokC ("Derived".toList ++ rest) = (.DERIVED, "Derived") :: tokC rest := by
  have h := tokC_word 'D' ['e', 'r', 'i', 'v', 'e', 'd'] rest (by decide) (by decide) hrest
  exact h

theorem tokC_kw_total (rest : List Char) (hrest : isIdentC (rest.headD ' ') = false) :
    tokC ("total".toList ++ rest) = (.TOTAL, "total") :: tokC rest := by
  have h := tokC_word 't' ['o', 't', 'a', 'l'] rest (by decide) (by decide) hrest
  exact h

theorem tokC_kw_partialkw (rest : List Char) (hrest : isIdentC (rest.headD ' ') = false) :
    tokC ("partial".toList ++ rest) = (.PARTIALKW, "partial") :: tokC rest := by
  have h := tokC_word 'p' ['a', 'r', 't', 'i', 'a', 'l'] rest (by decide) (by decide) hrest
  exact h

theorem tokC_kw_mkw (rest : List Char) (hrest : isIdentC (rest.headD ' ') = false) :
    tokC ("M".toList ++ rest) = (.M, "M") :: tokC rest := by
  have h := tokC_word 'M' [] rest (by decide) (by decide) hrest
  exact h

theorem fkTargetStr_toks (t : ForeignKeyTarget) (hfk : ParsedFk t) (rest : List Char)
    (hrest : isIdentC (rest.headD ' ') = false) :
    tokC ((fkTargetStr t).toList ++ rest) = fkToksC t ++ tokC rest := by
  rw [show fkTargetStr t = t.entityName ++ "." ++ t.attributeName from rfl]
  rw [str_toList_append, str_toList_append]
  simp only [List.append_assoc]
  rw [show (".".toList ++ (t.attributeName.toList ++ rest) : List Char) =
    '.' :: (t.attributeName.toList ++ rest) from rfl]
  rw [tokC_ident t.entityName _ hfk.1 (by rfl)]
  rw [tokC_dot]
  rw [tokC_ident t.attributeName _ hfk.2 hrest]
  rfl

theorem subLines_toks (ind : String) (subs : List AttributeNode)
    (hsubs : ∀ b ∈ subs, ∃ m, validIdent m = true ∧ b = mkSimpleAttr m)
    (hind : ∀ x ∈ ind.toList, x = ' ') (rest : List Char) :
    tokC ((joinSep "\n" (generateAttribute.generateAttributeList subs ind)).toList ++
        '\n' :: rest) =
      subs.map (fun s => ((.IDENTIFIER, s.name) : TokType × String)) ++ tokC rest := by
  induction subs with
  | nil =>
    show tokC (([] : List Char) ++ '\n' :: rest) = tokC rest
    rw [List.nil_append, tokC_newline]
  | cons b more ih =>
    obtain ⟨m, hm, hbm⟩ := hsubs b (by simp)
    subst hbm
    have hgen : generateAttribute (mkSimpleAttr m) ind = ind ++ m := rfl
    cases more with
    | nil =>
      show tokC ((generateAttribute (mkSimpleAttr m) ind).toList ++ '\n' :: rest) = _
      rw [hgen, str_toList_append, List.append_assoc]
      rw [tokC_spaces ind _ hind]
      rw [tokC_ident m _ hm (by rfl)]
      rw [tokC_newline]
      rfl
    | cons b2 more2 =>
      show tokC ((generateAttribute (mkSimpleAttr m) ind ++ "\n" ++
        joinSep "\n" (generateAttribute.generateAttributeList (b2 :: more2) ind)).toList ++
          '\n' :: rest) = _
      rw [hgen, str_toList_append, str_toList_append, str_toList_append]
      simp only [List.append_assoc]
      rw [tokC_spaces ind _ hind]
      rw [show ("\n".toList ++
          ((joinSep "\n" (generateAttribute.generateAttributeList (b2 :: more2) ind)).toList ++
            '\n' :: rest) : List Char) =
        '\n' :: ((joinSep "\n" (generateAttribute.generateAttributeList (b2 :: more2) ind)).toList ++
          '\n' :: rest) from rfl]
      rw [tokC_ident m _ hm (by rfl)]
      rw [tokC_newline]
      rw [ih (fun y hy => hsubs y (by simp [hy]))]
      rfl

/-- Stripped tokens of one printed attribute line (with its trailing newline), for
any attribute shape the parser can produce. -/
theorem attr_toks (a : AttributeNode) (ha : ParsedAttr a) (ind : String)
    (hind : ∀ x ∈ ind.toList, x = ' ') (rest : List Char) :
    tokC ((generateAttribute a ind).toList ++ '\n' :: rest) = attrToksC a ++ tokC rest := by
  obtain ⟨n, hn, hc⟩ := ha
  rcases hc with h | ⟨t, h, ht1, ht2⟩ | h | ⟨subs, h, hsubs⟩ | h | h | ⟨d, h, hd⟩ | h <;> subst h
  · -- PK
    rw [show generateAttribute (.mk n .simple .pk none none none) ind =
      ind ++ n ++ " PK" from rfl]
    rw [str_toList_append, str_toList_append]
    simp only [List.append_assoc]
    rw [tokC_spaces ind _ hind]
    rw [tokC_ident n _ hn (by rfl)]
    rw [show (" PK".toList ++ '\n' :: rest : List Char) =
      ' ' :: ("PK".toList ++ '\n' :: rest) from rfl]
    rw [tokC_ws_cons ' ' _ (by rfl)]
    rw [tokC_kw_pk _ (by rfl)]
    rw [tokC_newline]
    rfl
  · -- FK with target
    rw [show generateAttribute (.mk n .simple .fk (some t) none none) ind =
      ind ++ n ++ " FK -> " ++ fkTargetStr t from rfl]
    rw [str_toList_append, str_toList_append, str_toList_append]
    simp only [List.append_assoc]
    rw [tokC_spaces ind _ hind]
    rw [tokC_ident n _ hn (by rfl)]
    rw [show (" FK -> ".toList ++ ((fkTargetStr t).toList ++ '\n' :: rest) : List Char) =
      ' ' :: ("FK".toList ++ (' ' :: '-' :: '>' :: ' ' ::
        ((fkTargetStr t).toList ++ '\n' :: rest))) from rfl]
    rw [tokC_ws_cons ' ' _ (by rfl)]
    rw [tokC_kw_fk _ (by rfl)]
    rw [tokC_ws_cons ' ' _ (by rfl)]
    rw [tokC_arrow]
    rw [tokC_ws_cons ' ' _ (by rfl)]
    rw [fkTargetStr_toks t ⟨ht1, ht2⟩ _ (by rfl)]
    rw [tokC_newline]
    rfl
  · -- FK without target prints as a bare name
    rw [show generateAttribute (.mk n .simple .fk none none none) ind = ind ++ n from rfl]
    rw [str_toList_append]
    simp only [List.append_assoc]
    rw [tokC_spaces ind _ hind]
    rw [tokC_ident n _ hn (by rfl)]
    rw [tokC_newline]
    rfl
  · -- Composite with sub-attribute list
    rw [show generateAttribute (.mk n .composite .nokey none none (some subs)) ind =
      ind ++ n ++ " Composite:" ++ "\n" ++
        joinSep "\n" (generateAttribute.generateAttributeList subs (ind ++ "  ")) from rfl]
    rw [str_toList_append, str_toList_append, str_toList_append, str_toList_append]
    simp only [List.append_assoc]
    rw [tokC_spaces ind _ hind]
    rw [tokC_ident n _ hn (by rfl)]
    rw [show (" Composite:".toList ++ ("\n".toList ++
        ((joinSep "\n" (generateAttribute.generateAttributeList subs (ind ++ "  "))).toList ++
          '\n' :: rest)) : List Char) =
      ' ' :: ("Composite".toList ++ (':' :: '\n' ::
        ((joinSep "\n" (generateAttribute.generateAttributeList subs (ind ++ "  "))).toList ++
          '\n' :: rest))) from rfl]
    rw [tokC_ws_cons ' ' _ (by rfl)]
    rw [tokC_kw_composite _ (by rfl)]
    rw [tokC_colon]
    rw [tokC_newline]
    rw [subLines_toks (ind ++ "  ") subs hsubs (by
      intro x hx
      rw [str_toList_append] at hx
      rcases List.mem_append.mp hx with h1 | h1
      · exact hind x h1
      · simpa using h1) rest]
    rfl
  · -- Multivalued
    rw [show generateAttribute (.mk n .multivalued .nokey none none none) ind =
      ind ++ n ++ " Multivalued" from rfl]
    rw [str_toList_append, str_toList_append]
    simp only [List.append_assoc]
    rw [tokC_spaces ind _ hind]
    rw [tokC_ident n _ hn (by rfl)]
    rw [show (" Multivalued".toList ++ '\n' :: rest : List Char) =
      ' ' :: ("Multivalued".toList ++ '\n' :: rest) from rfl]
    rw [tokC_ws_cons ' ' _ (by rfl)]
    rw [tokC_kw_multivalued _ (by rfl)]
    rw [tokC_newline]
    rfl
  · -- Derived
    rw [show generateAttribute (.mk n .derived .nokey none none none) ind =
      ind ++ n ++ " Derived" from rfl]
    rw [str_toList_append, str_toList_append]
    simp only [List.append_assoc]
    rw [tokC_spaces ind _ hind]
    rw [tokC_ident n _ hn (by rfl)]
    rw [show (" Derived".toList ++ '\n' :: rest : List Char) =
      ' ' :: ("Derived".toList ++ '\n' :: rest) from rfl]
    rw [tokC_ws_cons ' ' _ (by rfl)]
    rw [tokC_kw_derived _ (by rfl)]
    rw [tokC_newline]
    rfl
  · -- Typed: a valid identifier data type is never the empty string
    have hdne : ¬d = "" := by
      intro he
      subst he
      exact absurd hd (by decide)
    rw [show generateAttribute (.mk n .typed .nokey none (some d) none) ind =
      if d = "" then ind ++ n else ind ++ n ++ ": " ++ d from rfl]
    rw [if_neg hdne]
    rw [str_toList_append, str_toList_append, str_toList_append]
    simp only [List.append_assoc]
    rw [tokC_spaces ind _ hind]
    rw [tokC_ident n _ hn (by rfl)]
    rw [show (": ".toList ++ (d.toList ++ '\n' :: rest) : List Char) =
      ':' :: ' ' :: (d.toList ++ '\n' :: rest) from rfl]
    rw [tokC_colon]
    rw [tokC_ws_cons ' ' _ (by rfl)]
    rw [tokC_ident d _ hd (by rfl)]
    rw [tokC_newline]
    show ((.IDENTIFIER, n) : TokType × String) :: (.COLON, ":") :: (.IDENTIFIER, d) :: tokC rest =
      attrToksC (.mk n .typed .nokey none (some d) none) ++ tokC rest
    rw [show attrToksC (.mk n .typed .nokey none (some d) none) =
      [(.IDENTIFIER, n), (.COLON, ":"), (.IDENTIFIER, d)] from by
        show (if d = "" then [((.IDENTIFIER, n) : TokType × String)]
          else [(.IDENTIFIER, n), (.COLON, ":"), (.IDENTIFIER, d)]) = _
        rw [if_neg hdne]]
    rfl
  · -- Plain simple attribute
    rw [show generateAttribute (.mk n .simple .nokey none none none) ind = ind ++ n from rfl]
    rw [str_toList_append]
    simp only [List.append_assoc]
    rw [tokC_spaces ind _ hind]
    rw [tokC_ident n _ hn (by rfl)]
    rw [tokC_newline]
    rfl

theorem attrLines_toks (attrs : List AttributeNode) (hall : ∀ a ∈ attrs, ParsedAttr a)
    (rest : List Char) :
    tokC ((linesTextNL (attrs.map (fun a => generateAttribute a "  "))).toList ++ rest) =
      attrs.flatMap attrToksC ++ tokC rest := by
  induction attrs with
  | nil =>
    show tokC (([] : List Char) ++ rest) = tokC rest
    rw [List.nil_append]
  | cons a more ih =>
    show tokC ((generateAttribute a "  " ++ "\n" ++
      linesTextNL (more.map (fun a => generateAttribute a "  "))).toList ++ rest) = _
    rw [str_toList_append, str_toList_append]
    simp only [List.append_assoc]
    rw [show ("\n".toList ++
        ((linesTextNL (more.map (fun a => generateAttribute a "  "))).toList ++ rest) :
        List Char) =
      '\n' :: ((linesTextNL (more.map (fun a => generateAttribute a "  "))).toList ++ rest)
      from rfl]
    rw [attr_toks a (hall a (by simp)) "  " (by intro x hx; simpa using hx) _]
    rw [ih (fun b hb => hall b (by simp [hb]))]
    simp

theorem idList_toks (ids : List ForeignKeyTarget) (hids : ∀ t ∈ ids, ParsedFk t)
    (rest : List Char) (hrest : isIdentC (rest.headD ' ') = false) :
    tokC ((joinSep " + " (ids.map fkTargetStr)).toList ++ rest) =
      idListToks ids ++ tokC rest := by
  induction ids with
  | nil =>
    show tokC (([] : List Char) ++ rest) = tokC rest
    rw [List.nil_append]
  | cons t more ih =>
    cases more with
    | nil =>
      show tokC ((fkTargetStr t).toList ++ rest) = _
      rw [fkTargetStr_toks t (hids t (by simp)) rest hrest]
      rfl
    | cons t2 more2 =>
      show tokC ((fkTargetStr t ++ " + " ++
        joinSep " + " ((t2 :: more2).map fkTargetStr)).toList ++ rest) = _
      rw [str_toList_append, str_toList_append]
      simp only [List.append_assoc]
      rw [fkTargetStr_toks t (hids t (by simp)) _ (by rfl)]
      rw [show (" + ".toList ++
          ((joinSep " + " ((t2 :: more2).map fkTargetStr)).toList ++ rest) : List Char) =
        ' ' :: '+' :: ' ' ::
          ((joinSep " + " ((t2 :: more2).map fkTargetStr)).toList ++ rest) from rfl]
      rw [tokC_ws_cons ' ' _ (by rfl), tokC_plus, tokC_ws_cons ' ' _ (by rfl)]
      rw [ih (fun y hy => hids y (by simp [hy]))]
      show fkToksC t ++ ((.PLUS, "+") :: (idListToks (t2 :: more2) ++ tokC rest)) =
        idListToks (t :: t2 :: more2) ++ tokC rest
      rw [show idListToks (t :: t2 :: more2) =
        fkToksC t ++ [(.PLUS, "+")] ++ idListToks (t2 :: more2) from rfl]
      simp

theorem space_tl (X : List Char) : (" ".toList ++ X : List Char) = ' ' :: X := rfl

theorem nl_tl (X : List Char) : ("\n".toList ++ X : List Char) = '\n' :: X := rfl

theorem colon_tl (X : List Char) : (":".toList ++ X : List Char) = ':' :: X := rfl

theorem linesTextNL_single (x : String) : linesTextNL [x] = x ++ "\n" := by
  show x ++ "\n" ++ "" = _
  rw [str_append_empty]

theorem linesTextNL_blank : linesTextNL [""] = "\n" := by
  rw [linesTextNL_single, str_empty_append]

/-- Stripped tokens of one printed entity block (header, attribute lines, optional
Identified By line, and the blank separator line). -/
theorem entity_toks (e : EntityNode) (he : ParsedEntity e) (rest : List Char) :
    tokC ((linesTextNL (entityLines e)).toList ++ rest) = entityToksC e ++ tokC rest := by
  obtain ⟨hname, hattrs, hstrong, hidb⟩ := he
  cases hty : e.entityType with
  | strong =>
    have hnone : e.identifiedBy = none := hstrong hty
    rw [show entityLines e = ["Entity " ++ e.name ++ ":"] ++
      e.attributes.map (fun a => generateAttribute a "  ") ++ [""] from by
        simp [entityLines, entityHeader, hty, hnone]]
    rw [linesTextNL_append, linesTextNL_append, linesTextNL_single, linesTextNL_blank]
    rw [show "Entity " ++ e.name ++ ":" = "Entity" ++ " " ++ e.name ++ ":" from rfl]
    simp only [str_toList_append, List.append_assoc]
    rw [space_tl, colon_tl, nl_tl]
    rw [tokC_kw_entity _ (by rfl)]
    rw [tokC_ws_cons ' ' _ (by rfl)]
    rw [tokC_ident e.name _ hname (by rfl)]
    rw [tokC_colon, tokC_newline]
    rw [attrLines_toks e.attributes hattrs _]
    rw [nl_tl, tokC_newline]
    rw [show entityToksC e = [(.ENTITY, "Entity")] ++ [(.IDENTIFIER, e.name), (.COLON, ":")] ++
      e.attributes.flatMap attrToksC ++ [] from by
        simp [entityToksC, hty, hnone]]
    simp
  | weak =>
    cases hidbv : e.identifiedBy with
    | none =>
      rw [show entityLines e = ["Weak Entity " ++ e.name ++ ":"] ++
        e.attributes.map (fun a => generateAttribute a "  ") ++ [""] from by
          simp [entityLines, entityHeader, hty, hidbv]]
      rw [linesTextNL_append, linesTextNL_append, linesTextNL_single, linesTextNL_blank]
      rw [show "Weak Entity " ++ e.name ++ ":" =
        "Weak" ++ " " ++ "Entity" ++ " " ++ e.name ++ ":" from rfl]
      simp only [str_toList_append, List.append_assoc]
      rw [space_tl, space_tl, colon_tl, nl_tl]
      rw [tokC_kw_weak _ (by rfl)]
      rw [tokC_ws_cons ' ' _ (by rfl)]
      rw [tokC_kw_entity _ (by rfl)]
      rw [tokC_ws_cons ' ' _ (by rfl)]
      rw [tokC_ident e.name _ hname (by rfl)]
      rw [tokC_colon, tokC_newline]
      rw [attrLines_toks e.attributes hattrs _]
      rw [nl_tl, tokC_newline]
      rw [show entityToksC e = [(.WEAK, "Weak"), (.ENTITY, "Entity")] ++
        [(.IDENTIFIER, e.name), (.COLON, ":")] ++ e.attributes.flatMap attrToksC ++ [] from by
          simp [entityToksC, hty, hidbv]]
      simp
    | some ids =>
      have hfks : ∀ t ∈ ids, ParsedFk t := (hidb ids hidbv).2
      rw [show entityLines e = ["Weak Entity " ++ e.name ++ ":"] ++
        e.attributes.map (fun a => generateAttribute a "  ") ++
        ["  Identified By " ++ joinSep " + " (ids.map fkTargetStr)] ++ [""] from by
          simp [entityLines, entityHeader, hty, hidbv]]
      rw [linesTextNL_append, linesTextNL_append, linesTextNL_append, linesTextNL_single,
        linesTextNL_single, linesTextNL_blank]
      rw [show "Weak Entity " ++ e.name ++ ":" =
        "Weak" ++ " " ++ "Entity" ++ " " ++ e.name ++ ":" from rfl]
      rw [show "  Identified By " ++ joinSep " + " (ids.map fkTargetStr) =
        " " ++ " " ++ "Identified" ++ " " ++ "By" ++ " " ++
          joinSep " + " (ids.map fkTargetStr) from rfl]
      simp only [str_toList_append, List.append_assoc]
      rw [space_tl, space_tl, colon_tl, nl_tl, space_tl, space_tl, space_tl, space_tl, nl_tl]
      rw [tokC_kw_weak _ (by rfl)]
      rw [tokC_ws_cons ' ' _ (by rfl)]
      rw [tokC_kw_entity _ (by rfl)]
      rw [tokC_ws_cons ' ' _ (by rfl)]
      rw [tokC_ident e.name _ hname (by rfl)]
      rw [tokC_colon, tokC_newline]
      rw [attrLines_toks e.attributes hattrs _]
      rw [tokC_ws_cons ' ' _ (by rfl), tokC_ws_cons ' ' _ (by rfl)]
      rw [tokC_kw_identified _ (by rfl)]
      rw [tokC_ws_cons ' ' _ (by rfl)]
      rw [tokC_kw_by _ (by rfl)]
      rw [tokC_ws_cons ' ' _ (by rfl)]
      rw [idList_toks ids hfks _ (by rfl)]
      rw [tokC_newline, nl_tl, tokC_newline]
      rw [show entityToksC e = [(.WEAK, "Weak"), (.ENTITY, "Entity")] ++
        [(.IDENTIFIER, e.name), (.COLON, ":")] ++ e.attributes.flatMap attrToksC ++
        ([(.IDENTIFIED, "Identified"), (.BY, "By")] ++ idListToks ids) from by
          simp [entityToksC, hty, hidbv]]
      simp

theorem lp_tl (X : List Char) : ("(".toList ++ X : List Char) = '(' :: X := rfl

theorem rp_tl (X : List Char) : (")".toList ++ X : List Char) = ')' :: X := rfl

theorem comma_tl (X : List Char) : (",".toList ++ X : List Char) = ',' :: X := rfl

theorem one_tl (X : List Char) : ("1".toList ++ X : List Char) = '1' :: X := rfl

theorem emdash_tl (X : List Char) : ("—".toList ++ X : List Char) = '—' :: X := rfl

theorem cardStr_toks (c : Cardinality) (rest : List Char)
    (h1 : isDigitC (rest.headD ' ') = false) (h2 : isIdentC (rest.headD ' ') = false) :
    tokC ((cardStr c).toList ++ rest) = cardTok c :: tokC rest := by
  cases c with
  | one =>
    rw [show (cardStr .one).toList ++ rest = '1' :: rest from rfl]
    rw [tokC_one rest h1]
    rfl
  | many => exact tokC_kw_mkw rest h2

/-- Stripped tokens of a printed relationship side. -/
theorem side_toks (rt : RelationshipType) (s : RelationshipSide) (rest : List Char) :
    tokC ((sidePart rt s).toList ++ rest) = sideToksC rt s ++ tokC rest := by
  cases hrt : rt with
  | normal =>
    cases hp : s.participation with
    | total =>
      rw [show sidePart .normal s = "(" ++ cardStr s.cardinality ++ ", total)" from by
        simp [sidePart, hp]]
      rw [show (", total)" : String) = "," ++ " " ++ "total" ++ ")" from rfl]
      simp only [str_toList_append, List.append_assoc]
      rw [lp_tl, comma_tl, space_tl, rp_tl]
      rw [tokC_lparen]
      rw [cardStr_toks s.cardinality _ (by rfl) (by rfl)]
      rw [tokC_comma, tokC_ws_cons ' ' _ (by rfl)]
      rw [tokC_kw_total _ (by rfl)]
      rw [tokC_rparen]
      simp [sideToksC, hp, partTok]
    | partial_ =>
      rw [show sidePart .normal s = "(" ++ cardStr s.cardinality ++ ", partial)" from by
        simp [sidePart, hp]]
      rw [show (", partial)" : String) = "," ++ " " ++ "partial" ++ ")" from rfl]
      simp only [str_toList_append, List.append_assoc]
      rw [lp_tl, comma_tl, space_tl, rp_tl]
      rw [tokC_lparen]
      rw [cardStr_toks s.cardinality _ (by rfl) (by rfl)]
      rw [tokC_comma, tokC_ws_cons ' ' _ (by rfl)]
      rw [tokC_kw_partialkw _ (by rfl)]
      rw [tokC_rparen]
      simp [sideToksC, hp, partTok]
  | identifying =>
    rw [show sidePart .identifying s = "(" ++ cardStr s.cardinality ++ ")" from by
      simp [sidePart]]
    simp only [str_toList_append, List.append_assoc]
    rw [lp_tl, rp_tl]
    rw [tokC_lparen]
    rw [cardStr_toks s.cardinality _ (by rfl) (by rfl)]
    rw [tokC_rparen]
    simp [sideToksC]

theorem relAttrLines_toks (attrs : List AttributeNode)
    (hall : ∀ a ∈ attrs, ∃ m, validIdent m = true ∧ a = mkSimpleAttr m) (rest : List Char) :
    tokC ((linesTextNL (attrs.map (fun a => "  " ++ a.name))).toList ++ rest) =
      attrs.map (fun a => ((.IDENTIFIER, a.name) : TokType × String)) ++ tokC rest := by
  induction attrs with
  | nil =>
    show tokC (([] : List Char) ++ rest) = tokC rest
    rw [List.nil_append]
  | cons a more ih =>
    obtain ⟨m, hm, ham⟩ := hall a (by simp)
    have hmname : validIdent a.name = true := by rw [ham]; exact hm
    show tokC (("  " ++ a.name ++ "\n" ++
      linesTextNL (more.map (fun a => "  " ++ a.name))).toList ++ rest) = _
    rw [show ("  " ++ a.name ++ "\n" : String) = " " ++ " " ++ a.name ++ "\n" from rfl]
    simp only [str_toList_append, List.append_assoc]
    rw [space_tl, space_tl, nl_tl]
    rw [tokC_ws_cons ' ' _ (by rfl), tokC_ws_cons ' ' _ (by rfl)]
    rw [tokC_ident a.name _ hmname (by rfl)]
    rw [tokC_newline]
    rw [ih (fun b hb => hall b (by simp [hb]))]
    rfl

/-- Stripped tokens of one printed relationship block. -/
theorem rel_toks (r : RelationshipNode) (hr : ParsedRel r) (rest : List Char) :
    tokC ((linesTextNL (relLines r)).toList ++ rest) = relToksC r ++ tokC rest := by
  obtain ⟨hl, hrname, hverb, _, hattrs, _⟩ := hr
  rw [show relLines r = [relHeader r] ++ r.attributes.map (fun a => "  " ++ a.name) ++ [""]
    from rfl]
  rw [linesTextNL_append, linesTextNL_append, linesTextNL_single, linesTextNL_blank]
  rw [show relHeader r =
    (if r.relationshipType = .identifying then "Identifying Relation " else "Relation ") ++
    r.leftSide.entityName ++ " " ++ sidePart r.relationshipType r.leftSide ++ " — " ++
    sidePart r.relationshipType r.rightSide ++ " " ++ r.rightSide.entityName ++ ": " ++
    r.verb from rfl]
  rw [show (" — " : String) = " " ++ "—" ++ " " from rfl]
  rw [show (": " : String) = ":" ++ " " from rfl]
  cases hrt : r.relationshipType with
  | normal =>
    rw [if_neg (by intro h; exact RelationshipType.noConfusion h)]
    rw [show ("Relation " : String) = "Relation" ++ " " from rfl]
    simp only [str_toList_append, List.append_assoc]
    rw [space_tl, space_tl, space_tl, space_tl, space_tl, colon_tl, space_tl, nl_tl, emdash_tl]
    rw [tokC_kw_relation _ (by rfl)]
    rw [tokC_ws_cons ' ' _ (by rfl)]
    rw [tokC_ident r.leftSide.entityName _ hl (by rfl)]
    rw [tokC_ws_cons ' ' _ (by rfl)]
    rw [side_toks .normal r.leftSide]
    rw [tokC_ws_cons ' ' _ (by rfl), tokC_emdash, tokC_ws_cons ' ' _ (by rfl)]
    rw [side_toks .normal r.rightSide]
    rw [tokC_ws_cons ' ' _ (by rfl)]
    rw [tokC_ident r.rightSide.entityName _ hrname (by rfl)]
    rw [tokC_colon, tokC_ws_cons ' ' _ (by rfl)]
    rw [tokC_ident r.verb _ hverb (by rfl)]
    rw [tokC_newline]
    rw [relAttrLines_toks r.attributes hattrs _]
    rw [nl_tl, tokC_newline]
    simp [relToksC, hrt]
  | identifying =>
    rw [if_pos rfl]
    rw [show ("Identifying Relation " : String) = "Identifying" ++ " " ++ "Relation" ++ " "
      from rfl]
    simp only [str_toList_append, List.append_assoc]
    rw [space_tl, space_tl, space_tl, space_tl, space_tl, space_tl, colon_tl, space_tl, nl_tl,
      emdash_tl]
    rw [tokC_kw_identifying _ (by rfl)]
    rw [tokC_ws_cons ' ' _ (by rfl)]
    rw [tokC_kw_relation _ (by rfl)]
    rw [tokC_ws_cons ' ' _ (by rfl)]
    rw [tokC_ident r.leftSide.entityName _ hl (by rfl)]
    rw [tokC_ws_cons ' ' _ (by rfl)]
    rw [side_toks .identifying r.leftSide]
    rw [tokC_ws_cons ' ' _ (by rfl), tokC_emdash, tokC_ws_cons ' ' _ (by rfl)]
    rw [side_toks .identifying r.rightSide]
    rw [tokC_ws_cons ' ' _ (by rfl)]
    rw [tokC_ident r.rightSide.entityName _ hrname (by rfl)]
    rw [tokC_colon, tokC_ws_cons ' ' _ (by rfl)]
    rw [tokC_ident r.verb _ hverb (by rfl)]
    rw [tokC_newline]
    rw [relAttrLines_toks r.attributes hattrs _]
    rw [nl_tl, tokC_newline]
    simp [relToksC, hrt]

theorem entities_blocks_toks (es : List EntityNode) (h : ∀ e ∈ es, ParsedEntity e)
    (rest : List Char) :
    tokC ((linesTextNL (es.flatMap entityLines)).toList ++ rest) =
      es.flatMap entityToksC ++ tokC rest := by
  induction es with
  | nil =>
    show tokC (([] : List Char) ++ rest) = tokC rest
    rw [List.nil_append]
  | cons e more ih =>
    rw [show (e :: more).flatMap entityLines = entityLines e ++ more.flatMap entityLines
      from rfl]
    rw [linesTextNL_append, str_toList_append, List.append_assoc]
    rw [entity_toks e (h e (by simp)) _]
    rw [ih (fun x hx => h x (by simp [hx]))]
    simp

theorem rels_blocks_toks (rs : List RelationshipNode) (h : ∀ r ∈ rs, ParsedRel r)
    (rest : List Char) :
    tokC ((linesTextNL (rs.flatMap relLines)).toList ++ rest) =
      rs.flatMap relToksC ++ tokC rest := by
  induction rs with
  | nil =>
    show tokC (([] : List Char) ++ rest) = tokC rest
    rw [List.nil_append]
  | cons r more ih =>
    rw [show (r :: more).flatMap relLines = relLines r ++ more.flatMap relLines from rfl]
    rw [linesTextNL_append, str_toList_append, List.append_assoc]
    rw [rel_toks r (h r (by simp)) _]
    rw [ih (fun x hx => h x (by simp [hx]))]
    simp

theorem joinSep_cons_ne (x : String) (xs : List String) (h : xs ≠ []) :
    joinSep "\n" (x :: xs) = x ++ "\n" ++ joinSep "\n" xs := by
  cases xs with
  | nil => exact absurd rfl h
  | cons y ys => rfl

theorem entityHeader_headD (e : EntityNode) (X : List Char) (d : Char) :
    isWsC (((entityHeader e).toList ++ X).headD d) = false := by
  unfold entityHeader
  split
  · simp only [str_toList_append, List.append_assoc]
    rfl
  · simp only [str_toList_append, List.append_assoc]
    rfl

theorem relHeader_headD (r : RelationshipNode) (X : List Char) (d : Char) :
    isWsC (((relHeader r).toList ++ X).headD d) = false := by
  unfold relHeader
  by_cases hrt : r.relationshipType = .identifying
  · rw [if_pos hrt]
    simp only [str_toList_append, List.append_assoc]
    rfl
  · rw [if_neg hrt]
    simp only [str_toList_append, List.append_assoc]
    rfl

/-- Phase B for claim C1: tokenizing the printed document yields, up to positions,
exactly the token stream computed from the AST. -/
theorem strip_tok_gen_aux (ast : ERDiagramAST) (h : ParsedAST ast)
    (hLne : ast.entities.flatMap entityLines ++ ast.relationships.flatMap relLines ≠ [])
    (hhead : isWsC ((joinSep "\n" (ast.entities.flatMap entityLines ++
      ast.relationships.flatMap relLines)).toList.headD 'x') = false) :
    (tokenize (generateDSL ast)).map stripTok = specToks ast := by
  obtain ⟨W, hW, hUeq⟩ := jsTrim_decomp (joinSep "\n" (ast.entities.flatMap entityLines ++
    ast.relationships.flatMap relLines)) hhead
  have h1 : (tokenize (generateDSL ast)).map stripTok = tokC ((generateDSL ast).toList) := rfl
  rw [h1]
  rw [← tokC_ws_append ((generateDSL ast).toList) W hW]
  rw [show ((generateDSL ast).toList : List Char) =
    (jsTrim (joinSep "\n" (ast.entities.flatMap entityLines ++
      ast.relationships.flatMap relLines))).toList from rfl]
  rw [← hUeq]
  rw [← tokC_ws_append _ ['\n'] (by intro x hx; simp at hx; subst hx; rfl)]
  rw [show ((joinSep "\n" (ast.entities.flatMap entityLines ++
      ast.relationships.flatMap relLines)).toList ++ ['\n'] : List Char) =
    (joinSep "\n" (ast.entities.flatMap entityLines ++
      ast.relationships.flatMap relLines) ++ "\n").toList from by
      rw [str_toList_append]
      rfl]
  rw [joinSep_newline _ hLne]
  rw [linesTextNL_append, str_toList_append]
  rw [entities_blocks_toks ast.entities h.1 _]
  rw [show ((linesTextNL (ast.relationships.flatMap relLines)).toList : List Char) =
    (linesTextNL (ast.relationships.flatMap relLines)).toList ++ [] from
      (List.append_nil _).symm]
  rw [rels_blocks_toks ast.relationships h.2 []]
  rw [tokC_nil]
  simp [specToks]

/-- Phase B for claim C1, main form: the stripped token stream of the printed
document is `specToks ast`, for every AST in the parser's image. -/
theorem strip_tokenize_generateDSL (ast : ERDiagramAST) (h : ParsedAST ast) :
    (tokenize (generateDSL ast)).map stripTok = specToks ast := by
  obtain ⟨es, rs⟩ := ast
  rcases hes : es with _ | ⟨e0, es'⟩
  · rcases hrs : rs with _ | ⟨r0, rs'⟩
    · rfl
    · refine strip_tok_gen_aux ⟨[], r0 :: rs'⟩ (hes ▸ hrs ▸ h) (by simp [relLines]) ?_
      show isWsC ((joinSep "\n" ([] ++ (relLines r0 ++ rs'.flatMap relLines))).toList.headD 'x')
        = false
      rw [List.nil_append]
      rw [show relLines r0 ++ rs'.flatMap relLines =
        relHeader r0 :: ((r0.attributes.map (fun a => "  " ++ a.name) ++ [""]) ++
          rs'.flatMap relLines) from rfl]
      rw [joinSep_cons_ne _ _ (by simp)]
      rw [str_toList_append, str_toList_append, List.append_assoc]
      exact relHeader_headD r0 _ _
  · refine strip_tok_gen_aux ⟨e0 :: es', rs⟩ (hes ▸ h) (by simp [entityLines]) ?_
    show isWsC ((joinSep "\n" ((entityLines e0 ++ es'.flatMap entityLines) ++
      rs.flatMap relLines)).toList.headD 'x') = false
    rw [show (entityLines e0 ++ es'.flatMap entityLines) ++ rs.flatMap relLines =
      entityHeader e0 :: (((e0.attributes.map (fun a => generateAttribute a "  ") ++
        (match e0.entityType, e0.identifiedBy with
         | .weak, some ids => ["  Identified By " ++ joinSep " + " (ids.map fkTargetStr)]
         | _, _ => []) ++ [""]) ++ es'.flatMap entityLines) ++ rs.flatMap relLines) from rfl]
    rw [joinSep_cons_ne _ _ (by simp)]
    rw [str_toList_append, str_toList_append, List.append_assoc]
    exact entityHeader_headD e0 _ _

theorem stripEq_type {t u : Token} (h : stripEq t u) : t.type = u.type :=
  congrArg Prod.fst h

theorem stripEq_value {t u : Token} (h : stripEq t u) : t.value = u.value :=
  congrArg Prod.snd h

theorem forall2_cur {ts us : List Token} (h : List.Forall₂ stripEq ts us) :
    stripEq (cur ts) (cur us) := by
  cases h with
  | nil => rfl
  | cons hh _ => exact hh

theorem forall2_tail {ts us : List Token} (h : List.Forall₂ stripEq ts us) :
    List.Forall₂ stripEq ts.tail us.tail := by
  cases h with
  | nil => exact List.Forall₂.nil
  | cons _ ht => exact ht

theorem check_congr (ty : TokType) {ts us : List Token} (h : List.Forall₂ stripEq ts us) :
    check ty ts = check ty us := by
  unfold check
  rw [stripEq_type (forall2_cur h)]

theorem isAtEnd_congr {ts us : List Token} (h : List.Forall₂ stripEq ts us) :
    isAtEnd ts = isAtEnd us := by
  unfold isAtEnd
  rw [stripEq_type (forall2_cur h)]

theorem isEntityOrRelationStart_congr {ts us : List Token}
    (h : List.Forall₂ stripEq ts us) :
    isEntityOrRelationStart ts = isEntityOrRelationStart us := by
  unfold isEntityOrRelationStart
  rw [check_congr .ENTITY h, check_congr .WEAK h, check_congr .RELATION h,
    check_congr .IDENTIFYING h]

theorem isMarkerTok_congr {ts us : List Token} (h : List.Forall₂ stripEq ts us) :
    isMarkerTok (peek1 ts) = isMarkerTok (peek1 us) := by
  cases h with
  | nil => rfl
  | cons _ htail =>
    cases htail with
    | nil => rfl
    | cons hh _ =>
      simp only [peek1, List.getElem?_cons_succ, List.getElem?_cons_zero, isMarkerTok]
      rw [stripEq_type hh]

theorem except_bind_ok_eq {α β : Type} (a : α) (f : α → Except String β) :
    Except.bind (Except.ok a) f = f a := rfl

theorem bindm_ok_eq {α β : Type} (a : α) (f : α → Except String β) :
    Bind.bind (Except.ok a) f = f a := rfl

theorem expect_strip {ty : TokType} {ts us : List Token} {t : Token} {r : List Token}
    (h : List.Forall₂ stripEq ts us) (he : expect ty ts = .ok (t, r)) :
    expect ty us = .ok (cur us, us.tail) ∧ stripEq t (cur us) ∧
      List.Forall₂ stripEq r us.tail := by
  unfold expect at he ⊢
  by_cases hc : check ty ts = true
  · rw [if_pos hc] at he
    injection he with he
    injection he with h1 h2
    rw [if_pos (by rw [← check_congr ty h]; exact hc)]
    exact ⟨rfl, h1 ▸ forall2_cur h, h2 ▸ forall2_tail h⟩
  · rw [if_neg hc] at he
    exact absurd he (by simp)

theorem parseCardinality_strip {ts us : List Token} {c : Cardinality} {r : List Token}
    (h : List.Forall₂ stripEq ts us) (he : parseCardinality ts = .ok (c, r)) :
    ∃ r', parseCardinality us = .ok (c, r') ∧ List.Forall₂ stripEq r r' := by
  unfold parseCardinality at he ⊢
  by_cases h1 : check .ONE ts = true
  · rw [if_pos h1] at he
    rw [if_pos (by rw [← check_congr .ONE h]; exact h1)]
    injection he with he
    injection he with ha hb
    exact ⟨us.tail, by rw [← ha], hb ▸ forall2_tail h⟩
  · rw [if_neg h1] at he
    rw [if_neg (by rw [← check_congr .ONE h]; exact h1)]
    by_cases h2 : check .M ts = true
    · rw [if_pos h2] at he
      rw [if_pos (by rw [← check_congr .M h]; exact h2)]
      injection he with he
      injection he with ha hb
      exact ⟨us.tail, by rw [← ha], hb ▸ forall2_tail h⟩
    · rw [if_neg h2] at he
      exact absurd he (by simp)

theorem parseParticipation_strip {ts us : List Token} {p : Participation} {r : List Token}
    (h : List.Forall₂ stripEq ts us) (he : parseParticipation ts = .ok (p, r)) :
    ∃ r', parseParticipation us = .ok (p, r') ∧ List.Forall₂ stripEq r r' := by
  unfold parseParticipation at he ⊢
  by_cases h1 : check .TOTAL ts = true
  · rw [if_pos h1] at he
    rw [if_pos (by rw [← check_congr .TOTAL h]; exact h1)]
    injection he with he
    injection he with ha hb
    exact ⟨us.tail, by rw [← ha], hb ▸ forall2_tail h⟩
  · rw [if_neg h1] at he
    rw [if_neg (by rw [← check_congr .TOTAL h]; exact h1)]
    by_cases h2 : check .PARTIALKW ts = true
    · rw [if_pos h2] at he
      rw [if_pos (by rw [← check_congr .PARTIALKW h]; exact h2)]
      injection he with he
      injection he with ha hb
      exact ⟨us.tail, by rw [← ha], hb ▸ forall2_tail h⟩
    · rw [if_neg h2] at he
      exact absurd he (by simp)

theorem parseOptParticipation_strip {ts us : List Token} {p : Participation} {r : List Token}
    (h : List.Forall₂ stripEq ts us) (he : parseOptParticipation ts = .ok (p, r)) :
    ∃ r', parseOptParticipation us = .ok (p, r') ∧ List.Forall₂ stripEq r r' := by
  unfold parseOptParticipation at he ⊢
  by_cases h1 : check .COMMA ts = true
  · rw [if_pos h1] at he
    rw [if_pos (by rw [← check_congr .COMMA h]; exact h1)]
    exact parseParticipation_strip (forall2_tail h) he
  · rw [if_neg h1] at he
    rw [if_neg (by rw [← check_congr .COMMA h]; exact h1)]
    injection he with he
    injection he with ha hb
    exact ⟨us, by rw [← ha], hb ▸ h⟩

theorem parseFkTarget_strip {ts us : List Token} {t : ForeignKeyTarget} {r : List Token}
    (h : List.Forall₂ stripEq ts us) (he : parseFkTarget ts = .ok (t, r)) :
    ∃ r', parseFkTarget us = .ok (t, r') ∧ List.Forall₂ stripEq r r' := by
  simp only [parseFkTarget, Bind.bind] at he ⊢
  obtain ⟨⟨etok, ts1⟩, h1, he⟩ := except_bind_ok he
  obtain ⟨hu1, hse1, hrel1⟩ := expect_strip h h1
  rw [hu1, except_bind_ok_eq]
  obtain ⟨⟨dtok, ts2⟩, h2, he⟩ := except_bind_ok he
  obtain ⟨hu2, hse2, hrel2⟩ := expect_strip hrel1 h2
  rw [hu2, except_bind_ok_eq]
  obtain ⟨⟨atok, ts3⟩, h3, he⟩ := except_bind_ok he
  obtain ⟨hu3, hse3, hrel3⟩ := expect_strip hrel2 h3
  rw [hu3, except_bind_ok_eq]
  injection he with he
  injection he with ha hb
  refine ⟨us.tail.tail.tail, ?_, hb ▸ hrel3⟩
  rw [← ha, stripEq_value hse1, stripEq_value hse3]

theorem parseSubAttributeList_strip (f : Nat) : ∀ (ts us : List Token),
    List.Forall₂ stripEq ts us →
    (parseSubAttributeList f ts).1 = (parseSubAttributeList f us).1 ∧
    List.Forall₂ stripEq (parseSubAttributeList f ts).2 (parseSubAttributeList f us).2 := by
  induction f with
  | zero =>
    intro ts us h
    exact ⟨rfl, h⟩
  | succ f ih =>
    intro ts us h
    simp only [parseSubAttributeList]
    by_cases h1 : check .IDENTIFIER ts = true
    · have h1' : check .IDENTIFIER us = true := by rw [← check_congr .IDENTIFIER h]; exact h1
      rw [if_pos h1, if_pos h1']
      by_cases h2 : isMarkerTok (peek1 ts) = true
      · have h2' : isMarkerTok (peek1 us) = true := by rw [← isMarkerTok_congr h]; exact h2
        rw [if_pos h2, if_pos h2']
        exact ⟨rfl, h⟩
      · have h2' : ¬isMarkerTok (peek1 us) = true := by rw [← isMarkerTok_congr h]; exact h2
        rw [if_neg h2, if_neg h2']
        have hv := stripEq_value (forall2_cur h)
        by_cases h3 : (isEntityOrRelationStart ts.tail || check .IDENTIFIED ts.tail) = true
        · have h3' : (isEntityOrRelationStart us.tail || check .IDENTIFIED us.tail) = true := by
            rw [← isEntityOrRelationStart_congr (forall2_tail h),
              ← check_congr .IDENTIFIED (forall2_tail h)]
            exact h3
          rw [if_pos h3, if_pos h3']
          exact ⟨by rw [hv], forall2_tail h⟩
        · have h3' : ¬(isEntityOrRelationStart us.tail || check .IDENTIFIED us.tail) = true := by
            rw [← isEntityOrRelationStart_congr (forall2_tail h),
              ← check_congr .IDENTIFIED (forall2_tail h)]
            exact h3
          rw [if_neg h3, if_neg h3']
          obtain ⟨ihl, ihr⟩ := ih ts.tail us.tail (forall2_tail h)
          rcases hA : parseSubAttributeList f ts.tail with ⟨la, ra⟩
          rcases hB : parseSubAttributeList f us.tail with ⟨lb, rb⟩
          rw [hA, hB] at ihl ihr
          simp only at ihl ihr ⊢
          exact ⟨by rw [hv, ihl], ihr⟩
    · have h1' : ¬check .IDENTIFIER us = true := by rw [← check_congr .IDENTIFIER h]; exact h1
      rw [if_neg h1, if_neg h1']
      exact ⟨rfl, h⟩

theorem parseAttribute_strip {f : Nat} {ts us : List Token} {a : AttributeNode}
    {r : List Token} (h : List.Forall₂ stripEq ts us)
    (he : parseAttribute f ts = .ok (a, r)) :
    ∃ r', parseAttribute f us = .ok (a, r') ∧ List.Forall₂ stripEq r r' := by
  simp only [parseAttribute, Bind.bind] at he ⊢
  obtain ⟨⟨ntok, ts1⟩, h1, he⟩ := except_bind_ok he
  obtain ⟨hu1, hse1, hrel1⟩ := expect_strip h h1
  rw [hu1, except_bind_ok_eq]
  have hvn := stripEq_value hse1
  by_cases hPK : check .PK ts1 = true
  · have hPK' : check .PK us.tail = true := by rw [← check_congr .PK hrel1]; exact hPK
    rw [if_pos hPK] at he
    rw [if_pos hPK']
    injection he with he
    injection he with ha hb
    exact ⟨us.tail.tail, by rw [← ha, hvn], hb ▸ forall2_tail hrel1⟩
  · have hPK' : ¬check .PK us.tail = true := by rw [← check_congr .PK hrel1]; exact hPK
    rw [if_neg hPK] at he
    rw [if_neg hPK']
    by_cases hFK : check .FK ts1 = true
    · have hFK' : check .FK us.tail = true := by rw [← check_congr .FK hrel1]; exact hFK
      rw [if_pos hFK] at he
      rw [if_pos hFK']
      by_cases hAR : check .ARROW ts1.tail = true
      · have hAR' : check .ARROW us.tail.tail = true := by
          rw [← check_congr .ARROW (forall2_tail hrel1)]
          exact hAR
        rw [if_pos hAR] at he
        rw [if_pos hAR']
        obtain ⟨⟨t, ts3⟩, h3, he⟩ := except_bind_ok he
        obtain ⟨us3, hu3, hrel3⟩ :=
          parseFkTarget_strip (forall2_tail (forall2_tail hrel1)) h3
        rw [hu3, except_bind_ok_eq]
        injection he with he
        injection he with ha hb
        exact ⟨us3, by rw [← ha, hvn], hb ▸ hrel3⟩
      · have hAR' : ¬check .ARROW us.tail.tail = true := by
          rw [← check_congr .ARROW (forall2_tail hrel1)]
          exact hAR
        rw [if_neg hAR] at he
        rw [if_neg hAR']
        injection he with he
        injection he with ha hb
        exact ⟨us.tail.tail, by rw [← ha, hvn], hb ▸ forall2_tail hrel1⟩
    · have hFK' : ¬check .FK us.tail = true := by rw [← check_congr .FK hrel1]; exact hFK
      rw [if_neg hFK] at he
      rw [if_neg hFK']
      by_cases hCO : check .COMPOSITE ts1 = true
      · have hCO' : check .COMPOSITE us.tail = true := by
          rw [← check_congr .COMPOSITE hrel1]
          exact hCO
        rw [if_pos hCO] at he
        rw [if_pos hCO']
        obtain ⟨⟨ctok, ts2⟩, h2, he⟩ := except_bind_ok he
        obtain ⟨hu2, _, hrel2⟩ := expect_strip (forall2_tail hrel1) h2
        rw [hu2, except_bind_ok_eq]
        obtain ⟨hsl, hsr⟩ := parseSubAttributeList_strip f ts2 us.tail.tail.tail hrel2
        injection he with he
        injection he with ha hb
        refine ⟨(parseSubAttributeList f us.tail.tail.tail).2, ?_, hb ▸ hsr⟩
        show Except.ok (AttributeNode.mk (cur us).value .composite .nokey none none
            (some (parseSubAttributeList f us.tail.tail.tail).1),
          (parseSubAttributeList f us.tail.tail.tail).2) =
          Except.ok (a, (parseSubAttributeList f us.tail.tail.tail).2)
        rw [← hvn, ← hsl, ha]
      · have hCO' : ¬check .COMPOSITE us.tail = true := by
          rw [← check_congr .COMPOSITE hrel1]
          exact hCO
        rw [if_neg hCO] at he
        rw [if_neg hCO']
        by_cases hMU : check .MULTIVALUED ts1 = true
        · have hMU' : check .MULTIVALUED us.tail = true := by
            rw [← check_congr .MULTIVALUED hrel1]
            exact hMU
          rw [if_pos hMU] at he
          rw [if_pos hMU']
          injection he with he
          injection he with ha hb
          exact ⟨us.tail.tail, by rw [← ha, hvn], hb ▸ forall2_tail hrel1⟩
        · have hMU' : ¬check .MULTIVALUED us.tail = true := by
            rw [← check_congr .MULTIVALUED hrel1]
            exact hMU
          rw [if_neg hMU] at he
          rw [if_neg hMU']
          by_cases hDE : check .DERIVED ts1 = true
          · have hDE' : check .DERIVED us.tail = true := by
              rw [← check_congr .DERIVED hrel1]
              exact hDE
            rw [if_pos hDE] at he
            rw [if_pos hDE']
            injection he with he
            injection he with ha hb
            exact ⟨us.tail.tail, by rw [← ha, hvn], hb ▸ forall2_tail hrel1⟩
          · have hDE' : ¬check .DERIVED us.tail = true := by
              rw [← check_congr .DERIVED hrel1]
              exact hDE
            rw [if_neg hDE] at he
            rw [if_neg hDE']
            by_cases hTY : check .COLON ts1 = true
            · have hTY' : check .COLON us.tail = true := by
                rw [← check_congr .COLON hrel1]
                exact hTY
              rw [if_pos hTY] at he
              rw [if_pos hTY']
              obtain ⟨⟨dtok, ts2⟩, h2, he⟩ := except_bind_ok he
              obtain ⟨hu2, hse2, hrel2⟩ := expect_strip (forall2_tail hrel1) h2
              rw [hu2, except_bind_ok_eq]
              injection he with he
              injection he with ha hb
              exact ⟨us.tail.tail.tail,
                by rw [← ha, hvn, stripEq_value hse2], hb ▸ hrel2⟩
            · have hTY' : ¬check .COLON us.tail = true := by
                rw [← check_congr .COLON hrel1]
                exact hTY
              rw [if_neg hTY] at he
              rw [if_neg hTY']
              injection he with he
              injection he with ha hb
              exact ⟨us.tail, by rw [← ha, hvn], hb ▸ hrel1⟩

theorem parseAttributeList_strip (f : Nat) : ∀ (ts us : List Token)
    (attrs : List AttributeNode) (r : List Token), List.Forall₂ stripEq ts us →
    parseAttributeList f ts = .ok (attrs, r) →
    ∃ r', parseAttributeList f us = .ok (attrs, r') ∧ List.Forall₂ stripEq r r' := by
  induction f with
  | zero =>
    intro ts us attrs r h he
    exact absurd he (by simp [parseAttributeList])
  | succ f ih =>
    intro ts us attrs r h he
    simp only [parseAttributeList, Bind.bind] at he ⊢
    by_cases h1 : (!isAtEnd ts && !isEntityOrRelationStart ts) = true
    · have h1' : (!isAtEnd us && !isEntityOrRelationStart us) = true := by
        rw [← isAtEnd_congr h, ← isEntityOrRelationStart_congr h]
        exact h1
      rw [if_pos h1] at he
      rw [if_pos h1']
      by_cases h2 : check .IDENTIFIER ts = true
      · have h2' : check .IDENTIFIER us = true := by rw [← check_congr .IDENTIFIER h]; exact h2
        rw [if_pos h2] at he
        rw [if_pos h2']
        obtain ⟨⟨a, ts1⟩, ha, he⟩ := except_bind_ok he
        obtain ⟨us1, hua, hrel1⟩ := parseAttribute_strip h ha
        rw [hua, except_bind_ok_eq]
        obtain ⟨⟨rest2, ts2⟩, hr2, he⟩ := except_bind_ok he
        obtain ⟨us2, hur, hrel2⟩ := ih ts1 us1 rest2 ts2 hrel1 hr2
        rw [hur, except_bind_ok_eq]
        injection he with he
        injection he with hx hy
        exact ⟨us2, by rw [← hx], hy ▸ hrel2⟩
      · have h2' : ¬check .IDENTIFIER us = true := by
          rw [← check_congr .IDENTIFIER h]
          exact h2
        rw [if_neg h2] at he
        rw [if_neg h2']
        by_cases h3 : check .IDENTIFIED ts = true
        · have h3' : check .IDENTIFIED us = true := by
            rw [← check_congr .IDENTIFIED h]
            exact h3
          rw [if_pos h3] at he
          rw [if_pos h3']
          injection he with he
          injection he with hx hy
          exact ⟨us, by rw [← hx], hy ▸ h⟩
        · have h3' : ¬check .IDENTIFIED us = true := by
            rw [← check_congr .IDENTIFIED h]
            exact h3
          rw [if_neg h3] at he
          rw [if_neg h3']
          exact ih ts.tail us.tail attrs r (forall2_tail h) he
    · have h1' : ¬(!isAtEnd us && !isEntityOrRelationStart us) = true := by
        rw [← isAtEnd_congr h, ← isEntityOrRelationStart_congr h]
        exact h1
      rw [if_neg h1] at he
      rw [if_neg h1']
      injection he with he
      injection he with hx hy
      exact ⟨us, by rw [← hx], hy ▸ h⟩

theorem parseIdentifiedByMore_strip (f : Nat) : ∀ (acc : List ForeignKeyTarget)
    (ts us : List Token) (ids : List ForeignKeyTarget) (r : List Token),
    List.Forall₂ stripEq ts us → parseIdentifiedByMore f acc ts = .ok (ids, r) →
    ∃ r', parseIdentifiedByMore f acc us = .ok (ids, r') ∧ List.Forall₂ stripEq r r' := by
  induction f with
  | zero =>
    intro acc ts us ids r h he
    exact absurd he (by simp [parseIdentifiedByMore])
  | succ f ih =>
    intro acc ts us ids r h he
    simp only [parseIdentifiedByMore, Bind.bind] at he ⊢
    by_cases h1 : check .PLUS ts = true
    · have h1' : check .PLUS us = true := by rw [← check_congr .PLUS h]; exact h1
      rw [if_pos h1] at he
      rw [if_pos h1']
      obtain ⟨⟨t, ts1⟩, ht, he⟩ := except_bind_ok he
      obtain ⟨us1, hut, hrel1⟩ := parseFkTarget_strip (forall2_tail h) ht
      rw [hut, except_bind_ok_eq]
      exact ih (acc ++ [t]) ts1 us1 ids r hrel1 he
    · have h1' : ¬check .PLUS us = true := by rw [← check_congr .PLUS h]; exact h1
      rw [if_neg h1] at he
      rw [if_neg h1']
      injection he with he
      injection he with hx hy
      exact ⟨us, by rw [← hx], hy ▸ h⟩

theorem parseIdentifiedByList_strip {f : Nat} {ts us : List Token}
    {ids : List ForeignKeyTarget} {r : List Token} (h : List.Forall₂ stripEq ts us)
    (he : parseIdentifiedByList f ts = .ok (ids, r)) :
    ∃ r', parseIdentifiedByList f us = .ok (ids, r') ∧ List.Forall₂ stripEq r r' := by
  simp only [parseIdentifiedByList, Bind.bind] at he ⊢
  obtain ⟨⟨t, ts1⟩, ht, he⟩ := except_bind_ok he
  obtain ⟨us1, hut, hrel1⟩ := parseFkTarget_strip h ht
  rw [hut, except_bind_ok_eq]
  exact parseIdentifiedByMore_strip f [t] ts1 us1 ids r hrel1 he

theorem parseRelationAttributeList_strip (f : Nat) : ∀ (ts us : List Token),
    List.Forall₂ stripEq ts us →
    (parseRelationAttributeList f ts).1 = (parseRelationAttributeList f us).1 ∧
    List.Forall₂ stripEq (parseRelationAttributeList f ts).2
      (parseRelationAttributeList f us).2 := by
  induction f with
  | zero =>
    intro ts us h
    exact ⟨rfl, h⟩
  | succ f ih =>
    intro ts us h
    simp only [parseRelationAttributeList]
    by_cases h1 : (!isAtEnd ts && !isEntityOrRelationStart ts && check .IDENTIFIER ts) = true
    · have h1' : (!isAtEnd us && !isEntityOrRelationStart us && check .IDENTIFIER us) = true := by
        rw [← isAtEnd_congr h, ← isEntityOrRelationStart_congr h, ← check_congr .IDENTIFIER h]
        exact h1
      rw [if_pos h1, if_pos h1']
      have hv := stripEq_value (forall2_cur h)
      obtain ⟨ihl, ihr⟩ := ih ts.tail us.tail (forall2_tail h)
      rcases hA : parseRelationAttributeList f ts.tail with ⟨la, ra⟩
      rcases hB : parseRelationAttributeList f us.tail with ⟨lb, rb⟩
      rw [hA, hB] at ihl ihr
      simp only at ihl ihr ⊢
      exact ⟨by rw [hv, ihl], ihr⟩
    · have h1' : ¬(!isAtEnd us && !isEntityOrRelationStart us &&
          check .IDENTIFIER us) = true := by
        rw [← isAtEnd_congr h, ← isEntityOrRelationStart_congr h, ← check_congr .IDENTIFIER h]
        exact h1
      rw [if_neg h1, if_neg h1']
      exact ⟨rfl, h⟩

theorem parseEntity_strip {f : Nat} {ts us : List Token} {e : EntityNode} {r : List Token}
    (h : List.Forall₂ stripEq ts us) (he : parseEntity f ts = .ok (e, r)) :
    ∃ r', parseEntity f us = .ok (e, r') ∧ List.Forall₂ stripEq r r' := by
  simp only [parseEntity, Bind.bind] at he ⊢
  obtain ⟨⟨ktok, ts1⟩, h1, he⟩ := except_bind_ok he
  obtain ⟨hu1, _, hrel1⟩ := expect_strip h h1
  rw [hu1, except_bind_ok_eq]
  obtain ⟨⟨ntok, ts2⟩, h2, he⟩ := except_bind_ok he
  obtain ⟨hu2, hse2, hrel2⟩ := expect_strip hrel1 h2
  rw [hu2, except_bind_ok_eq]
  obtain ⟨⟨ctok, ts3⟩, h3, he⟩ := except_bind_ok he
  obtain ⟨hu3, _, hrel3⟩ := expect_strip hrel2 h3
  rw [hu3, except_bind_ok_eq]
  obtain ⟨⟨attrs, ts4⟩, h4, he⟩ := except_bind_ok he
  obtain ⟨us4, hu4, hrel4⟩ := parseAttributeList_strip f ts3 us.tail.tail.tail attrs ts4 hrel3 h4
  rw [hu4, except_bind_ok_eq]
  injection he with he
  injection he with ha hb
  exact ⟨us4, by rw [← ha, stripEq_value hse2], hb ▸ hrel4⟩

theorem parseWeakEntity_strip {f : Nat} {ts us : List Token} {e : EntityNode} {r : List Token}
    (h : List.Forall₂ stripEq ts us) (he : parseWeakEntity f ts = .ok (e, r)) :
    ∃ r', parseWeakEntity f us = .ok (e, r') ∧ List.Forall₂ stripEq r r' := by
  simp only [parseWeakEntity, Bind.bind] at he ⊢
  obtain ⟨⟨wtok, ts1⟩, h1, he⟩ := except_bind_ok he
  obtain ⟨hu1, _, hrel1⟩ := expect_strip h h1
  rw [hu1, except_bind_ok_eq]
  obtain ⟨⟨ktok, ts2⟩, h2, he⟩ := except_bind_ok he
  obtain ⟨hu2, _, hrel2⟩ := expect_strip hrel1 h2
  rw [hu2, except_bind_ok_eq]
  obtain ⟨⟨ntok, ts3⟩, h3, he⟩ := except_bind_ok he
  obtain ⟨hu3, hse3, hrel3⟩ := expect_strip hrel2 h3
  rw [hu3, except_bind_ok_eq]
  obtain ⟨⟨ctok, ts4⟩, h4, he⟩ := except_bind_ok he
  obtain ⟨hu4, _, hrel4⟩ := expect_strip hrel3 h4
  rw [hu4, except_bind_ok_eq]
  obtain ⟨⟨attrs, ts5⟩, h5, he⟩ := except_bind_ok he
  obtain ⟨us5, hu5, hrel5⟩ :=
    parseAttributeList_strip f ts4 us.tail.tail.tail.tail attrs ts5 hrel4 h5
  rw [hu5, except_bind_ok_eq]
  by_cases hI : check .IDENTIFIED ts5 = true
  · have hI' : check .IDENTIFIED us5 = true := by rw [← check_congr .IDENTIFIED hrel5]; exact hI
    rw [if_pos hI] at he
    rw [if_pos hI']
    obtain ⟨⟨btok, ts6⟩, h6, he⟩ := except_bind_ok he
    obtain ⟨hu6, _, hrel6⟩ := expect_strip (forall2_tail hrel5) h6
    rw [hu6, except_bind_ok_eq]
    obtain ⟨⟨ids, ts7⟩, h7, he⟩ := except_bind_ok he
    obtain ⟨us7, hu7, hrel7⟩ := parseIdentifiedByList_strip hrel6 h7
    rw [hu7, except_bind_ok_eq]
    injection he with he
    injection he with ha hb
    exact ⟨us7, by rw [← ha, stripEq_value hse3], hb ▸ hrel7⟩
  · have hI' : ¬check .IDENTIFIED us5 = true := by
      rw [← check_congr .IDENTIFIED hrel5]
      exact hI
    rw [if_neg hI] at he
    rw [if_neg hI']
    injection he with he
    injection he with ha hb
    exact ⟨us5, by rw [← ha, stripEq_value hse3], hb ▸ hrel5⟩

theorem parseRelation_strip {f : Nat} {ts us : List Token} {rel : RelationshipNode}
    {r : List Token} (h : List.Forall₂ stripEq ts us)
    (he : parseRelation f ts = .ok (rel, r)) :
    ∃ r', parseRelation f us = .ok (rel, r') ∧ List.Forall₂ stripEq r r' := by
  simp only [parseRelation, Bind.bind] at he ⊢
  obtain ⟨⟨ktok, ts1⟩, h1, he⟩ := except_bind_ok he
  obtain ⟨hu1, _, hrel1⟩ := expect_strip h h1
  rw [hu1, except_bind_ok_eq]
  obtain ⟨⟨ltok, ts2⟩, h2, he⟩ := except_bind_ok he
  obtain ⟨hu2, hse2, hrel2⟩ := expect_strip hrel1 h2
  rw [hu2, except_bind_ok_eq]
  obtain ⟨⟨lp1, ts3⟩, h3, he⟩ := except_bind_ok he
  obtain ⟨hu3, _, hrel3⟩ := expect_strip hrel2 h3
  rw [hu3, except_bind_ok_eq]
  obtain ⟨⟨lc, ts4⟩, h4, he⟩ := except_bind_ok he
  obtain ⟨us4, hu4, hrel4⟩ := parseCardinality_strip hrel3 h4
  rw [hu4, except_bind_ok_eq]
  obtain ⟨⟨lp, ts5⟩, h5, he⟩ := except_bind_ok he
  obtain ⟨us5, hu5, hrel5⟩ := parseOptParticipation_strip hrel4 h5
  rw [hu5, except_bind_ok_eq]
  obtain ⟨⟨rp1, ts6⟩, h6, he⟩ := except_bind_ok he
  obtain ⟨hu6, _, hrel6⟩ := expect_strip hrel5 h6
  rw [hu6, except_bind_ok_eq]
  obtain ⟨⟨dsh, ts7⟩, h7, he⟩ := except_bind_ok he
  obtain ⟨hu7, _, hrel7⟩ := expect_strip hrel6 h7
  rw [hu7, except_bind_ok_eq]
  obtain ⟨⟨lparen2, ts8⟩, h8, he⟩ := except_bind_ok he
  obtain ⟨hu8, _, hrel8⟩ := expect_strip hrel7 h8
  rw [hu8, except_bind_ok_eq]
  obtain ⟨⟨rc, ts9⟩, h9, he⟩ := except_bind_ok he
  obtain ⟨us9, hu9, hrel9⟩ := parseCardinality_strip hrel8 h9
  rw [hu9, except_bind_ok_eq]
  obtain ⟨⟨rp, ts10⟩, h10, he⟩ := except_bind_ok he
  obtain ⟨us10, hu10, hrel10⟩ := parseOptParticipation_strip hrel9 h10
  rw [hu10, except_bind_ok_eq]
  obtain ⟨⟨rparen2, ts11⟩, h11, he⟩ := except_bind_ok he
  obtain ⟨hu11, _, hrel11⟩ := expect_strip hrel10 h11
  rw [hu11, except_bind_ok_eq]
  obtain ⟨⟨rtok, ts12⟩, h12, he⟩ := except_bind_ok he
  obtain ⟨hu12, hse12, hrel12⟩ := expect_strip hrel11 h12
  rw [hu12, except_bind_ok_eq]
  obtain ⟨⟨ctok, ts13⟩, h13, he⟩ := except_bind_ok he
  obtain ⟨hu13, _, hrel13⟩ := expect_strip hrel12 h13
  rw [hu13, except_bind_ok_eq]
  obtain ⟨⟨vtok, ts14⟩, h14, he⟩ := except_bind_ok he
  obtain ⟨hu14, hse14, hrel14⟩ := expect_strip hrel13 h14
  rw [hu14, except_bind_ok_eq]
  obtain ⟨hal, har⟩ :=
    parseRelationAttributeList_strip f ts14 us10.tail.tail.tail.tail hrel14
  injection he with he
  injection he with ha hb
  have ha' : (⟨vtok.value, .normal, ⟨ltok.value, lc, lp⟩, ⟨rtok.value, rc, rp⟩,
      vtok.value, (parseRelationAttributeList f ts14).1⟩ : RelationshipNode) = rel := ha
  have hb' : (parseRelationAttributeList f ts14).2 = r := hb
  refine ⟨(parseRelationAttributeList f us10.tail.tail.tail.tail).2, ?_, hb' ▸ har⟩
  show Except.ok
    ((⟨(cur us10.tail.tail.tail).value, .normal, ⟨(cur us.tail).value, lc, lp⟩,
        ⟨(cur us10.tail).value, rc, rp⟩, (cur us10.tail.tail.tail).value,
        (parseRelationAttributeList f us10.tail.tail.tail.tail).1⟩ : RelationshipNode),
      (parseRelationAttributeList f us10.tail.tail.tail.tail).2) =
    Except.ok (rel, (parseRelationAttributeList f us10.tail.tail.tail.tail).2)
  rw [← stripEq_value hse2, ← stripEq_value hse12, ← stripEq_value hse14, ← hal, ha']

theorem parseIdentifyingRelation_strip {ts us : List Token} {rel : RelationshipNode}
    {r : List Token} (h : List.Forall₂ stripEq ts us)
    (he : parseIdentifyingRelation ts = .ok (rel, r)) :
    ∃ r', parseIdentifyingRelation us = .ok (rel, r') ∧ List.Forall₂ stripEq r r' := by
  simp only [parseIdentifyingRelation, Bind.bind] at he ⊢
  obtain ⟨⟨itok, ts1⟩, h1, he⟩ := except_bind_ok he
  obtain ⟨hu1, _, hrel1⟩ := expect_strip h h1
  rw [hu1, except_bind_ok_eq]
  obtain ⟨⟨ktok, ts2⟩, h2, he⟩ := except_bind_ok he
  obtain ⟨hu2, _, hrel2⟩ := expect_strip hrel1 h2
  rw [hu2, except_bind_ok_eq]
  obtain ⟨⟨ltok, ts3⟩, h3, he⟩ := except_bind_ok he
  obtain ⟨hu3, hse3, hrel3⟩ := expect_strip hrel2 h3
  rw [hu3, except_bind_ok_eq]
  obtain ⟨⟨lp1, ts4⟩, h4, he⟩ := except_bind_ok he
  obtain ⟨hu4, _, hrel4⟩ := expect_strip hrel3 h4
  rw [hu4, except_bind_ok_eq]
  obtain ⟨⟨lc, ts5⟩, h5, he⟩ := except_bind_ok he
  obtain ⟨us5, hu5, hrel5⟩ := parseCardinality_strip hrel4 h5
  rw [hu5, except_bind_ok_eq]
  obtain ⟨⟨rp1, ts6⟩, h6, he⟩ := except_bind_ok he
  obtain ⟨hu6, _, hrel6⟩ := expect_strip hrel5 h6
  rw [hu6, except_bind_ok_eq]
  obtain ⟨⟨dsh, ts7⟩, h7, he⟩ := except_bind_ok he
  obtain ⟨hu7, _, hrel7⟩ := expect_strip hrel6 h7
  rw [hu7, except_bind_ok_eq]
  obtain ⟨⟨lp2, ts8⟩, h8, he⟩ := except_bind_ok he
  obtain ⟨hu8, _, hrel8⟩ := expect_strip hrel7 h8
  rw [hu8, except_bind_ok_eq]
  obtain ⟨⟨rc, ts9⟩, h9, he⟩ := except_bind_ok he
  obtain ⟨us9, hu9, hrel9⟩ := parseCardinality_strip hrel8 h9
  rw [hu9, except_bind_ok_eq]
  obtain ⟨⟨rp2, ts10⟩, h10, he⟩ := except_bind_ok he
  obtain ⟨hu10, _, hrel10⟩ := expect_strip hrel9 h10
  rw [hu10, except_bind_ok_eq]
  obtain ⟨⟨rtok, ts11⟩, h11, he⟩ := except_bind_ok he
  obtain ⟨hu11, hse11, hrel11⟩ := expect_strip hrel10 h11
  rw [hu11, except_bind_ok_eq]
  obtain ⟨⟨ctok, ts12⟩, h12, he⟩ := except_bind_ok he
  obtain ⟨hu12, _, hrel12⟩ := expect_strip hrel11 h12
  rw [hu12, except_bind_ok_eq]
  obtain ⟨⟨vtok, ts13⟩, h13, he⟩ := except_bind_ok he
  obtain ⟨hu13, hse13, hrel13⟩ := expect_strip hrel12 h13
  rw [hu13, except_bind_ok_eq]
  injection he with he
  injection he with ha hb
  have ha' : (⟨vtok.value, .identifying, ⟨ltok.value, lc, .total⟩,
      ⟨rtok.value, rc, .total⟩, vtok.value, []⟩ : RelationshipNode) = rel := ha
  have hb' : ts13 = r := hb
  refine ⟨us9.tail.tail.tail.tail, ?_, hb' ▸ hrel13⟩
  show Except.ok
    ((⟨(cur us9.tail.tail.tail).value, .identifying, ⟨(cur us.tail.tail).value, lc, .total⟩,
        ⟨(cur us9.tail).value, rc, .total⟩, (cur us9.tail.tail.tail).value, []⟩ :
      RelationshipNode), us9.tail.tail.tail.tail) =
    Except.ok (rel, us9.tail.tail.tail.tail)
  rw [← stripEq_value hse3, ← stripEq_value hse11, ← stripEq_value hse13, ha']

theorem parseProgram_strip (f : Nat) : ∀ (ts us : List Token) (es : List EntityNode)
    (rs : List RelationshipNode), List.Forall₂ stripEq ts us →
    parseProgram f ts = .ok (es, rs) → parseProgram f us = .ok (es, rs) := by
  induction f with
  | zero =>
    intro ts us es rs h he
    exact absurd he (by simp [parseProgram])
  | succ f ih =>
    intro ts us es rs h he
    simp only [parseProgram, Bind.bind] at he ⊢
    by_cases h0 : isAtEnd ts = true
    · have h0' : isAtEnd us = true := by rw [← isAtEnd_congr h]; exact h0
      rw [if_pos h0] at he
      rw [if_pos h0']
      exact he
    · have h0' : ¬isAtEnd us = true := by rw [← isAtEnd_congr h]; exact h0
      rw [if_neg h0] at he
      rw [if_neg h0']
      by_cases h1 : check .ENTITY ts = true
      · have h1' : check .ENTITY us = true := by rw [← check_congr .ENTITY h]; exact h1
        rw [if_pos h1] at he
        rw [if_pos h1']
        obtain ⟨⟨e, ts1⟩, hpe, he⟩ := except_bind_ok he
        obtain ⟨us1, hue, hrel1⟩ := parseEntity_strip h hpe
        rw [hue, except_bind_ok_eq]
        obtain ⟨⟨esr, rsr⟩, hpp, he⟩ := except_bind_ok he
        rw [ih ts1 us1 esr rsr hrel1 hpp, except_bind_ok_eq]
        exact he
      · have h1' : ¬check .ENTITY us = true := by rw [← check_congr .ENTITY h]; exact h1
        rw [if_neg h1] at he
        rw [if_neg h1']
        by_cases h2 : check .WEAK ts = true
        · have h2' : check .WEAK us = true := by rw [← check_congr .WEAK h]; exact h2
          rw [if_pos h2] at he
          rw [if_pos h2']
          obtain ⟨⟨e, ts1⟩, hpe, he⟩ := except_bind_ok he
          obtain ⟨us1, hue, hrel1⟩ := parseWeakEntity_strip h hpe
          rw [hue, except_bind_ok_eq]
          obtain ⟨⟨esr, rsr⟩, hpp, he⟩ := except_bind_ok he
          rw [ih ts1 us1 esr rsr hrel1 hpp, except_bind_ok_eq]
          exact he
        · have h2' : ¬check .WEAK us = true := by rw [← check_congr .WEAK h]; exact h2
          rw [if_neg h2] at he
          rw [if_neg h2']
          by_cases h3 : check .RELATION ts = true
          · have h3' : check .RELATION us = true := by rw [← check_congr .RELATION h]; exact h3
            rw [if_pos h3] at he
            rw [if_pos h3']
            obtain ⟨⟨rel, ts1⟩, hpr, he⟩ := except_bind_ok he
            obtain ⟨us1, hur, hrel1⟩ := parseRelation_strip h hpr
            rw [hur, except_bind_ok_eq]
            obtain ⟨⟨esr, rsr⟩, hpp, he⟩ := except_bind_ok he
            rw [ih ts1 us1 esr rsr hrel1 hpp, except_bind_ok_eq]
            exact he
          · have h3' : ¬check .RELATION us = true := by
              rw [← check_congr .RELATION h]
              exact h3
            rw [if_neg h3] at he
            rw [if_neg h3']
            by_cases h4 : check .IDENTIFYING ts = true
            · have h4' : check .IDENTIFYING us = true := by
                rw [← check_congr .IDENTIFYING h]
                exact h4
              rw [if_pos h4] at he
              rw [if_pos h4']
              obtain ⟨⟨rel, ts1⟩, hpr, he⟩ := except_bind_ok he
              obtain ⟨us1, hur, hrel1⟩ := parseIdentifyingRelation_strip h hpr
              rw [hur, except_bind_ok_eq]
              obtain ⟨⟨esr, rsr⟩, hpp, he⟩ := except_bind_ok he
              rw [ih ts1 us1 esr rsr hrel1 hpp, except_bind_ok_eq]
              exact he
            · have h4' : ¬check .IDENTIFYING us = true := by
                rw [← check_congr .IDENTIFYING h]
                exact h4
              rw [if_neg h4] at he
              rw [if_neg h4']
              exact ih ts.tail us.tail es rs (forall2_tail h) he

theorem embL_strip (l : List (TokType × String)) : (embL l).map stripTok = l := by
  induction l with
  | nil => rfl
  | cons p rest ih =>
    show stripTok (embT p) :: (embL rest).map stripTok = p :: rest
    rw [ih]
    rfl

theorem strip_map_forall2 : ∀ (ts us : List Token),
    ts.map stripTok = us.map stripTok → List.Forall₂ stripEq ts us := by
  intro ts
  induction ts with
  | nil =>
    intro us h
    cases us with
    | nil => exact List.Forall₂.nil
    | cons u urest => simp at h
  | cons t trest ih =>
    intro us h
    cases us with
    | nil => simp at h
    | cons u urest =>
      simp only [List.map_cons, List.cons.injEq] at h
      exact List.Forall₂.cons h.1 (ih urest h.2)

theorem embL_append (a b : List (TokType × String)) : embL (a ++ b) = embL a ++ embL b :=
  List.map_append embT a b

/-- The sub-attribute loop run on a stopping position returns immediately. -/
theorem parseSubAttributeList_stop (f : Nat) (rest : List Token)
    (hstop : subListStop rest = true) : parseSubAttributeList (f + 1) rest = ([], rest) := by
  simp only [parseSubAttributeList]
  by_cases hid : check .IDENTIFIER rest = true
  · rw [if_pos hid]
    have hmk : isMarkerTok (peek1 rest) = true := by
      rcases Bool.or_eq_true _ _ |>.mp hstop with hni | hmk
      · rw [Bool.not_eq_true'] at hni
        exact absurd hid (by rw [hni]; simp)
      · exact hmk
    rw [if_pos hmk]
  · rw [if_neg hid]

/-- Phase C for sub-attribute lists: the parser consumes exactly the printed
sub-attribute names and stops at the follower. -/
theorem parseSubAttributeList_spec : ∀ (f : Nat) (subs : List AttributeNode)
    (rest : List Token),
    (∀ b ∈ subs, ∃ m, validIdent m = true ∧ b = mkSimpleAttr m) →
    subListStop rest = true → isMarkerTok rest[0]? = false → subs.length < f →
    parseSubAttributeList f
      (embL (subs.map (fun s => ((.IDENTIFIER, s.name) : TokType × String))) ++ rest) =
      (subs, rest) := by
  intro f
  induction f with
  | zero =>
    intro subs rest hsubs hstop hnm hf
    omega
  | succ f ih =>
    intro subs rest hsubs hstop hnm hf
    cases subs with
    | nil =>
      simp only [List.map_nil, embL, List.nil_append]
      exact parseSubAttributeList_stop f rest hstop
    | cons b more =>
      obtain ⟨m, hm, hbm⟩ := hsubs b (by simp)
      simp only [List.map_cons, embL, List.map_cons, List.cons_append]
      simp only [parseSubAttributeList]
      rw [if_pos (show check .IDENTIFIER (embT (.IDENTIFIER, b.name) :: _) = true from rfl)]
      have hpk : isMarkerTok (peek1 (embT (.IDENTIFIER, b.name) ::
          (List.map embT (more.map (fun s => ((.IDENTIFIER, s.name) : TokType × String))) ++
            rest))) = false := by
        cases more with
        | nil => simpa [peek1] using hnm
        | cons b2 more2 =>
          simp only [List.map_cons, List.cons_append, peek1, List.getElem?_cons_succ,
            List.getElem?_cons_zero, isMarkerTok, embT]
          rfl
      rw [if_neg (by rw [hpk]; simp)]
      simp only [List.tail_cons]
      cases more with
      | nil =>
        simp only [List.map_nil, List.nil_append]
        by_cases hK : (isEntityOrRelationStart rest || check .IDENTIFIED rest) = true
        · rw [if_pos hK]
          subst hbm
          rfl
        · rw [if_neg hK]
          cases f with
          | zero => simp at hf
          | succ f0 =>
            rw [parseSubAttributeList_stop f0 rest hstop]
            subst hbm
            rfl
      | cons b2 more2 =>
        have hguard : (isEntityOrRelationStart
            (List.map embT ((b2 :: more2).map
              (fun s => ((.IDENTIFIER, s.name) : TokType × String))) ++ rest) ||
            check .IDENTIFIED
            (List.map embT ((b2 :: more2).map
              (fun s => ((.IDENTIFIER, s.name) : TokType × String))) ++ rest)) = false := by
          simp only [List.map_cons, List.cons_append]
          rfl
        rw [if_neg (by rw [hguard]; simp)]
        have hrec := ih (b2 :: more2) rest (fun y hy => hsubs y (by simp [hy])) hstop hnm
          (by simp at hf ⊢; omega)
        simp only [List.map_cons, embL, List.cons_append] at hrec
        simp only [List.map_cons, List.cons_append]
        rw [hrec]
        subst hbm
        rfl

/-- Phase C for a single attribute: reparsing the printed tokens of an attribute
in the parser's image rebuilds it exactly, provided an `fk` attribute carries its
target and, for composites, the follower stops the sub-attribute loop. -/
theorem parseAttribute_spec (f : Nat) (a : AttributeNode) (ha : ParsedAttr a)
    (hfk : a.keyType = .fk → a.fkTarget.isSome = true) (rest : List Token)
    (hmk : noMarkerAt rest)
    (hstop : a.attributeType = .composite →
      subListStop rest = true ∧ isMarkerTok rest[0]? = false)
    (hf : (attrToksC a).length ≤ f) :
    parseAttribute f (embL (attrToksC a) ++ rest) = .ok (a, rest) := by
  obtain ⟨n, hn, hc⟩ := ha
  rcases hc with h | ⟨t, h, ht1, ht2⟩ | h | ⟨subs, h, hsubs⟩ | h | h | ⟨d, h, hd⟩ | h <;> subst h
  · rfl
  · rfl
  · exact absurd (hfk rfl) (by simp [AttributeNode.fkTarget])
  · -- Composite: all control flow is definitional except the sub-attribute loop
    obtain ⟨hstop1, hstop2⟩ := hstop rfl
    have hsub := parseSubAttributeList_spec f subs rest hsubs hstop1 hstop2 (by
      simp only [attrToksC, List.length_append, List.length_map] at hf
      simp at hf
      omega)
    show Except.ok (AttributeNode.mk n .composite .nokey none none
        (some (parseSubAttributeList f
          (embL (subs.map (fun s => ((.IDENTIFIER, s.name) : TokType × String))) ++ rest)).1),
        (parseSubAttributeList f
          (embL (subs.map (fun s => ((.IDENTIFIER, s.name) : TokType × String))) ++ rest)).2) =
      Except.ok (AttributeNode.mk n .composite .nokey none none (some subs), rest)
    rw [hsub]
  · rfl
  · rfl
  · -- Typed
    have hdne : ¬d = "" := by
      intro he
      subst he
      exact absurd hd (by decide)
    rw [show attrToksC (.mk n .typed .nokey none (some d) none) =
      [(.IDENTIFIER, n), (.COLON, ":"), (.IDENTIFIER, d)] from by
        show (if d = "" then [((.IDENTIFIER, n) : TokType × String)]
          else [(.IDENTIFIER, n), (.COLON, ":"), (.IDENTIFIER, d)]) = _
        rw [if_neg hdne]]
    rfl
  · -- Plain simple: all six lookahead checks on rest fail
    obtain ⟨h1, h2, h3, h4, h5, h6⟩ := hmk
    show parseAttribute f (embT (.IDENTIFIER, n) :: rest) =
      .ok (.mk n .simple .nokey none none none, rest)
    simp only [parseAttribute, Bind.bind,
      show expect .IDENTIFIER (embT (.IDENTIFIER, n) :: rest) =
        .ok (embT (.IDENTIFIER, n), rest) from rfl,
      except_bind_ok_eq, h1, h2, h3, h4, h5, h6, Bool.false_eq_true, if_false]
    rfl

/-- Every printed attribute's token stream starts with its identifier. -/
theorem attrToksC_head (a : AttributeNode) (ha : ParsedAttr a) :
    ∃ tl, attrToksC a = (.IDENTIFIER, a.name) :: tl := by
  obtain ⟨n, hn, hc⟩ := ha
  rcases hc with h | ⟨t, h, _, _⟩ | h | ⟨subs, h, _⟩ | h | h | ⟨d, h, _⟩ | h <;> subst h
  · exact ⟨_, rfl⟩
  · exact ⟨_, rfl⟩
  · exact ⟨_, rfl⟩
  · exact ⟨_, rfl⟩
  · exact ⟨_, rfl⟩
  · exact ⟨_, rfl⟩
  · by_cases hd : d = ""
    · refine ⟨[], ?_⟩
      show (if d = "" then [((.IDENTIFIER, n) : TokType × String)] else _) = _
      rw [if_pos hd]
      rfl
    · refine ⟨[(.COLON, ":"), (.IDENTIFIER, d)], ?_⟩
      show (if d = "" then [((.IDENTIFIER, n) : TokType × String)] else _) = _
      rw [if_neg hd]
      rfl
  · exact ⟨_, rfl⟩

/-- A non-bad follower with its FK target present opens with its name and then an
attribute marker. -/
theorem attrToksC_marker (a : AttributeNode) (ha : ParsedAttr a)
    (hfk : a.keyType = .fk → a.fkTarget.isSome = true) (hbad : ¬badFollower a) :
    ∃ ty v tl, attrToksC a = (.IDENTIFIER, a.name) :: (ty, v) :: tl ∧
      (ty = .PK ∨ ty = .FK ∨ ty = .COMPOSITE ∨ ty = .MULTIVALUED ∨ ty = .DERIVED) := by
  obtain ⟨n, hn, hc⟩ := ha
  rcases hc with h | ⟨t, h, _, _⟩ | h | ⟨subs, h, _⟩ | h | h | ⟨d, h, _⟩ | h <;> subst h
  · exact ⟨.PK, "PK", _, rfl, by simp⟩
  · exact ⟨.FK, "FK", _, rfl, by simp⟩
  · exact absurd (hfk rfl) (by simp [AttributeNode.fkTarget])
  · exact ⟨.COMPOSITE, "Composite", _, rfl, by simp⟩
  · exact ⟨.MULTIVALUED, "Multivalued", _, rfl, by simp⟩
  · exact ⟨.DERIVED, "Derived", _, rfl, by simp⟩
  · exact absurd ⟨rfl, Or.inr rfl⟩ hbad
  · exact absurd ⟨rfl, Or.inl rfl⟩ hbad

theorem attrListStop_curType {ts : List Token} (h : attrListStop ts) :
    (cur ts).type = .EOF ∨ (cur ts).type = .ENTITY ∨ (cur ts).type = .WEAK ∨
    (cur ts).type = .RELATION ∨ (cur ts).type = .IDENTIFYING ∨
    (cur ts).type = .IDENTIFIED := by
  rcases h with h | h | h
  · simp only [isAtEnd, decide_eq_true_eq] at h
    exact Or.inl h
  · simp only [isEntityOrRelationStart, Bool.or_eq_true, check, decide_eq_true_eq] at h
    rcases h with ((h | h) | h) | h
    · exact Or.inr (Or.inl h.2)
    · exact Or.inr (Or.inr (Or.inl h.2))
    · exact Or.inr (Or.inr (Or.inr (Or.inl h.2)))
    · exact Or.inr (Or.inr (Or.inr (Or.inr (Or.inl h.2))))
  · simp only [check, decide_eq_true_eq] at h
    exact Or.inr (Or.inr (Or.inr (Or.inr (Or.inr h.2))))

theorem attrListStop_noMarker {ts : List Token} (h : attrListStop ts) : noMarkerAt ts := by
  have hty := attrListStop_curType h
  refine ⟨?_, ?_, ?_, ?_, ?_, ?_⟩ <;>
    · simp only [check, decide_eq_false_iff_not]
      intro hcon
      rcases hty with h | h | h | h | h | h <;> rw [h] at hcon <;>
        exact absurd hcon.2 (by decide)

theorem attrListStop_subStop {ts : List Token} (h : attrListStop ts) :
    subListStop ts = true ∧ isMarkerTok ts[0]? = false := by
  have hty := attrListStop_curType h
  constructor
  · simp only [subListStop, Bool.or_eq_true]
    left
    simp only [Bool.not_eq_true', check, decide_eq_false_iff_not]
    intro hcon
    rcases hty with h | h | h | h | h | h <;> rw [h] at hcon <;>
      first
        | exact absurd rfl hcon.1
        | exact absurd hcon.2 (by decide)
  · cases hts : ts with
    | nil => rfl
    | cons t0 trest =>
      rw [hts] at hty
      have hcur : cur (t0 :: trest) = t0 := rfl
      rw [hcur] at hty
      simp only [List.getElem?_cons_zero, isMarkerTok, decide_eq_false_iff_not]
      intro hcon
      rcases hty with h | h | h | h | h | h <;>
        rcases hcon with hc | hc | hc | hc | hc <;> rw [h] at hc <;> exact absurd hc (by decide)

/-- Phase C for entity attribute lists. -/
theorem parseAttributeList_spec : ∀ (f : Nat) (attrs : List AttributeNode)
    (rest : List Token),
    (∀ a ∈ attrs, ParsedAttr a) →
    (∀ a ∈ attrs, a.keyType = .fk → a.fkTarget.isSome = true) →
    compSeqOk attrs → attrListStop rest →
    (attrs.flatMap attrToksC).length < f →
    parseAttributeList f (embL (attrs.flatMap attrToksC) ++ rest) = .ok (attrs, rest) := by
  intro f
  induction f with
  | zero =>
    intro attrs rest _ _ _ _ hf
    omega
  | succ f ih =>
    intro attrs rest hall hfks hcomp hrest hf
    cases attrs with
    | nil =>
      simp only [List.flatMap_nil, embL, List.map_nil, List.nil_append]
      simp only [parseAttributeList]
      have hty := attrListStop_curType hrest
      rcases hrest with h | h | h
      · rw [if_neg (by rw [h]; simp)]
      · rw [if_neg (by rw [h]; simp)]
      · have hae : isAtEnd rest = false := by
          simp only [check, decide_eq_true_eq] at h
          simp [isAtEnd, h.2]
        have hst : isEntityOrRelationStart rest = false := by
          simp only [check, decide_eq_true_eq] at h
          simp [isEntityOrRelationStart, check, h.2]
        rw [if_pos (by rw [hae, hst]; rfl)]
        have hid : check .IDENTIFIER rest = false := by
          simp only [check, decide_eq_true_eq] at h
          simp [check, h.2]
        rw [if_neg (by rw [hid]; simp), if_pos h]
    | cons a more =>
      obtain ⟨tl, htl⟩ := attrToksC_head a (hall a (by simp))
      have hflat : (a :: more).flatMap attrToksC = attrToksC a ++ more.flatMap attrToksC :=
        rfl
      rw [hflat, embL_append, List.append_assoc]
      rw [htl]
      show parseAttributeList (f + 1) (embT (.IDENTIFIER, a.name) ::
        (embL tl ++ (embL (more.flatMap attrToksC) ++ rest))) = _
      simp only [parseAttributeList]
      rw [if_pos (by rfl), if_pos (by rfl)]
      have hmk2 : noMarkerAt (embL (more.flatMap attrToksC) ++ rest) := by
        cases more with
        | nil =>
          simp only [List.flatMap_nil, embL, List.map_nil, List.nil_append]
          exact attrListStop_noMarker hrest
        | cons a2 more2 =>
          obtain ⟨tl2, htl2⟩ := attrToksC_head a2 (hall a2 (by simp))
          rw [show (a2 :: more2).flatMap attrToksC = attrToksC a2 ++ more2.flatMap attrToksC
            from rfl, htl2, embL_append]
          exact ⟨rfl, rfl, rfl, rfl, rfl, rfl⟩
      have hsubstop : a.attributeType = .composite →
          subListStop (embL (more.flatMap attrToksC) ++ rest) = true ∧
          isMarkerTok (embL (more.flatMap attrToksC) ++ rest)[0]? = false := by
        intro hac
        cases more with
        | nil =>
          simp only [List.flatMap_nil, embL, List.map_nil, List.nil_append]
          exact attrListStop_subStop hrest
        | cons a2 more2 =>
          have hnotbad : ¬badFollower a2 := by
            obtain ⟨hc1, _⟩ := hcomp
            exact hc1 hac
          obtain ⟨ty, v, tl2, htl2, hmk⟩ := attrToksC_marker a2 (hall a2 (by simp))
            (hfks a2 (by simp)) hnotbad
          rw [show (a2 :: more2).flatMap attrToksC = attrToksC a2 ++ more2.flatMap attrToksC
            from rfl, htl2, embL_append]
          constructor
          · simp only [subListStop, Bool.or_eq_true]
            right
            simp only [embL, List.map_cons, List.cons_append, peek1,
              List.getElem?_cons_succ, List.getElem?_cons_zero]
            simp only [isMarkerTok, embT, decide_eq_true_eq]
            exact hmk
          · simp only [embL, List.map_cons, List.cons_append, List.getElem?_cons_zero]
            rfl
      have hattr := parseAttribute_spec f a (hall a (by simp)) (hfks a (by simp))
        (embL (more.flatMap attrToksC) ++ rest) hmk2 hsubstop (by
          rw [hflat] at hf
          simp only [List.length_append] at hf
          omega)
      rw [htl] at hattr
      simp only [embL, List.map_cons, List.cons_append, List.append_assoc] at hattr
      rw [show embT (.IDENTIFIER, a.name) ::
          (embL tl ++ (embL (more.flatMap attrToksC) ++ rest)) =
        embT (.IDENTIFIER, a.name) ::
          (List.map embT tl ++ (List.map embT (more.flatMap attrToksC) ++ rest)) from rfl]
      rw [hattr, bindm_ok_eq]
      show (Bind.bind (parseAttributeList f (List.map embT (more.flatMap attrToksC) ++ rest))
          (fun q => Except.ok (a :: q.1, q.2)) :
          Except String (List AttributeNode × List Token)) = Except.ok (a :: more, rest)
      have hcomp' : compSeqOk more := by
        cases more with
        | nil => trivial
        | cons a2 more2 => exact hcomp.2
      have hrec := ih more rest (fun x hx => hall x (by simp [hx]))
        (fun x hx => hfks x (by simp [hx])) hcomp' hrest (by
          rw [hflat] at hf
          simp only [List.length_append] at hf
          have : 0 < (attrToksC a).length := by
            rw [htl]
            simp
          omega)
      rw [show (embL (more.flatMap attrToksC) ++ rest : List Token) =
        List.map embT (more.flatMap attrToksC) ++ rest from rfl] at hrec
      rw [hrec, bindm_ok_eq]

/-- Phase C for a single foreign-key target (`Entity.attr`). -/
theorem parseFkTarget_spec (t : ForeignKeyTarget) (rest : List Token) :
    parseFkTarget (embL (fkToksC t) ++ rest) = .ok (t, rest) := by
  obtain ⟨en, an⟩ := t
  rfl

theorem idListToks_decomp : ∀ (t : ForeignKeyTarget) (ids2 : List ForeignKeyTarget),
    idListToks (t :: ids2) = fkToksC t ++ moreToks ids2 := by
  intro t ids2
  induction ids2 generalizing t with
  | nil => simp [idListToks, moreToks]
  | cons u us ih =>
    show fkToksC t ++ [(.PLUS, "+")] ++ idListToks (u :: us) = _
    rw [ih u]
    simp [moreToks]

theorem moreToks_len (ids2 : List ForeignKeyTarget) :
    ids2.length ≤ (moreToks ids2).length := by
  induction ids2 with
  | nil => simp [moreToks]
  | cons u us ih =>
    simp only [moreToks, fkToksC, List.length_cons, List.length_append]
    omega

/-- Phase C for the identified-by continuation loop. -/
theorem parseIdentifiedByMore_spec : ∀ (f : Nat) (acc ids2 : List ForeignKeyTarget)
    (rest : List Token), check .PLUS rest = false → ids2.length < f →
    parseIdentifiedByMore f acc (embL (moreToks ids2) ++ rest) = .ok (acc ++ ids2, rest) := by
  intro f
  induction f with
  | zero =>
    intro acc ids2 rest _ hf
    omega
  | succ f ih =>
    intro acc ids2 rest hstop hf
    cases ids2 with
    | nil =>
      show parseIdentifiedByMore (f + 1) acc rest = _
      simp only [parseIdentifiedByMore]
      rw [if_neg (by rw [hstop]; simp), List.append_nil]
    | cons u us =>
      show parseIdentifiedByMore (f + 1) acc
        (embT (.PLUS, "+") :: (embL (fkToksC u ++ moreToks us) ++ rest)) = _
      simp only [parseIdentifiedByMore]
      rw [if_pos (by rfl)]
      rw [show (embT (.PLUS, "+") :: (embL (fkToksC u ++ moreToks us) ++ rest)).tail =
        embL (fkToksC u) ++ (embL (moreToks us) ++ rest) from by
          rw [embL_append, List.append_assoc]
          rfl]
      rw [parseFkTarget_spec u, bindm_ok_eq]
      show parseIdentifiedByMore f (acc ++ [u]) (embL (moreToks us) ++ rest) =
        Except.ok (acc ++ u :: us, rest)
      rw [ih (acc ++ [u]) us rest hstop (by
        simp only [List.length_cons] at hf
        omega)]
      rw [List.append_assoc]
      rfl

/-- Phase C for a whole identified-by list. -/
theorem parseIdentifiedByList_spec (f : Nat) (t : ForeignKeyTarget)
    (ids2 : List ForeignKeyTarget) (rest : List Token)
    (hstop : check .PLUS rest = false) (hf : ids2.length < f) :
    parseIdentifiedByList f (embL (idListToks (t :: ids2)) ++ rest) = .ok (t :: ids2, rest) := by
  rw [idListToks_decomp, embL_append, List.append_assoc]
  simp only [parseIdentifiedByList]
  rw [parseFkTarget_spec t, bindm_ok_eq]
  show parseIdentifiedByMore f [t] (embL (moreToks ids2) ++ rest) = Except.ok (t :: ids2, rest)
  rw [parseIdentifiedByMore_spec f [t] ids2 rest hstop hf]
  rfl

/-- At a stop position of the top-level loop, no keyword check other than the
four start keywords can fire. -/
theorem hardStop_check {ts : List Token} (ty : TokType)
    (h : isAtEnd ts = true ∨ isEntityOrRelationStart ts = true)
    (h1 : ty ≠ .ENTITY) (h2 : ty ≠ .WEAK) (h3 : ty ≠ .RELATION) (h4 : ty ≠ .IDENTIFYING) :
    check ty ts = false := by
  rcases h with h | h
  · simp only [isAtEnd, decide_eq_true_eq] at h
    simp [check, h]
  · simp only [isEntityOrRelationStart, Bool.or_eq_true, check, decide_eq_true_eq] at h
    simp only [check, decide_eq_false_iff_not]
    rintro ⟨hne, hty⟩
    rcases h with ((h | h) | h) | h
    · exact h1 (hty.symm.trans h.2)
    · exact h2 (hty.symm.trans h.2)
    · exact h3 (hty.symm.trans h.2)
    · exact h4 (hty.symm.trans h.2)

theorem hardStop_attrListStop {ts : List Token}
    (h : isAtEnd ts = true ∨ isEntityOrRelationStart ts = true) : attrListStop ts := by
  rcases h with h | h
  · exact Or.inl h
  · exact Or.inr (Or.inl h)

/-- The head of `parseEntity` on embedded tokens, reduced to its attribute-list
continuation. -/
theorem parseEntity_steps (f : Nat) (name : String) (tl : List Token) :
    parseEntity f (embT (.ENTITY, "Entity") :: embT (.IDENTIFIER, name) ::
      embT (.COLON, ":") :: tl) =
    Bind.bind (parseAttributeList f tl) (fun q =>
      Except.ok ((⟨name, .strong, q.1, none⟩ : EntityNode), q.2)) := rfl

/-- The head of `parseWeakEntity` on embedded tokens. -/
theorem parseWeakEntity_steps (f : Nat) (name : String) (tl : List Token) :
    parseWeakEntity f (embT (.WEAK, "Weak") :: embT (.ENTITY, "Entity") ::
      embT (.IDENTIFIER, name) :: embT (.COLON, ":") :: tl) =
    Bind.bind (parseAttributeList f tl) (fun q =>
      if check .IDENTIFIED q.2 then
        Bind.bind (expect .BY q.2.tail) (fun q2 =>
          Bind.bind (parseIdentifiedByList f q2.2) (fun q3 =>
            Except.ok ((⟨name, .weak, q.1, some q3.1⟩ : EntityNode), q3.2)))
      else Except.ok ((⟨name, .weak, q.1, none⟩ : EntityNode), q.2)) := rfl

/-- Phase C for a strong entity block. -/
theorem parseEntity_spec (f : Nat) (e : EntityNode) (he : ParsedEntity e)
    (hstrong : e.entityType = .strong)
    (hfks : ∀ a ∈ e.attributes, a.keyType = .fk → a.fkTarget.isSome = true)
    (hcomp : compSeqOk e.attributes) (rest : List Token) (hrest : attrListStop rest)
    (hf : (e.attributes.flatMap attrToksC).length < f) :
    parseEntity f (embL (entityToksC e) ++ rest) = .ok (e, rest) := by
  obtain ⟨name, ety, attrs, idby⟩ := e
  have h' : ety = .strong := hstrong
  subst h'
  have hid : idby = none := he.2.2.1 rfl
  subst hid
  have htoks2 : embL (entityToksC ⟨name, .strong, attrs, none⟩) ++ rest =
      embT (.ENTITY, "Entity") :: embT (.IDENTIFIER, name) :: embT (.COLON, ":") ::
        (embL (attrs.flatMap attrToksC ++ []) ++ rest) := rfl
  rw [htoks2, List.append_nil, parseEntity_steps]
  rw [parseAttributeList_spec f attrs rest he.2.1 hfks hcomp hrest hf]
  rfl

/-- Phase C for a weak entity block, with or without an identified-by clause. -/
theorem parseWeakEntity_spec (f : Nat) (e : EntityNode) (he : ParsedEntity e)
    (hweak : e.entityType = .weak)
    (hfks : ∀ a ∈ e.attributes, a.keyType = .fk → a.fkTarget.isSome = true)
    (hcomp : compSeqOk e.attributes) (rest : List Token)
    (hstop : isAtEnd rest = true ∨ isEntityOrRelationStart rest = true)
    (hf1 : (e.attributes.flatMap attrToksC).length < f)
    (hf2 : ∀ ids, e.identifiedBy = some ids → ids.length ≤ f) :
    parseWeakEntity f (embL (entityToksC e) ++ rest) = .ok (e, rest) := by
  obtain ⟨name, ety, attrs, idby⟩ := e
  have h' : ety = .weak := hweak
  subst h'
  have hplus : check .PLUS rest = false :=
    hardStop_check .PLUS hstop (by decide) (by decide) (by decide) (by decide)
  have hidf : check .IDENTIFIED rest = false :=
    hardStop_check .IDENTIFIED hstop (by decide) (by decide) (by decide) (by decide)
  cases idby with
  | none =>
    have htoks2 : embL (entityToksC ⟨name, .weak, attrs, none⟩) ++ rest =
        embT (.WEAK, "Weak") :: embT (.ENTITY, "Entity") :: embT (.IDENTIFIER, name) ::
          embT (.COLON, ":") :: (embL (attrs.flatMap attrToksC ++ []) ++ rest) := rfl
    rw [htoks2, List.append_nil, parseWeakEntity_steps]
    rw [parseAttributeList_spec f attrs rest he.2.1 hfks hcomp (hardStop_attrListStop hstop)
      hf1]
    rw [bindm_ok_eq]
    show (if check .IDENTIFIED rest then
        Bind.bind (expect .BY rest.tail) (fun q2 =>
          Bind.bind (parseIdentifiedByList f q2.2) (fun q3 =>
            Except.ok ((⟨name, .weak, attrs, some q3.1⟩ : EntityNode), q3.2)))
      else Except.ok ((⟨name, .weak, attrs, none⟩ : EntityNode), rest)) =
      Except.ok (⟨name, .weak, attrs, none⟩, rest)
    rw [if_neg (by simp [hidf])]
  | some ids =>
    have hne : ids ≠ [] := (he.2.2.2 ids rfl).1
    cases ids with
    | nil => exact absurd rfl hne
    | cons t ids2 =>
      have htoks2 : embL (entityToksC ⟨name, .weak, attrs, some (t :: ids2)⟩) ++ rest =
          embT (.WEAK, "Weak") :: embT (.ENTITY, "Entity") :: embT (.IDENTIFIER, name) ::
            embT (.COLON, ":") :: (embL (attrs.flatMap attrToksC ++
              ((.IDENTIFIED, "Identified") :: (.BY, "By") :: idListToks (t :: ids2))) ++
                rest) := rfl
      rw [htoks2, embL_append, List.append_assoc, parseWeakEntity_steps]
      rw [parseAttributeList_spec f attrs
        (embL ((.IDENTIFIED, "Identified") :: (.BY, "By") :: idListToks (t :: ids2)) ++ rest)
        he.2.1 hfks hcomp (Or.inr (Or.inr rfl)) hf1]
      rw [bindm_ok_eq]
      show Bind.bind (parseIdentifiedByList f (embL (idListToks (t :: ids2)) ++ rest))
          (fun q3 => (Except.ok ((⟨name, .weak, attrs, some q3.1⟩ : EntityNode), q3.2) :
            Except String (EntityNode × List Token))) =
        Except.ok (⟨name, .weak, attrs, some (t :: ids2)⟩, rest)
      rw [parseIdentifiedByList_spec f t ids2 rest hplus (by
        have := hf2 (t :: ids2) rfl
        simp only [List.length_cons] at this
        omega)]
      rfl

/-- Phase C for relationship attribute lists (plain names on the `Relation` line). -/
theorem parseRelationAttributeList_spec : ∀ (f : Nat) (attrs : List AttributeNode)
    (rest : List Token),
    (∀ a ∈ attrs, ∃ m, a = mkSimpleAttr m) →
    (isAtEnd rest = true ∨ isEntityOrRelationStart rest = true) →
    attrs.length ≤ f →
    parseRelationAttributeList f
      (embL (attrs.map fun b => ((.IDENTIFIER, b.name) : TokType × String)) ++ rest) =
      (attrs, rest) := by
  intro f
  induction f with
  | zero =>
    intro attrs rest _ _ hf
    have h0 : attrs = [] := List.eq_nil_of_length_eq_zero (Nat.le_zero.mp hf)
    subst h0
    rfl
  | succ f ih =>
    intro attrs rest hsh hstop hf
    cases attrs with
    | nil =>
      show parseRelationAttributeList (f + 1) rest = ([], rest)
      simp only [parseRelationAttributeList]
      rw [if_neg (by rcases hstop with h | h <;> simp [h])]
    | cons a more =>
      obtain ⟨m, hm⟩ := hsh a (by simp)
      show parseRelationAttributeList (f + 1) (embT (.IDENTIFIER, a.name) ::
        (embL (more.map fun b => ((.IDENTIFIER, b.name) : TokType × String)) ++ rest)) =
        (a :: more, rest)
      simp only [parseRelationAttributeList]
      rw [if_pos (by rfl)]
      rw [show (embT (.IDENTIFIER, a.name) ::
        (embL (more.map fun b => ((.IDENTIFIER, b.name) : TokType × String)) ++ rest)).tail =
        embL (more.map fun b => ((.IDENTIFIER, b.name) : TokType × String)) ++ rest from rfl]
      rw [ih more rest (fun x hx => hsh x (by simp [hx])) hstop (by
        simp only [List.length_cons] at hf
        omega)]
      rw [hm]
      rfl

/-- The head of `parseRelation` on embedded tokens, reduced to its
relation-attribute continuation. -/
theorem parseRelation_steps (f : Nat) (len ren verb : String) (lc rc : Cardinality)
    (lp rp : Participation) (tl : List Token) :
    parseRelation f (embT (.RELATION, "Relation") :: embT (.IDENTIFIER, len) ::
      embT (.LPAREN, "(") :: embT (cardTok lc) :: embT (.COMMA, ",") :: embT (partTok lp) ::
      embT (.RPAREN, ")") :: embT (.DASH, "—") :: embT (.LPAREN, "(") :: embT (cardTok rc) ::
      embT (.COMMA, ",") :: embT (partTok rp) :: embT (.RPAREN, ")") ::
      embT (.IDENTIFIER, ren) :: embT (.COLON, ":") :: embT (.IDENTIFIER, verb) :: tl) =
    (fun q => Except.ok ((⟨verb, .normal, ⟨len, lc, lp⟩, ⟨ren, rc, rp⟩, verb, q.1⟩ :
      RelationshipNode), q.2)) (parseRelationAttributeList f tl) := by
  cases lc <;> cases lp <;> cases rc <;> cases rp <;> rfl

/-- Phase C for a normal relationship line. -/
theorem parseRelation_spec (f : Nat) (r : RelationshipNode) (hr : ParsedRel r)
    (hnorm : r.relationshipType = .normal) (rest : List Token)
    (hstop : isAtEnd rest = true ∨ isEntityOrRelationStart rest = true)
    (hf : r.attributes.length ≤ f) :
    parseRelation f (embL (relToksC r) ++ rest) = .ok (r, rest) := by
  obtain ⟨name, rt, ⟨len, lc, lp⟩, ⟨ren, rc, rp⟩, verb, attrs⟩ := r
  have h' : rt = .normal := hnorm
  subst h'
  have hname : name = verb := hr.2.2.2.1
  subst hname
  have htoks2 : embL (relToksC ⟨name, .normal, ⟨len, lc, lp⟩, ⟨ren, rc, rp⟩, name,
      attrs⟩) ++ rest =
    embT (.RELATION, "Relation") :: embT (.IDENTIFIER, len) :: embT (.LPAREN, "(") ::
    embT (cardTok lc) :: embT (.COMMA, ",") :: embT (partTok lp) :: embT (.RPAREN, ")") ::
    embT (.DASH, "—") :: embT (.LPAREN, "(") :: embT (cardTok rc) :: embT (.COMMA, ",") ::
    embT (partTok rp) :: embT (.RPAREN, ")") :: embT (.IDENTIFIER, ren) ::
    embT (.COLON, ":") :: embT (.IDENTIFIER, name) ::
    (embL (attrs.map fun b => ((.IDENTIFIER, b.name) : TokType × String)) ++ rest) := rfl
  rw [htoks2, parseRelation_steps]
  rw [parseRelationAttributeList_spec f attrs rest
    (fun a ha => (hr.2.2.2.2.1 a ha).imp fun m hm => hm.2) hstop hf]

/-- Phase C for an identifying relationship line. -/
theorem parseIdentifyingRelation_spec (r : RelationshipNode) (hr : ParsedRel r)
    (hident : r.relationshipType = .identifying) (rest : List Token) :
    parseIdentifyingRelation (embL (relToksC r) ++ rest) = .ok (r, rest) := by
  obtain ⟨name, rt, ⟨len, lc, lp⟩, ⟨ren, rc, rp⟩, verb, attrs⟩ := r
  have h' : rt = .identifying := hident
  subst h'
  have hname : name = verb := hr.2.2.2.1
  subst hname
  obtain ⟨hlp, hrp, hattrs⟩ := hr.2.2.2.2.2 rfl
  have hlp' : lp = .total := hlp
  have hrp' : rp = .total := hrp
  have hattrs' : attrs = [] := hattrs
  subst hlp' hrp' hattrs'
  have htoks2 : embL (relToksC ⟨name, .identifying, ⟨len, lc, .total⟩, ⟨ren, rc, .total⟩,
      name, []⟩) ++ rest =
    embT (.IDENTIFYING, "Identifying") :: embT (.RELATION, "Relation") ::
    embT (.IDENTIFIER, len) :: embT (.LPAREN, "(") :: embT (cardTok lc) ::
    embT (.RPAREN, ")") :: embT (.DASH, "—") :: embT (.LPAREN, "(") :: embT (cardTok rc) ::
    embT (.RPAREN, ")") :: embT (.IDENTIFIER, ren) :: embT (.COLON, ":") ::
    embT (.IDENTIFIER, name) :: rest := rfl
  rw [htoks2]
  cases lc <;> cases rc <;> rfl

theorem idListToks_len (ids : List ForeignKeyTarget) :
    ids.length ≤ (idListToks ids).length := by
  cases ids with
  | nil => simp [idListToks]
  | cons t ids2 =>
    rw [idListToks_decomp]
    have h := moreToks_len ids2
    simp only [fkToksC, List.length_append, List.length_cons]
    omega

theorem entityToksC_len_attrs (e : EntityNode) :
    (e.attributes.flatMap attrToksC).length < (entityToksC e).length := by
  obtain ⟨n, ety, ats, idb⟩ := e
  cases ety <;> cases idb <;> simp [entityToksC] <;> omega

theorem entityToksC_weak_ids_len (n : String) (ats : List AttributeNode)
    (ids : List ForeignKeyTarget) :
    ids.length ≤ (entityToksC ⟨n, .weak, ats, some ids⟩).length := by
  have h1 : ids.length ≤ (idListToks ids).length := idListToks_len ids
  simp [entityToksC]
  omega

theorem relToksC_len_attrs (r : RelationshipNode) :
    r.attributes.length < (relToksC r).length := by
  obtain ⟨nm, rt, lside, rside, vb, ats⟩ := r
  cases rt <;> simp [relToksC, sideToksC] <;> omega

/-- The printed stream of a remaining document suffix always stands at a
top-level stop position: a start keyword or end of input. -/
theorem specStream_stop (es : List EntityNode) (rs : List RelationshipNode) :
    isAtEnd (embL (es.flatMap entityToksC ++ rs.flatMap relToksC ++ [(.EOF, "")])) = true ∨
    isEntityOrRelationStart (embL (es.flatMap entityToksC ++ rs.flatMap relToksC ++
      [(.EOF, "")])) = true := by
  cases es with
  | cons e es' =>
    right
    obtain ⟨n, ety, ats, idb⟩ := e
    cases ety
    · rfl
    · rfl
  | nil =>
    cases rs with
    | cons r rs' =>
      right
      obtain ⟨nm, rt, lside, rside, vb, ats⟩ := r
      cases rt
      · rfl
      · rfl
    | nil =>
      left
      rfl

theorem specStream_ent_dec (e0 : EntityNode) (es' : List EntityNode)
    (rs : List RelationshipNode) :
    embL ((e0 :: es').flatMap entityToksC ++ rs.flatMap relToksC ++ [(.EOF, "")]) =
    embL (entityToksC e0) ++ embL (es'.flatMap entityToksC ++ rs.flatMap relToksC ++
      [(.EOF, "")]) := by
  show embL ((entityToksC e0 ++ es'.flatMap entityToksC) ++ rs.flatMap relToksC ++
    [((.EOF : TokType), "")]) = _
  rw [List.append_assoc, List.append_assoc, embL_append, ← List.append_assoc]

theorem specStream_rel_dec (r0 : RelationshipNode) (rs' : List RelationshipNode) :
    embL (([] : List EntityNode).flatMap entityToksC ++
      (r0 :: rs').flatMap relToksC ++ [(.EOF, "")]) =
    embL (relToksC r0) ++ embL (([] : List EntityNode).flatMap entityToksC ++
      rs'.flatMap relToksC ++ [(.EOF, "")]) := by
  show embL ((relToksC r0 ++ rs'.flatMap relToksC) ++ [((.EOF : TokType), "")]) = _
  rw [List.append_assoc, embL_append]
  rfl

/-- The strong-entity branch of the top-level loop on embedded tokens. -/
theorem parseProgram_step_strong (f : Nat) (n : String) (ats : List AttributeNode)
    (idb : Option (List ForeignKeyTarget)) (X Y : List Token) (e' : EntityNode)
    (h : parseEntity f (embL (entityToksC ⟨n, .strong, ats, idb⟩) ++ X) = .ok (e', Y)) :
    parseProgram (f + 1) (embL (entityToksC ⟨n, .strong, ats, idb⟩) ++ X) =
    Bind.bind (parseProgram f Y) (fun q2 => Except.ok (e' :: q2.1, q2.2)) := by
  show Bind.bind (parseEntity f (embL (entityToksC ⟨n, .strong, ats, idb⟩) ++ X))
    (fun q => Bind.bind (parseProgram f q.2)
      (fun q2 => (Except.ok (q.1 :: q2.1, q2.2) :
        Except String (List EntityNode × List RelationshipNode)))) = _
  rw [h]
  exact bindm_ok_eq _ _

/-- The weak-entity branch of the top-level loop on embedded tokens. -/
theorem parseProgram_step_weak (f : Nat) (n : String) (ats : List AttributeNode)
    (idb : Option (List ForeignKeyTarget)) (X Y : List Token) (e' : EntityNode)
    (h : parseWeakEntity f (embL (entityToksC ⟨n, .weak, ats, idb⟩) ++ X) = .ok (e', Y)) :
    parseProgram (f + 1) (embL (entityToksC ⟨n, .weak, ats, idb⟩) ++ X) =
    Bind.bind (parseProgram f Y) (fun q2 => Except.ok (e' :: q2.1, q2.2)) := by
  show Bind.bind (parseWeakEntity f (embL (entityToksC ⟨n, .weak, ats, idb⟩) ++ X))
    (fun q => Bind.bind (parseProgram f q.2)
      (fun q2 => (Except.ok (q.1 :: q2.1, q2.2) :
        Except String (List EntityNode × List RelationshipNode)))) = _
  rw [h]
  exact bindm_ok_eq _ _

/-- The normal-relation branch of the top-level loop on embedded tokens. -/
theorem parseProgram_step_rel (f : Nat) (nm vb : String) (lside rside : RelationshipSide)
    (ats : List AttributeNode) (X Y : List Token) (r' : RelationshipNode)
    (h : parseRelation f (embL (relToksC ⟨nm, .normal, lside, rside, vb, ats⟩) ++ X) =
      .ok (r', Y)) :
    parseProgram (f + 1) (embL (relToksC ⟨nm, .normal, lside, rside, vb, ats⟩) ++ X) =
    Bind.bind (parseProgram f Y) (fun q2 => Except.ok (q2.1, r' :: q2.2)) := by
  show Bind.bind (parseRelation f (embL (relToksC ⟨nm, .normal, lside, rside, vb,
      ats⟩) ++ X))
    (fun q => Bind.bind (parseProgram f q.2)
      (fun q2 => (Except.ok (q2.1, q.1 :: q2.2) :
        Except String (List EntityNode × List RelationshipNode)))) = _
  rw [h]
  exact bindm_ok_eq _ _

/-- The identifying-relation branch of the top-level loop on embedded tokens. -/
theorem parseProgram_step_ident (f : Nat) (nm vb : String) (lside rside : RelationshipSide)
    (ats : List AttributeNode) (X Y : List Token) (r' : RelationshipNode)
    (h : parseIdentifyingRelation
      (embL (relToksC ⟨nm, .identifying, lside, rside, vb, ats⟩) ++ X) = .ok (r', Y)) :
    parseProgram (f + 1) (embL (relToksC ⟨nm, .identifying, lside, rside, vb, ats⟩) ++ X) =
    Bind.bind (parseProgram f Y) (fun q2 => Except.ok (q2.1, r' :: q2.2)) := by
  show Bind.bind (parseIdentifyingRelation (embL (relToksC ⟨nm, .identifying, lside, rside,
      vb, ats⟩) ++ X))
    (fun q => Bind.bind (parseProgram f q.2)
      (fun q2 => (Except.ok (q2.1, q.1 :: q2.2) :
        Except String (List EntityNode × List RelationshipNode)))) = _
  rw [h]
  exact bindm_ok_eq _ _

/-- Phase C for the whole document: the printed token stream of a parser-image
AST satisfying the two amendment hypotheses reparses to the same AST. -/
theorem parseProgram_spec : ∀ (f : Nat) (es : List EntityNode) (rs : List RelationshipNode),
    (∀ e ∈ es, ParsedEntity e) →
    (∀ e ∈ es, ∀ a ∈ e.attributes, a.keyType = .fk → a.fkTarget.isSome = true) →
    (∀ e ∈ es, compSeqOk e.attributes) →
    (∀ r ∈ rs, ParsedRel r) →
    (es.flatMap entityToksC ++ rs.flatMap relToksC).length < f →
    parseProgram f (embL (es.flatMap entityToksC ++ rs.flatMap relToksC ++ [(.EOF, "")])) =
      .ok (es, rs) := by
  intro f
  induction f with
  | zero =>
    intro es rs _ _ _ _ hf
    omega
  | succ f ih =>
    intro es rs hes hfks hcs hrs hf
    cases es with
    | nil =>
      cases rs with
      | nil => rfl
      | cons r rs' =>
        have hr := hrs r (by simp)
        obtain ⟨nm, rt, lside, rside, vb, ats⟩ := r
        have hlenr : ats.length < (relToksC ⟨nm, rt, lside, rside, vb, ats⟩).length :=
          relToksC_len_attrs ⟨nm, rt, lside, rside, vb, ats⟩
        have hstopX := specStream_stop ([] : List EntityNode) rs'
        simp only [List.flatMap_nil, List.nil_append, List.flatMap_cons,
          List.length_append] at hf
        rw [specStream_rel_dec]
        cases rt with
        | normal =>
          rw [parseProgram_step_rel f nm vb lside rside ats _ _ _
            (parseRelation_spec f ⟨nm, .normal, lside, rside, vb, ats⟩ hr rfl _ hstopX
              (by show ats.length ≤ f; omega))]
          rw [ih [] rs' (by simp) (by simp) (by simp) (fun x hx => hrs x (by simp [hx]))
            (by simp only [List.flatMap_nil, List.nil_append]; omega)]
          rfl
        | identifying =>
          rw [parseProgram_step_ident f nm vb lside rside ats _ _ _
            (parseIdentifyingRelation_spec ⟨nm, .identifying, lside, rside, vb, ats⟩
              hr rfl _)]
          rw [ih [] rs' (by simp) (by simp) (by simp) (fun x hx => hrs x (by simp [hx]))
            (by simp only [List.flatMap_nil, List.nil_append]; omega)]
          rfl
    | cons e es' =>
      have he := hes e (by simp)
      have hfke := hfks e (by simp)
      have hcse := hcs e (by simp)
      obtain ⟨n, ety, ats, idb⟩ := e
      have hstopX := specStream_stop es' rs
      simp only [List.flatMap_cons, List.length_append] at hf
      rw [specStream_ent_dec]
      cases ety with
      | strong =>
        have hid : idb = none := he.2.2.1 rfl
        subst hid
        have hl : (ats.flatMap attrToksC).length <
            (entityToksC ⟨n, .strong, ats, none⟩).length :=
          entityToksC_len_attrs ⟨n, .strong, ats, none⟩
        rw [parseProgram_step_strong f n ats none _ _ _
          (parseEntity_spec f ⟨n, .strong, ats, none⟩ he rfl hfke hcse _
            (hardStop_attrListStop hstopX)
            (by show (ats.flatMap attrToksC).length < f; omega))]
        rw [ih es' rs (fun x hx => hes x (by simp [hx])) (fun x hx => hfks x (by simp [hx]))
          (fun x hx => hcs x (by simp [hx])) hrs
          (by simp only [List.length_append]; omega)]
        rfl
      | weak =>
        have hl : (ats.flatMap attrToksC).length <
            (entityToksC ⟨n, .weak, ats, idb⟩).length :=
          entityToksC_len_attrs ⟨n, .weak, ats, idb⟩
        rw [parseProgram_step_weak f n ats idb _ _ _
          (parseWeakEntity_spec f ⟨n, .weak, ats, idb⟩ he rfl hfke hcse _ hstopX
            (by show (ats.flatMap attrToksC).length < f; omega)
            (by
              intro ids hids
              have hids' : idb = some ids := hids
              subst hids'
              have h1 : ids.length ≤ (entityToksC ⟨n, .weak, ats, some ids⟩).length :=
                entityToksC_weak_ids_len n ats ids
              omega))]
        rw [ih es' rs (fun x hx => hes x (by simp [hx])) (fun x hx => hfks x (by simp [hx]))
          (fun x hx => hcs x (by simp [hx])) hrs
          (by simp only [List.length_append]; omega)]
        rfl

theorem self_mem_attrWithSubs (a : AttributeNode) : a ∈ attrWithSubs a := by
  obtain ⟨n, t, k, fkt, dt, subs⟩ := a
  cases subs with
  | none => simp [attrWithSubs]
  | some l => simp [attrWithSubs]

theorem mem_astAllAttrs {ast : ERDiagramAST} {e : EntityNode} {a : AttributeNode}
    (he : e ∈ ast.entities) (ha : a ∈ e.attributes) : a ∈ astAllAttrs ast := by
  simp only [astAllAttrs, List.mem_append, List.mem_flatMap]
  exact Or.inl ⟨e, he, ⟨a, ha, self_mem_attrWithSubs a⟩⟩

/-- C1 (amended): printing a parsed AST and reparsing returns the same AST,
provided every `fk` attribute carries its target and no composite attribute is
immediately followed by an unmarked simple or typed attribute. -/
theorem C1_round_trip_amended (s : String) (ast : ERDiagramAST)
    (h : parseDSL s = .ok ast) (hfk : fkOk ast) (hcomp : compOk ast) :
    parseDSL (generateDSL ast) = .ok ast := by
  have hwf := parseDSL_wf h
  have hstrip := strip_tokenize_generateDSL ast hwf
  obtain ⟨es, rs⟩ := ast
  have hlen : (tokenize (generateDSL ⟨es, rs⟩)).length = (specToks ⟨es, rs⟩).length := by
    rw [← hstrip, List.length_map]
  have hfuel : (es.flatMap entityToksC ++ rs.flatMap relToksC).length <
      (tokenize (generateDSL ⟨es, rs⟩)).length + 1 := by
    rw [hlen]
    show _ < (es.flatMap entityToksC ++ rs.flatMap relToksC ++
      [((.EOF : TokType), "")]).length + 1
    simp only [List.length_append, List.length_cons, List.length_nil]
    omega
  have hemb := parseProgram_spec ((tokenize (generateDSL ⟨es, rs⟩)).length + 1) es rs
    hwf.1 (fun e he a ha hk => hfk a (mem_astAllAttrs he ha) hk) (fun e he => hcomp e he)
    hwf.2 hfuel
  have hforall : List.Forall₂ stripEq (embL (specToks ⟨es, rs⟩))
      (tokenize (generateDSL ⟨es, rs⟩)) :=
    strip_map_forall2 _ _ (by rw [embL_strip, hstrip])
  have hreal : parseProgram ((tokenize (generateDSL ⟨es, rs⟩)).length + 1)
      (tokenize (generateDSL ⟨es, rs⟩)) = .ok (es, rs) :=
    parseProgram_strip _ _ _ _ _ hforall (by
      show parseProgram _ (embL (specToks ⟨es, rs⟩)) = _
      exact hemb)
  show Bind.bind (parseProgram ((tokenize (generateDSL ⟨es, rs⟩)).length + 1)
      (tokenize (generateDSL ⟨es, rs⟩)))
    (fun p => (Except.ok ⟨p.1, p.2⟩ : Except String ERDiagramAST)) = Except.ok ⟨es, rs⟩
  rw [hreal]
  exact bindm_ok_eq _ _

/-- C1 counterexample: an `FK` attribute without a target parses, but printing
drops the bare `FK` marker, so reparsing yields a `nokey` attribute and the
round trip fails. -/
theorem C1_cex :
    parseDSL C1doc = .ok C1astFk ∧
    generateDSL C1astFk = "Entity E:\n  x" ∧
    parseDSL (generateDSL C1astFk) = .ok C1astNokey ∧
    ¬ parseDSL (generateDSL C1astFk) = .ok C1astFk := by
  refine ⟨rfl, rfl, rfl, ?_⟩
  intro hcon
  rw [show parseDSL (generateDSL C1astFk) = .ok C1astNokey from rfl] at hcon
  injection hcon with h1
  simp [C1astFk, C1astNokey] at h1

/-- C1 witness: a concrete document satisfying both amendment hypotheses for
which the round trip holds. -/
theorem C1_witness :
    parseDSL C1wdoc = .ok C1wAst ∧ fkOk C1wAst ∧ compOk C1wAst ∧
    parseDSL (generateDSL C1wAst) = .ok C1wAst := by
  have hfk : fkOk C1wAst := by
    intro a ha hk
    simp [astAllAttrs, C1wAst, attrWithSubs] at ha
    subst ha
    simp [AttributeNode.keyType] at hk
  have hcomp : compOk C1wAst := by
    intro e he
    simp [C1wAst] at he
    subst he
    trivial
  exact ⟨rfl, hfk, hcomp, C1_round_trip_amended C1wdoc C1wAst rfl hfk hcomp⟩

end Ergo
